import Mathlib

/-! # cscppc: the compiler wrapper core (`cswrap-core.c`)

A shallow embedding of the argument translator and of the child supervision of
the two versions of `cswrap-core.c`:

* `Cscppc.V1`: `src/cswrap-core.c` (the older version),
* `Cscppc.V2`: `src/src/cswrap-core.c` (the newer version).

C strings are Lean `String`s; the tests on them (`strcmp`, `strncmp`, `strrchr`,
`strstr`) are computed on their character lists.  The argument vector `argv` is
a `List String` holding the slots `argv[0] .. argv[argc_orig - 1]` (the final
`NULL` slot is never read or written by the translator and is left out); the
live part of the vector is `argv[0] .. argv[argc - 1]`.  A run of the translator
ends in an `Outcome`: a returned value with the vector as it was left, or
undefined behaviour.  The operating system is given to the supervision as the
list of the answers of `waitid` or `waitpid`.
-/

namespace Cscppc

/-! ## String helpers -/

/-- The macro `STREQ(a, b)`, that is `!strcmp(a, b)`.  The older version defines
`STREQ` and `MATCH_PREFIX` itself; the newer version takes them from
`cswrap-util.h`, where they are taken to be the same. -/
def STREQ (a b : String) : Bool := decide (a = b)

/-- The macro `MATCH_PREFIX(str, pref)`, that is
`!strncmp(str, pref, sizeof(pref) - 1U)`: `pref` is a prefix of `str`. -/
def MATCH_PREFIX (str pref : String) : Bool := pref.toList.isPrefixOf str.toList

/-- The C function `strrchr(s, c)`: the part of `s` starting at the last
occurrence of `c`, or `none` (the null pointer) when `c` does not occur. -/
def strrchr : List Char → Char → Option (List Char)
  | [], _ => none
  | x :: xs, c =>
    match strrchr xs c with
    | some r => some r
    | none => if x = c then some (x :: xs) else none

/-- The C function `strstr(haystack, needle)`: the part of `haystack` starting
at the first occurrence of `needle`, or `none` (the null pointer). -/
def strstr : List Char → List Char → Option (List Char)
  | [], needle => if needle.isEmpty then some [] else none
  | h :: t, needle =>
    if needle.isPrefixOf (h :: t) then some (h :: t) else strstr t needle

/-- The C function `memmove(argv + dst, argv + src, n * sizeof( *argv))` on the
slots of `argv`: the `n` slots starting at `src` are copied to the `n` slots
starting at `dst`; every other slot keeps its content. -/
def memmove (argv : List String) (dst src n : Nat) : List String :=
  argv.take dst ++ (argv.drop src).take n ++ argv.drop (dst + n)

/-! ## Outcomes of the translator -/

/-- What a run of `translate_args_for_analyzer` ends with. -/
inductive Outcome where
  /-- The function returned `value`, leaving `argv` as given. -/
  | ret (value : Int) (argv : List String)
  /-- The run executed an operation with undefined behaviour (a `memmove` with a
  negative element count, or a read outside of the vector). -/
  | undefined
  /-- The loop model ran out of fuel. -/
  | out_of_fuel
  deriving DecidableEq, Repr

/-- The value returned by the run, when it returned. -/
def Outcome.value : Outcome → Option Int
  | .ret v _ => some v
  | _ => none

/-- The translated vector `argv[0] .. argv[n - 1]` of a run that returned a
count `n ≥ 0`. -/
def Outcome.args : Outcome → Option (List String)
  | .ret v argv => if 0 ≤ v then some (argv.take v.toNat) else none
  | _ => none

/-- What one pass through the body of the `for` loop ends with. -/
inductive Step where
  /-- The statement `return value;` -/
  | ret (value : Int) (argv : List String)
  /-- Undefined behaviour. -/
  | undefined
  /-- The statement `break;` -/
  | brk (argc : Nat) (argv : List String) (cnt_files : Nat)
  /-- The statement `continue;` or the end of the body: `i` is the value of the
  loop variable after the `++i` of the loop header. -/
  | next (argc : Nat) (argv : List String) (i : Nat) (cnt_files : Nat)
  deriving DecidableEq, Repr

/-- The function `drop_arg(&argc, argv, i)` (the same in both versions):
`*pargc` is decremented, the `args_remain = argc - i` slots behind `argv[i]` are
moved one slot down and `args_remain` is returned.  The result is the new
`argc`, the new `argv` and the returned `args_remain`.  When `args_remain` is
negative, the length given to `memmove` wraps around to a huge `size_t`, which is
undefined behaviour: `none`. -/
def drop_arg (argc : Nat) (argv : List String) (i : Nat) :
    Option (Nat × List String × Nat) :=
  let argc1 : Int := (argc : Int) - 1
  let args_remain : Int := argc1 - (i : Int)
  if args_remain < 0 then none
  else some (argc1.toNat, memmove argv i (i + 1) args_remain.toNat, args_remain.toNat)

/-- The code behind the loop: `if (!cnt_files) return -1; return argc;` -/
def after_loop (argc : Nat) (argv : List String) (cnt_files : Nat) : Outcome :=
  if cnt_files = 0 then .ret (-1) argv else .ret (argc : Int) argv

/-- The loop `for (...; i < argc; ++i) body` followed by the code behind it.
Every pass either leaves the loop or makes `argc - i` smaller, so `argc + 1`
units of fuel are enough. -/
def run_loop (body : Nat → List String → Nat → Nat → Step) :
    Nat → Nat → List String → Nat → Nat → Outcome
  | 0, _, _, _, _ => .out_of_fuel
  | fuel + 1, argc, argv, i, cnt_files =>
    if i < argc then
      match body argc argv i cnt_files with
      | .ret v argv1 => .ret v argv1
      | .undefined => .undefined
      | .brk argc1 argv1 cnt1 => after_loop argc1 argv1 cnt1
      | .next argc1 argv1 i1 cnt1 => run_loop body fuel argc1 argv1 i1 cnt1
    else after_loop argc argv cnt_files

/-- The label `drop_it` (the same in both versions): `drop_arg(&argc, argv, i--)`;
the `i--` and the `++i` of the loop header leave `i` as it is. -/
def drop_it (argc : Nat) (argv : List String) (i cnt_files : Nat) : Step :=
  match drop_arg argc argv i with
  | none => .undefined
  | some (argc1, argv1, _) => .next argc1 argv1 (i - 1 + 1) cnt_files

/-- The body of a rewriting branch (the same in both versions): `asprintf(&cpp_arg, fmt, argv[i])` with
`fmt` the prefix followed by `%s`, then `argv[i] = cpp_arg` when the length
returned is positive (the allocation is taken to succeed), then `continue`. -/
def rewrite_arg (pfx : String) (argc : Nat) (argv : List String) (i cnt_files : Nat) :
    Step :=
  match argv[i]? with
  | none => .undefined
  | some v =>
    let cpp_arg := pfx ++ v
    if 0 < cpp_arg.length then .next argc (argv.set i cpp_arg) (i + 1) cnt_files
    else .next argc argv (i + 1) cnt_files

/-- The branch `if (STREQ(arg, "-include") && (0 < drop_arg(&argc, argv, i)))`
and what follows it (the same in both versions). -/
def include_branch (arg : String) (argc : Nat) (argv : List String) (i cnt_files : Nat) :
    Step :=
  if STREQ arg "-include" then
    match drop_arg argc argv i with
    | none => .undefined
    | some (argc1, argv1, args_remain) =>
      if 0 < args_remain then rewrite_arg "--include=" argc1 argv1 i cnt_files
      else drop_it argc1 argv1 i cnt_files
  else drop_it argc argv i cnt_files

/-- The branch `if ((STREQ(arg, "-iquote") || STREQ(arg, "-isystem"))
&& (0 < drop_arg(&argc, argv, i)))` and what follows it (the same in both
versions): the end of the loop body when the analyzer is not gcc compatible. -/
def quote_branch (arg : String) (argc : Nat) (argv : List String) (i cnt_files : Nat) :
    Step :=
  if STREQ arg "-iquote" || STREQ arg "-isystem" then
    match drop_arg argc argv i with
    | none => .undefined
    | some (argc1, argv1, args_remain) =>
      if 0 < args_remain then rewrite_arg "-I" argc1 argv1 i cnt_files
      else include_branch arg argc1 argv1 i cnt_files
  else include_branch arg argc argv i cnt_files

/-! ## The older version: `src/cswrap-core.c` -/

namespace V1

/-- The function `is_def_inc`. -/
def is_def_inc (analyzer_is_gcc_compatible : Bool) (arg : String) : Bool :=
  MATCH_PREFIX arg "-D"
    || MATCH_PREFIX arg "-I"
    || (analyzer_is_gcc_compatible
          && (STREQ arg "-include"
                || STREQ arg "-iquote"
                || STREQ arg "-isystem"))

/-- The function `is_bare_def_inc`. -/
def is_bare_def_inc (analyzer_is_gcc_compatible : Bool) (arg : String) : Bool :=
  STREQ arg "-D"
    || STREQ arg "-I"
    || (analyzer_is_gcc_compatible
          && (STREQ arg "-include"
                || STREQ arg "-iquote"
                || STREQ arg "-isystem"))

/-- The function `is_input_file_suffix`. -/
def is_input_file_suffix (suffix : String) : Bool :=
  STREQ suffix "c"
    || STREQ suffix "C"
    || STREQ suffix "cc"
    || STREQ suffix "cpp"
    || STREQ suffix "cxx"

/-- The function `is_black_listed_file`. -/
def is_black_listed_file (name : String) : Bool :=
  STREQ name "conftest.c"
    || STREQ name "../test.c"
    || STREQ name "_configtest.c"
    || (strstr name.toList "/CMakeTmp/".toList).isSome

/-- The function `is_input_file(arg, &black_listed)`: the result and the value
of `black_listed` after the call. -/
def is_input_file (arg : String) (black_listed : Bool) : Bool × Bool :=
  match strrchr arg.toList '.' with
  | none => (false, black_listed)
  | some suffix =>
    if !is_input_file_suffix (String.mk (suffix.drop 1)) then (false, black_listed)
    else (true, is_black_listed_file arg)

/-- The body of the loop of `translate_args_for_analyzer`. -/
def loop_body (analyzer_is_gcc_compatible : Bool)
    (argc : Nat) (argv : List String) (i cnt_files : Nat) : Step :=
  match argv[i]? with
  | none => .undefined
  | some arg =>
    if STREQ arg "-E" then .ret (-1) argv
    else if is_def_inc analyzer_is_gcc_compatible arg then
      if is_bare_def_inc analyzer_is_gcc_compatible arg then
        if argc ≤ i + 1 then .brk argc argv cnt_files
        else .next argc argv (i + 1 + 1) cnt_files
      else .next argc argv (i + 1) cnt_files
    else
      match is_input_file arg false with
      | (true, black_listed) =>
        if black_listed then .ret (-1) argv
        else .next argc argv (i + 1) (cnt_files + 1)
      | (false, _) =>
        if analyzer_is_gcc_compatible then
          if STREQ arg "-m16" || STREQ arg "-m32" || STREQ arg "-m64"
              || MATCH_PREFIX arg "-std" then
            .next argc argv (i + 1) cnt_files
          else drop_it argc argv i cnt_files
        else quote_branch arg argc argv i cnt_files

/-- The function `translate_args_for_analyzer(argc, argv)`. -/
def translate_args_for_analyzer (analyzer_is_gcc_compatible : Bool)
    (argc : Nat) (argv : List String) : Outcome :=
  run_loop (loop_body analyzer_is_gcc_compatible) (argc + 1) argc argv 1 0

end V1

/-! ## The newer version: `src/src/cswrap-core.c` -/

/-- What the newer version takes from `cswrap-core.h` and `cswrap-util.h`, which
are not part of the sources at hand: the constants describing the analyzer and
the two classifiers of file names. -/
structure Config where
  /-- The constant `analyzer_name`. -/
  analyzer_name : String
  /-- The constant `analyzer_is_gcc_compatible`. -/
  analyzer_is_gcc_compatible : Bool
  /-- The constant `analyzer_is_cxx_ready`. -/
  analyzer_is_cxx_ready : Bool
  /-- The function `is_input_file(arg, cxx_ready)` of `cswrap-util`. -/
  is_input_file : String → Bool → Bool
  /-- The function `is_ignored_file(arg)` of `cswrap-util`. -/
  is_ignored_file : String → Bool

namespace V2

/-- The function `is_def_inc`. -/
def is_def_inc (cfg : Config) (arg : String) : Bool :=
  MATCH_PREFIX arg "-D"
    || MATCH_PREFIX arg "-I"
    || (cfg.analyzer_is_gcc_compatible
          && (STREQ arg "-include"
                || STREQ arg "-iquote"
                || STREQ arg "-isystem"))

/-- The function `is_bare_def_inc`. -/
def is_bare_def_inc (cfg : Config) (arg : String) : Bool :=
  STREQ arg "-D"
    || STREQ arg "-I"
    || (cfg.analyzer_is_gcc_compatible
          && (STREQ arg "-include"
                || STREQ arg "-iquote"
                || STREQ arg "-isystem"))

/-- The function `is_forwardable_gcc_flag`. -/
def is_forwardable_gcc_flag (cfg : Config) (arg : String) : Bool :=
  if STREQ arg "-m16" || STREQ arg "-m32" || STREQ arg "-m64" then true
  else if STREQ arg "-fexceptions" || STREQ arg "-fno-exceptions" then true
  else if MATCH_PREFIX arg "-O" || MATCH_PREFIX arg "-std" then true
  else if STREQ cfg.analyzer_name "gcc" then
    if MATCH_PREFIX arg "-f" then true
    else if MATCH_PREFIX arg "-Wno-" then true
    else false
  else false

/-- The body of the loop of `translate_args_for_analyzer`. -/
def loop_body (cfg : Config)
    (argc : Nat) (argv : List String) (i cnt_files : Nat) : Step :=
  match argv[i]? with
  | none => .undefined
  | some arg =>
    if STREQ arg "-E" then .ret (-1) argv
    else if MATCH_PREFIX arg "-M" then .ret (-1) argv
    else if is_def_inc cfg arg then
      if is_bare_def_inc cfg arg then .next argc argv (i + 1 + 1) cnt_files
      else .next argc argv (i + 1) cnt_files
    else if cfg.is_input_file arg cfg.analyzer_is_cxx_ready then
      if cfg.is_ignored_file arg then .ret (-1) argv
      else .next argc argv (i + 1) (cnt_files + 1)
    else if cfg.analyzer_is_gcc_compatible then
      if is_forwardable_gcc_flag cfg arg then .next argc argv (i + 1) cnt_files
      else drop_it argc argv i cnt_files
    else quote_branch arg argc argv i cnt_files

/-- The function `translate_args_for_analyzer(argc, argv)`. -/
def translate_args_for_analyzer (cfg : Config) (argc : Nat) (argv : List String) :
    Outcome :=
  run_loop (loop_body cfg) (argc + 1) argc argv 1 0

end V2

/-! ## The translator as a classification of the arguments

The scan reframed the way the design notes describe it: every argument the scan
looks at is classified, and the translated vector is built from the decisions.
`run_loop_filter_args` below shows that the loops compute exactly this. -/

/-- The decision taken on the argument the scan looks at. -/
inductive Decision where
  /-- The statement `return -1;` -/
  | skip_all
  /-- The argument is kept. -/
  | forward
  /-- The argument is kept and the argument behind it is taken as its value
  and kept without being looked at. -/
  | forward_with_value
  /-- The argument is kept and counted as an input file. -/
  | input_file
  /-- The argument is dropped. -/
  | drop
  /-- The argument and the argument behind it are replaced by one token, the
  prefix followed by the latter. -/
  | rewrite (pfx : String)
  deriving DecidableEq, Repr

/-- What the scan of a list of arguments gives. -/
inductive Filtered where
  /-- The scan ended in `return -1;` -/
  | skip
  /-- The scan ran into undefined behaviour. -/
  | undefined
  /-- The scan reached the end: the tokens kept and the number of input files
  counted. -/
  | tokens (kept : List String) (cnt_files : Nat)
  deriving DecidableEq, Repr

/-- The tokens `ks` and `m` counted files in front of what the rest of the scan
gives. -/
def Filtered.cons (ks : List String) (m : Nat) : Filtered → Filtered
  | .skip => .skip
  | .undefined => .undefined
  | .tokens kept n => .tokens (ks ++ kept) (m + n)

/-- The scan of the arguments behind `argv[0]`, decision by decision.  A flag
taking a value as the last argument is kept alone; a flag to be rewritten as the
last argument is dropped twice, the second time with a negative number of slots
to move. -/
def filter_args (classify : String → Decision) : List String → Filtered
  | [] => .tokens [] 0
  | arg :: rest =>
    match classify arg with
    | .skip_all => .skip
    | .forward => (filter_args classify rest).cons [arg] 0
    | .input_file => (filter_args classify rest).cons [arg] 1
    | .drop => filter_args classify rest
    | .forward_with_value =>
      match rest with
      | [] => .tokens [arg] 0
      | v :: rest1 => (filter_args classify rest1).cons [arg, v] 0
    | .rewrite pfx =>
      match rest with
      | [] => .undefined
      | v :: rest1 => (filter_args classify rest1).cons [pfx ++ v] 0

/-- The decision of the older version on an argument. -/
def V1.classify (analyzer_is_gcc_compatible : Bool) (arg : String) : Decision :=
  if STREQ arg "-E" then .skip_all
  else if V1.is_def_inc analyzer_is_gcc_compatible arg then
    if V1.is_bare_def_inc analyzer_is_gcc_compatible arg then .forward_with_value
    else .forward
  else if (V1.is_input_file arg false).1 then
    if (V1.is_input_file arg false).2 then .skip_all else .input_file
  else if analyzer_is_gcc_compatible then
    if STREQ arg "-m16" || STREQ arg "-m32" || STREQ arg "-m64"
        || MATCH_PREFIX arg "-std" then .forward
    else .drop
  else if STREQ arg "-iquote" || STREQ arg "-isystem" then .rewrite "-I"
  else if STREQ arg "-include" then .rewrite "--include="
  else .drop

/-- The decision of the newer version on an argument. -/
def V2.classify (cfg : Config) (arg : String) : Decision :=
  if STREQ arg "-E" then .skip_all
  else if MATCH_PREFIX arg "-M" then .skip_all
  else if V2.is_def_inc cfg arg then
    if V2.is_bare_def_inc cfg arg then .forward_with_value else .forward
  else if cfg.is_input_file arg cfg.analyzer_is_cxx_ready then
    if cfg.is_ignored_file arg then .skip_all else .input_file
  else if cfg.analyzer_is_gcc_compatible then
    if V2.is_forwardable_gcc_flag cfg arg then .forward else .drop
  else if STREQ arg "-iquote" || STREQ arg "-isystem" then .rewrite "-I"
  else if STREQ arg "-include" then .rewrite "--include="
  else .drop

/-- The tokens the newer version forwards to a gcc compatible analyzer, after
the words of the specification: the macro and include flags, each bare one with
the token behind it as its value, the recognized input files and the flags
accepted by `is_forwardable_gcc_flag`; every other token is left out. -/
def V2.forwarded (cfg : Config) : List String → List String
  | [] => []
  | arg :: rest =>
    if V2.is_def_inc cfg arg then
      if V2.is_bare_def_inc cfg arg then
        match rest with
        | [] => [arg]
        | v :: rest1 => arg :: v :: V2.forwarded cfg rest1
      else arg :: V2.forwarded cfg rest
    else if cfg.is_input_file arg cfg.analyzer_is_cxx_ready then
      arg :: V2.forwarded cfg rest
    else if V2.is_forwardable_gcc_flag cfg arg then arg :: V2.forwarded cfg rest
    else V2.forwarded cfg rest

/-- The value the translator returns when the scan of the arguments behind
`argv[0]` gives `f`: `-1` when the scan ended so or counted no input file, else
the number of tokens kept, `argv[0]` included. -/
def Filtered.value : Filtered → Option Int
  | .skip => some (-1)
  | .undefined => none
  | .tokens kept n => if n = 0 then some (-1) else some ((kept.length : Int) + 1)

/-- The translated vector when the scan of the arguments behind `argv0` gives
`f`: `argv0` and the tokens kept, when at least one input file was counted. -/
def Filtered.args (argv0 : String) : Filtered → Option (List String)
  | .tokens kept n => if n = 0 then none else some (argv0 :: kept)
  | _ => none

/-- The scan result of a list of arguments from the results on its two parts. -/
def Filtered.append : Filtered → Filtered → Filtered
  | .skip, _ => .skip
  | .undefined, _ => .undefined
  | .tokens kept n, f => f.cons kept n

/-- The flags whose following token is taken as their value, in either dialect:
as a bare macro or include flag kept with its value, or as a flag rewritten
together with its value. -/
def takes_value (arg : String) : Bool :=
  STREQ arg "-D" || STREQ arg "-I" || STREQ arg "-include" || STREQ arg "-iquote"
    || STREQ arg "-isystem"

/-- The tokens `pre` are whole arguments: every flag taking a value that the scan
looks at has its value inside `pre`, so that the scan looks at the token behind
`pre` as an argument of its own. -/
def whole_arguments : List String → Bool
  | [] => true
  | arg :: rest =>
    if takes_value arg then
      match rest with
      | [] => false
      | _ :: rest1 => whole_arguments rest1
    else whole_arguments rest

/-- When the analyzer is not gcc compatible, the classifier of input files does
not take one of the flags `-include`, `-iquote`, `-isystem` (which have no
suffix behind a dot) for an input file. -/
def Config.value_flags_no_files (cfg : Config) : Bool :=
  cfg.analyzer_is_gcc_compatible
    || (!cfg.is_input_file "-include" cfg.analyzer_is_cxx_ready
          && !cfg.is_input_file "-iquote" cfg.analyzer_is_cxx_ready
          && !cfg.is_input_file "-isystem" cfg.analyzer_is_cxx_ready)

/-- A configuration of the newer version for the examples: the analyzer `gcc`,
gcc compatible, with the classifiers of input files of the older version. -/
def gcc_config : Config where
  analyzer_name := "gcc"
  analyzer_is_gcc_compatible := true
  analyzer_is_cxx_ready := true
  is_input_file := fun arg _ => (V1.is_input_file arg false).1
  is_ignored_file := V1.is_black_listed_file

/-- A configuration of the newer version for the examples: the analyzer
`cppcheck`, not gcc compatible, with the classifiers of input files of the older
version. -/
def cppcheck_config : Config where
  analyzer_name := "cppcheck"
  analyzer_is_gcc_compatible := false
  analyzer_is_cxx_ready := true
  is_input_file := fun arg _ => (V1.is_input_file arg false).1
  is_ignored_file := V1.is_black_listed_file

/-! ## Notions used by the proofs -/

/-- The body `body` of a loop takes the decisions of `classify`: what one pass does
on the vector `done ++ arg :: rest`, followed by the slots `stale` no longer in
use, when the loop variable stands at `arg`. -/
def BodySpec (classify : String → Decision)
    (body : Nat → List String → Nat → Nat → Step) : Prop :=
  ∀ (done rest stale : List String) (arg : String) (cnt : Nat), done ≠ [] →
    match classify arg with
    | .skip_all =>
      ∃ argv1, body (done.length + 1 + rest.length) (done ++ arg :: (rest ++ stale))
        done.length cnt = .ret (-1) argv1
    | .forward =>
      body (done.length + 1 + rest.length) (done ++ arg :: (rest ++ stale)) done.length cnt
        = .next (done.length + 1 + rest.length) (done ++ arg :: (rest ++ stale))
            (done.length + 1) cnt
    | .input_file =>
      body (done.length + 1 + rest.length) (done ++ arg :: (rest ++ stale)) done.length cnt
        = .next (done.length + 1 + rest.length) (done ++ arg :: (rest ++ stale))
            (done.length + 1) (cnt + 1)
    | .forward_with_value =>
      body (done.length + 1 + rest.length) (done ++ arg :: (rest ++ stale)) done.length cnt
        = .next (done.length + 1 + rest.length) (done ++ arg :: (rest ++ stale))
            (done.length + 1 + 1) cnt
      ∨ (rest = [] ∧
          body (done.length + 1 + rest.length) (done ++ arg :: (rest ++ stale)) done.length cnt
            = .brk (done.length + 1 + rest.length) (done ++ arg :: (rest ++ stale)) cnt)
    | .drop =>
      ∃ stale1 : List String, stale1.length = stale.length + 1 ∧
        body (done.length + 1 + rest.length) (done ++ arg :: (rest ++ stale)) done.length cnt
          = .next (done.length + rest.length) (done ++ (rest ++ stale1)) done.length cnt
    | .rewrite pfx =>
      (rest = [] →
        body (done.length + 1 + rest.length) (done ++ arg :: (rest ++ stale)) done.length cnt
          = .undefined)
      ∧ ∀ v rest1, rest = v :: rest1 →
        ∃ stale1 : List String, stale1.length = stale.length + 1 ∧
          body (done.length + 1 + rest.length) (done ++ arg :: (rest ++ stale)) done.length cnt
            = .next (done.length + rest.length) (done ++ (pfx ++ v) :: (rest1 ++ stale1))
                (done.length + 1) cnt

/-- The outcome `o` of a loop started behind the tokens `done` with `cnt` files
counted is the one the scan result stands for. -/
def Sim (o : Outcome) (done : List String) (cnt : Nat) : Filtered → Prop
  | .skip => ∃ argv1, o = .ret (-1) argv1
  | .undefined => o = .undefined
  | .tokens kept n =>
    ∃ argv1, o = after_loop (done.length + kept.length) argv1 (cnt + n)
      ∧ argv1.take (done.length + kept.length) = done ++ kept

/-- The decisions `classify` consume a second token exactly on the flags of
`takes_value`. -/
def TakesValueSpec (classify : String → Decision) : Prop :=
  ∀ a, takes_value a = true ↔
    (classify a = .forward_with_value ∨ ∃ p, classify a = .rewrite p)

/-! ## Child supervision -/

/-- The constant `EXIT_FAILURE`, the value returned by `fail`. -/
def EXIT_FAILURE : Int := 1

/-- The constant `EINTR` of `errno.h`. -/
def EINTR : Nat := 4

/-- The constant `SIGTERM` of `signal.h`. -/
def SIGTERM : Int := 15

/-- The values of `si_code` for a `SIGCHLD` (`signal.h`). -/
inductive SiCode where
  | CLD_EXITED
  | CLD_KILLED
  | CLD_DUMPED
  | CLD_TRAPPED
  | CLD_STOPPED
  | CLD_CONTINUED
  deriving DecidableEq, Repr

/-- The fields of `siginfo_t` filled in by `waitid`. -/
structure siginfo_t where
  si_code : SiCode
  si_pid : Int
  si_status : Int
  deriving DecidableEq, Repr

/-- What one call of `waitid(P_ALL, 0, &si, WEXITED)` gives: `-1` with `errno`
set, or `0` with `si` filled in. -/
inductive WaitidResult where
  | failed (errno : Nat)
  | info (si : siginfo_t)
  deriving DecidableEq, Repr

/-- The two tracked children, `pid_compiler` and `pid_analyzer`. -/
structure Pids where
  pid_compiler : Int
  pid_analyzer : Int
  deriving DecidableEq, Repr

/-- The wait status filled in by `waitpid`, as the macros of `sys/wait.h` see
it. -/
inductive WaitStatus where
  /-- The child exited with the code `code`. -/
  | exited (code : Int)
  /-- The child was terminated by the signal `sig`, with or without a core
  dump. -/
  | signaled (sig : Int) (core_dump : Bool)
  /-- Any other status (a stopped or continued child). -/
  | other (status : Int)
  deriving DecidableEq, Repr

/-- The macro `WIFEXITED`. -/
def WIFEXITED : WaitStatus → Bool
  | .exited _ => true
  | _ => false

/-- The macro `WEXITSTATUS`. -/
def WEXITSTATUS : WaitStatus → Int
  | .exited code => code
  | _ => 0

/-- The macro `WIFSIGNALED`. -/
def WIFSIGNALED : WaitStatus → Bool
  | .signaled _ _ => true
  | _ => false

/-- The macro `WTERMSIG`. -/
def WTERMSIG : WaitStatus → Int
  | .signaled sig _ => sig
  | _ => 0

/-- What one call of `waitpid(pid, &status, 0)` gives: `-1` with `errno` set, or
the pid with `status` filled in. -/
inductive WaitpidResult where
  | failed (errno : Nat)
  | status (status : WaitStatus)
  deriving DecidableEq, Repr

/-- What a call of `wait_for` ends with: the value returned, or `none` when the
call never returns because the children report nothing more; the tracked
children afterwards; the answers of the system not yet consumed. -/
structure Waited (σ ρ : Type) where
  value : Option Int
  pids : σ
  rest : List ρ

/-- The older `wait_for(ppid)` of `src/cswrap-core.c`, on the answers of
`waitpid` for the child `*ppid`.  The component `pids` is the value of `*ppid`
afterwards. -/
def V1.wait_for (pid : Int) : List WaitpidResult → Waited Int WaitpidResult
  | [] => ⟨none, pid, []⟩
  | .failed errno :: rest =>
    if EINTR ≠ errno then ⟨some EXIT_FAILURE, pid, rest⟩
    else V1.wait_for pid rest
  | .status status :: rest =>
    if WIFEXITED status then ⟨some (WEXITSTATUS status), 0, rest⟩
    else if WIFSIGNALED status then ⟨some (0x80 + WTERMSIG status), 0, rest⟩
    else ⟨some EXIT_FAILURE, 0, rest⟩

/-- The newer `wait_for(pid)` of `src/src/cswrap-core.c`, on the answers of
`waitid` for any child. -/
def V2.wait_for (pid : Int) : Pids → List WaitidResult → Waited Pids WaitidResult
  | pids, [] => ⟨none, pids, []⟩
  | pids, .failed errno :: rest =>
    if EINTR ≠ errno then ⟨some EXIT_FAILURE, pids, rest⟩
    else V2.wait_for pid pids rest
  | pids, .info si :: rest =>
    match si.si_code with
    | .CLD_STOPPED => V2.wait_for pid pids rest
    | .CLD_CONTINUED => V2.wait_for pid pids rest
    | code =>
      let pids1 : Pids :=
        if pids.pid_compiler = si.si_pid then { pids with pid_compiler := 0 } else pids
      let pids2 : Pids :=
        if pids1.pid_analyzer = si.si_pid then { pids1 with pid_analyzer := 0 } else pids1
      if pid ≠ si.si_pid then V2.wait_for pid pids2 rest
      else
        match code with
        | .CLD_KILLED => ⟨some (0x80 + si.si_status), pids2, rest⟩
        | .CLD_DUMPED => ⟨some (0x80 + si.si_status), pids2, rest⟩
        | _ => ⟨some si.si_status, pids2, rest⟩

/-- The tracked children after `waitid` reported the termination of `si_pid`. -/
def cleared (pids : Pids) (si_pid : Int) : Pids :=
  ⟨if pids.pid_compiler = si_pid then 0 else pids.pid_compiler,
    if pids.pid_analyzer = si_pid then 0 else pids.pid_analyzer⟩

/-- What the supervisor does to its children, in the order it does it. -/
inductive Action where
  /-- The call `launch_tool` for the compiler. -/
  | launch_compiler
  /-- The call `consider_running_analyzer`, with the value it leaves in
  `pid_analyzer` when it gets to launch the analyzer. -/
  | consider_analyzer (launched : Option Int)
  /-- A call `wait_for(pid)`. -/
  | wait (pid : Int)
  /-- A call `kill(pid, sig)`. -/
  | kill (pid : Int) (sig : Int)
  deriving DecidableEq, Repr

/-- What a run of `run_compiler_and_analyzer` ends with: the value returned
(`none` when a wait never returns), what was done to the children, and the
tracked children at the end. -/
structure Run where
  status : Option Int
  trace : List Action
  pids : Pids
  deriving DecidableEq, Repr

/-- The newer `run_compiler_and_analyzer` of `src/src/cswrap-core.c`.  The
environment is given by `install_ok` (the result of `install_signal_forwarder`),
`compiler_launch` (the value `launch_tool` returns for the compiler),
`analyzer_launch` (the value `consider_running_analyzer` stores in
`pid_analyzer`, `none` when it returns without launching) and the answers
`events` of `waitid`.  `tag_process_name` touches neither the children nor the
status and is left out. -/
def V2.run_compiler_and_analyzer (install_ok : Bool) (compiler_launch : Int)
    (analyzer_launch : Option Int) (events : List WaitidResult) : Run :=
  if !install_ok then ⟨some EXIT_FAILURE, [], ⟨0, 0⟩⟩
  else
    let pid_compiler := compiler_launch
    if pid_compiler ≤ 0 then ⟨some EXIT_FAILURE, [.launch_compiler], ⟨pid_compiler, 0⟩⟩
    else
      let pid_analyzer : Int := analyzer_launch.getD 0
      let pids : Pids := ⟨pid_compiler, pid_analyzer⟩
      let trace : List Action := [.launch_compiler, .consider_analyzer analyzer_launch]
      let w := V2.wait_for pids.pid_compiler pids events
      match w.value with
      | none => ⟨none, trace ++ [.wait pid_compiler], w.pids⟩
      | some status =>
        if 0 < w.pids.pid_analyzer then
          let trace1 : List Action :=
            if status ≠ 0 then
              trace ++ [.wait pid_compiler, .kill w.pids.pid_analyzer SIGTERM]
            else trace ++ [.wait pid_compiler]
          let w2 := V2.wait_for w.pids.pid_analyzer w.pids w.rest
          match w2.value with
          | none => ⟨none, trace1 ++ [.wait w.pids.pid_analyzer], w2.pids⟩
          | some _ => ⟨some status, trace1 ++ [.wait w.pids.pid_analyzer], w2.pids⟩
        else ⟨some status, trace ++ [.wait pid_compiler], w.pids⟩

/-- The answer of `waitid` is about the child `pid`. -/
def about (pid : Int) : WaitidResult → Bool
  | .info si => si.si_pid = pid
  | .failed _ => false

/-- The answer of `waitid` reports the termination of the child `pid`. -/
def is_termination_of (pid : Int) : WaitidResult → Bool
  | .info si =>
    si.si_pid = pid && si.si_code ≠ .CLD_STOPPED && si.si_code ≠ .CLD_CONTINUED
  | .failed _ => false

/-- The answer of `waitid` makes `wait_for(pid)` call `waitid` again: an
interrupted call, a stopped or continued child, or the termination of another
child. -/
def is_skipped_by (pid : Int) : WaitidResult → Bool
  | .failed errno => errno = EINTR
  | .info si =>
    si.si_code = .CLD_STOPPED || si.si_code = .CLD_CONTINUED || si.si_pid ≠ pid

/-! ## Launching a tool and forwarding signals -/

/-- The constant `ENOENT` of `errno.h`. -/
def ENOENT : Nat := 2

/-- The constant `EBADF` of `errno.h`. -/
def EBADF : Nat := 9

/-- What a call of `launch_tool` ends with, in the process that called `fork`. -/
inductive Launched where
  /-- The parent: `launch_tool` returned `pid`, the value of `fork` (`-1` when
  `fork` failed). -/
  | returned (pid : Int)
  /-- The child: `execvp` replaced the process image. -/
  | executed
  /-- The child: `execvp` failed and the child called `exit(code)`. -/
  | exited (code : Int)
  deriving DecidableEq, Repr

/-- The older `launch_tool` of `src/cswrap-core.c`.  `fork_pid` is the value
returned by `fork` and `exec_errno` the value of `errno` left by `execvp` when it
fails (`none` when it succeeds and does not return). -/
def V1.launch_tool (fork_pid : Int) (exec_errno : Option Nat) : Launched :=
  if fork_pid ≠ 0 then .returned fork_pid
  else
    match exec_errno with
    | none => .executed
    | some errno => .exited (if ENOENT = errno then 0x7F else 0x7E)

/-- The newer `launch_tool` of `src/src/cswrap-core.c`.  Between the failed
`execvp` and the reading of `errno` for the exit code it calls `fail`, which
calls `strerror`, `fprintf`, `vfprintf` and `fputc`: `fail_errno` gives the value
of `errno` behind these calls from the value in front of them.  The removal of
`del_args` touches only the vector given to `execvp`. -/
def V2.launch_tool (fail_errno : Nat → Nat) (fork_pid : Int) (exec_errno : Option Nat) :
    Launched :=
  if fork_pid ≠ 0 then .returned fork_pid
  else
    match exec_errno with
    | none => .executed
    | some errno =>
      let errno1 := fail_errno errno
      .exited (if ENOENT = errno1 then 0x7F else 0x7E)

/-- The older `run_compiler_and_analyzer` of `src/cswrap-core.c`, on the answers
`events` of `waitpid` in the order of the calls.  The environment is given by
`install_ok` (the result of `install_signal_forwarder`), `compiler_launch` (the
value `launch_tool` returns for the compiler) and `analyzer_launch` (the value
`consider_running_analyzer` stores in `pid_analyzer`, `none` when it returns
without launching).  `tag_process_name` touches neither the children nor the
status and is left out. -/
def V1.run_compiler_and_analyzer (install_ok : Bool) (compiler_launch : Int)
    (analyzer_launch : Option Int) (events : List WaitpidResult) : Run :=
  if !install_ok then ⟨some EXIT_FAILURE, [], ⟨0, 0⟩⟩
  else
    let pid_compiler := compiler_launch
    if pid_compiler ≤ 0 then ⟨some EXIT_FAILURE, [.launch_compiler], ⟨pid_compiler, 0⟩⟩
    else
      let pid_analyzer : Int := analyzer_launch.getD 0
      let trace : List Action := [.launch_compiler, .consider_analyzer analyzer_launch]
      let w := V1.wait_for pid_compiler events
      match w.value with
      | none => ⟨none, trace ++ [.wait pid_compiler], ⟨w.pids, pid_analyzer⟩⟩
      | some status =>
        if 0 < pid_analyzer then
          let trace1 : List Action :=
            if status ≠ 0 then trace ++ [.wait pid_compiler, .kill pid_analyzer SIGTERM]
            else trace ++ [.wait pid_compiler]
          let w2 := V1.wait_for pid_analyzer w.rest
          match w2.value with
          | none => ⟨none, trace1 ++ [.wait pid_analyzer], ⟨w.pids, w2.pids⟩⟩
          | some _ => ⟨some status, trace1 ++ [.wait pid_analyzer], ⟨w.pids, w2.pids⟩⟩
        else ⟨some status, trace ++ [.wait pid_compiler], ⟨w.pids, pid_analyzer⟩⟩

/-- What a run of `signal_forwarder` leaves behind: the calls of `kill` in their
order, the value of `errno` and the tracked children. -/
structure Forwarded where
  kills : List Action
  errno : Nat
  pids : Pids
  deriving DecidableEq, Repr

/-- The older `signal_forwarder(signum)` of `src/cswrap-core.c`, run with the
tracked children `pids` and the value `errno`.  `kill_errno pid sig e` is the
value of `errno` behind the call `kill(pid, sig)` made with `errno = e`. -/
def V1.signal_forwarder (kill_errno : Int → Int → Nat → Nat) (signum : Int) (pids : Pids)
    (errno : Nat) : Forwarded :=
  let saved_errno := errno
  let step1 : List Action × Nat :=
    if pids.pid_compiler ≠ 0 then
      ([.kill pids.pid_compiler signum], kill_errno pids.pid_compiler signum errno)
    else ([], errno)
  let step2 : List Action × Nat :=
    if pids.pid_analyzer ≠ 0 then
      (step1.1 ++ [.kill pids.pid_analyzer signum],
        kill_errno pids.pid_analyzer signum step1.2)
    else step1
  ⟨step2.1, saved_errno, pids⟩

/-- The newer `signal_forwarder(signum)` of `src/src/cswrap-core.c`. -/
def V2.signal_forwarder (kill_errno : Int → Int → Nat → Nat) (signum : Int) (pids : Pids)
    (errno : Nat) : Forwarded :=
  let saved_errno := errno
  let step1 : List Action × Nat :=
    if 0 < pids.pid_compiler then
      ([.kill pids.pid_compiler signum], kill_errno pids.pid_compiler signum errno)
    else ([], errno)
  let step2 : List Action × Nat :=
    if 0 < pids.pid_analyzer then
      (step1.1 ++ [.kill pids.pid_analyzer signum],
        kill_errno pids.pid_analyzer signum step1.2)
    else step1
  ⟨step2.1, saved_errno, pids⟩

/-! ## The entry points: `handle_args` and `sanitize_path` -/

/-- The constant `EXIT_SUCCESS`. -/
def EXIT_SUCCESS : Int := 0

/-- What the wrapper prints when it is called under its own name. -/
inductive Printed where
  /-- The line with `wrapper_path`, on standard output. -/
  | wrapper_path
  /-- The usage text, on standard error. -/
  | usage
  deriving DecidableEq, Repr

/-- The loop `for (; *argv; ++argv)` of `usage`: `EXIT_SUCCESS` at the first
entry equal to `--help`, `EXIT_FAILURE` when the vector ends without one. -/
def usage_loop : List String → Int
  | [] => EXIT_FAILURE
  | arg :: rest => if STREQ "--help" arg then EXIT_SUCCESS else usage_loop rest

/-- The function `usage(argv)` (the same in both versions up to the text
printed): the value returned and what is printed. -/
def usage (argv : List String) : Int × List Printed :=
  (usage_loop argv, [.usage])

/-- The function `handle_args(argc, argv)` (the same in both versions): the value
returned and what is printed. -/
def handle_args (argc : Nat) (argv : List String) : Int × List Printed :=
  if argc = 2 && argv[1]? = some "--print-path-to-wrap" then
    (EXIT_SUCCESS, [.wrapper_path])
  else usage argv

/-- The newer `sanitize_path(tool, arg0)` of `src/src/cswrap-core.c`.  The
function `remove_self_from_path` of `cswrap-util` is not at hand: `found` is the
value it returns and `path` the value of `PATH` it leaves (`none` when `PATH` is
not set, in which case `path[0]` is read only if `found` holds: undefined
behaviour, `none`).  `self` and `link` are the values of
`canonicalize_file_name("/proc/self/exe")` and `canonicalize_file_name(arg0)`,
`none` for the null pointer. -/
def V2.sanitize_path (found : Bool) (path : Option String) (arg0 : String)
    (self link : Option String) : Option Bool :=
  let first : Option Bool :=
    if found then
      match path with
      | none => none
      | some p => some (!p.toList.isEmpty)
    else some false
  match first with
  | none => none
  | some true => some true
  | some false =>
    if arg0.toList.head? = some '/' then
      let is_match : Bool :=
        match self, link with
        | some s, some l => STREQ s l
        | _, _ => false
      if is_match then some true else some false
    else some false

/-! ## The custom options and the vector of the analyzer -/

/-- The C function `strchr(s, c)`: the part of `s` starting at the first
occurrence of `c`, or `none` (the null pointer) when `c` does not occur. -/
def strchr : List Char → Char → Option (List Char)
  | [], _ => none
  | x :: xs, c => if x = c then some (x :: xs) else strchr xs c

/-- The loop `for (num = 1; NULL != (str = strchr(str, ':')); ++num) ++str;` of
`num_custom_opts`, entered with `str` and `num`; every pass shortens `str`. -/
def V2.num_custom_opts_loop : Nat → List Char → Int → Option Int
  | 0, _, _ => none
  | fuel + 1, str, num =>
    match strchr str ':' with
    | none => some num
    | some term => V2.num_custom_opts_loop fuel (term.drop 1) (num + 1)

/-- The function `num_custom_opts(str)`; `none` for `str` is the null pointer.
The result is `none` only when the loop runs out of fuel. -/
def V2.num_custom_opts (str : Option String) : Option Int :=
  match str with
  | none => some 0
  | some s =>
    if s.toList.isEmpty then some 0
    else V2.num_custom_opts_loop (s.toList.length + 1) s.toList 1

/-- The loop `for (;;)` of `read_custom_opts`, entered with `str` and with the
entries `dst` already written: the value returned and the entries written, in
their order.  `malloc` and `strdup` are taken to succeed. -/
def V2.read_custom_opts_loop : Nat → List Char → List String → Option (Bool × List String)
  | 0, _, _ => none
  | fuel + 1, str, dst =>
    match strchr str ':' with
    | none => some (true, dst ++ [String.mk str])
    | some term =>
      let len := str.length - term.length
      V2.read_custom_opts_loop fuel (term.drop 1) (dst ++ [String.mk (str.take len)])

/-- The function `read_custom_opts(dst, str)`: the value returned and the
entries written to `dst[0]`, `dst[1]`, ... -/
def V2.read_custom_opts (str : Option String) : Option (Bool × List String) :=
  match str with
  | none => some (true, [])
  | some s =>
    if s.toList.isEmpty then some (true, [])
    else V2.read_custom_opts_loop (s.toList.length + 1) s.toList []

/-- Writing the slots `src` to `buf[k]`, `buf[k + 1]`, ...; writing behind the
end of the allocated block is undefined behaviour: `none`. -/
def write_at (buf : List (Option String)) (k : Nat) (src : List (Option String)) :
    Option (List (Option String)) :=
  if k + src.length ≤ buf.length then some (buf.take k ++ src ++ buf.drop (k + src.length))
  else none

/-- The call `realloc(argv, size * sizeof(char *))` that enlarges the block
`argv` to `size` slots: the slots in use keep their content and the slot `i`
added has the content `junk i`. -/
def realloc (junk : Nat → Option String) (argv : List (Option String)) (size : Nat) :
    List (Option String) :=
  argv ++ (List.range (size - argv.length)).map (fun j => junk (argv.length + j))

/-- The value of `analyzer_name_actual` in `consider_running_analyzer`: the value
`analyzer_bin` of the variable naming the analyzer when it is set and not empty,
else `analyzer_name`. -/
def V2.analyzer_name_actual (cfg : Config) (analyzer_bin : Option String) : String :=
  match analyzer_bin with
  | none => cfg.analyzer_name
  | some name => if name.toList.isEmpty then cfg.analyzer_name else name

/-- What a call of `consider_running_analyzer` ends with. -/
inductive Considered where
  /-- It returned without launching the analyzer. -/
  | not_launched
  /-- It ran into undefined behaviour. -/
  | undefined
  /-- A loop of the model ran out of fuel. -/
  | out_of_fuel
  /-- It called `launch_tool(name, argv, NULL)`; `argv` is the whole allocated
  block, a null pointer being `none`. -/
  | launched (name : String) (argv : List (Option String))
  deriving DecidableEq, Repr

/-- The newer `consider_running_analyzer(argc_orig, argv_orig)` of
`src/src/cswrap-core.c`, up to the call of `launch_tool`.  `analyzer_def_argv`
is the constant of that name with its `analyzer_def_argc` entries,
`var_add_opts` the value of the variable of the custom options, `analyzer_bin`
the value of the variable naming the analyzer (`none` when
`analyzer_bin_envvar_name` is null or the variable is not set), and `junk i` the
content of the slot `i` that `realloc` adds.  `malloc` and `realloc` are taken
to succeed. -/
def V2.consider_running_analyzer (cfg : Config) (analyzer_def_argv : List (Option String))
    (var_add_opts analyzer_bin : Option String) (junk : Nat → Option String)
    (argv_orig : List String) : Considered :=
  let argc_orig : Nat := argv_orig.length
  match V2.translate_args_for_analyzer cfg argc_orig argv_orig with
  | .undefined => .undefined
  | .out_of_fuel => .out_of_fuel
  | .ret argc_cmd argv1 =>
    if argc_cmd ≤ 0 then .not_launched
    else
      match V2.num_custom_opts var_add_opts with
      | none => .out_of_fuel
      | some argc_custom =>
        let analyzer_def_argc : Int := analyzer_def_argv.length
        let argc_total : Int := argc_cmd + analyzer_def_argc + argc_custom
        let argv0 : List (Option String) := argv1.map some ++ [none]
        let argv2 : List (Option String) :=
          if (argc_orig : Int) < argc_total then realloc junk argv0 (argc_total.toNat + 1)
          else argv0
        match write_at argv2 argc_cmd.toNat analyzer_def_argv with
        | none => .undefined
        | some argv3 =>
          let argv_now : Int := argc_cmd + analyzer_def_argc - 1
          match V2.read_custom_opts var_add_opts with
          | none => .out_of_fuel
          | some (false, _) => .not_launched
          | some (true, entries) =>
            match write_at argv3 argv_now.toNat (entries.map some) with
            | none => .undefined
            | some argv4 =>
              let analyzer_name_actual := V2.analyzer_name_actual cfg analyzer_bin
              match write_at argv4 0 [some analyzer_name_actual] with
              | none => .undefined
              | some argv5 =>
                match write_at argv5 (argc_total - 1).toNat [none] with
                | none => .undefined
                | some argv6 => .launched analyzer_name_actual argv6

/-! ## Removing the wrapper from `PATH` -/

/-- The terminating zero of a C string. -/
def NUL : Char := Char.ofNat 0

/-- The C string that starts at `buf + p`: the characters up to the first zero. -/
def cstr_at (buf : List Char) (p : Nat) : List Char :=
  (buf.drop p).takeWhile (fun c => c ≠ NUL)

/-- The call `strchr(buf + p, c)`: the position in `buf` of the first `c` in the
C string at `buf + p`, or `none` (the null pointer). -/
def strchr_at (buf : List Char) (p : Nat) (c : Char) : Option Nat :=
  match strchr (cstr_at buf p) c with
  | none => none
  | some term => some (p + ((cstr_at buf p).length - term.length))

/-- The call `memmove(buf + dst, buf + src, n)` on the characters of `buf`. -/
def memmove_chars (buf : List Char) (dst src n : Nat) : List Char :=
  buf.take dst ++ (buf.drop src).take n ++ buf.drop (dst + n)

/-- The file system as `remove_self_from_path` sees it: `realpath(raw_path, NULL)`
(`none` for the null pointer) and `basename`. -/
structure Resolver where
  realpath : String → Option String
  basename : String → String

/-- The test `exec_path && STREQ(wrapper_name, basename(exec_path))` on the
directory `dir`, with `exec_path = realpath(raw_path, NULL)` and `raw_path` the
directory, a slash and the tool. -/
def is_self (wrapper_name tool : String) (r : Resolver) (dir : List Char) : Bool :=
  let raw_path := String.mk (dir ++ ['/'] ++ tool.toList)
  match r.realpath raw_path with
  | none => false
  | some exec_path => STREQ wrapper_name (r.basename exec_path)

/-- The loop `while ( *path)` of the older `remove_self_from_path`, on the block
`buf` holding `PATH` with its terminating zero, the cursor `path` and the flag
`found`: the value returned and the block as it is left.  `asprintf` is taken to
succeed.  Every pass shortens the string behind the cursor. -/
def V1.remove_self_loop (wrapper_name tool : String) (r : Resolver) :
    Nat → List Char → Nat → Bool → Option (Bool × List Char)
  | 0, _, _, _ => none
  | fuel + 1, buf, path, found =>
    if buf.getD path NUL = NUL then some (found, buf)
    else
      let term := strchr_at buf path ':'
      let buf1 : List Char :=
        match term with
        | some t => buf.set t NUL
        | none => buf
      let self := is_self wrapper_name tool r (cstr_at buf1 path)
      let next : Nat :=
        match term with
        | some t => t + 1
        | none => path + (cstr_at buf1 path).length
      if self then
        let buf2 := memmove_chars buf1 path next (1 + (cstr_at buf1 next).length)
        V1.remove_self_loop wrapper_name tool r fuel buf2 path true
      else
        let buf3 : List Char :=
          match term with
          | some t => buf1.set t ':'
          | none => buf1
        V1.remove_self_loop wrapper_name tool r fuel buf3 next found

/-- The older `remove_self_from_path(tool, path)` of `src/cswrap-core.c`: the
value returned and the string `PATH` as it is left; `none` for `path` is the null
pointer.  The result is `none` only when the loop runs out of fuel. -/
def V1.remove_self_from_path (wrapper_name tool : String) (r : Resolver)
    (path : Option String) : Option (Bool × Option String) :=
  match path with
  | none => some (false, none)
  | some p =>
    let buf := p.toList ++ [NUL]
    match V1.remove_self_loop wrapper_name tool r (buf.length + 1) buf 0 false with
    | none => none
    | some (found, buf1) => some (found, some (String.mk (cstr_at buf1 0)))

/-- The directories of a `PATH` string: the segments between its `:`, empty
segments included. -/
def split_colons : List Char → List (List Char)
  | [] => [[]]
  | c :: cs =>
    if c = ':' then [] :: split_colons cs
    else
      match split_colons cs with
      | seg :: rest => (c :: seg) :: rest
      | [] => [[c]]

/-- The directories of a `PATH` string, as strings. -/
def path_dirs (path : String) : List String :=
  (split_colons path.toList).map String.mk

/-- A file system for the examples: `/wrap/gcc` is a symbolic link to the wrapper
`/opt/cscppc/cscppc`, `/usr/bin/gcc` is the compiler; `basename` gives the text
behind the last slash. -/
def example_resolver : Resolver where
  realpath := fun p =>
    if p = "/wrap/gcc" then some "/opt/cscppc/cscppc"
    else if p = "/usr/bin/gcc" then some "/usr/bin/gcc"
    else none
  basename := fun p =>
    match strrchr p.toList '/' with
    | some t => String.mk (t.drop 1)
    | none => p

/-- The string that the loop of `remove_self_from_path` leaves of the
directories `segs` behind the cursor: a directory that is the wrapper's is left
out together with the separator behind it; for the last directory, which has no
separator behind it, the string is cut; an empty last directory is not looked
at. -/
def kept_path (self : List Char → Bool) : List (List Char) → List Char
  | [] => []
  | [seg] => if seg.isEmpty || self seg then [] else seg
  | seg :: seg2 :: segs =>
    if self seg then kept_path self (seg2 :: segs)
    else seg ++ ':' :: kept_path self (seg2 :: segs)

/-- One of the directories `segs` that the loop looks at is the wrapper's. -/
def removed_any (self : List Char → Bool) : List (List Char) → Bool
  | [] => false
  | [seg] => !seg.isEmpty && self seg
  | seg :: seg2 :: segs => self seg || removed_any self (seg2 :: segs)

/-! ## The tracked children behind a wait, and `main` -/

/-- The value of a tracked slot (`pid_compiler` or `pid_analyzer`) holding `slot`
after `wait_for` consumed the answers `consumed` of `waitid`: `0` when one of
them reports the termination of the child `slot`, else `slot` as it was. -/
def slot_after (slot : Int) (consumed : List WaitidResult) : Int :=
  if consumed.any (is_termination_of slot) then 0 else slot

/-- The status `wait_for` returns for the termination `si` of the awaited child:
`0x80 + si_status` for `CLD_KILLED` and `CLD_DUMPED`, else `si_status`. -/
def status_of (si : siginfo_t) : Int :=
  match si.si_code with
  | .CLD_KILLED => 0x80 + si.si_status
  | .CLD_DUMPED => 0x80 + si.si_status
  | _ => si.si_status

/-- The newer `main(argc, argv)` of `src/src/cswrap-core.c`, with `argc` the
length of `argv`.  The environment: the constant `wrapper_name`, the library
function `basename`, whether `strdup` succeeds, the parameters of
`sanitize_path` and those of `run_compiler_and_analyzer`.  The result is `none`
when `sanitize_path` runs into undefined behaviour; the trace and the tracked
children of a run that does not get to `run_compiler_and_analyzer` are
empty. -/
def V2.main (wrapper_name : String) (basename : String → String) (strdup_ok : Bool)
    (found : Bool) (path self link : Option String)
    (install_ok : Bool) (compiler_launch : Int) (analyzer_launch : Option Int)
    (events : List WaitidResult) (argv : List String) : Option Run :=
  match argv with
  | [] => some ⟨some EXIT_FAILURE, [], ⟨0, 0⟩⟩
  | arg0 :: _ =>
    let tool := basename arg0
    if STREQ tool wrapper_name then some ⟨some (handle_args argv.length argv).1, [], ⟨0, 0⟩⟩
    else if !strdup_ok then some ⟨some EXIT_FAILURE, [], ⟨0, 0⟩⟩
    else
      match V2.sanitize_path found path arg0 self link with
      | none => none
      | some true =>
        some (V2.run_compiler_and_analyzer install_ok compiler_launch analyzer_launch events)
      | some false => some ⟨some EXIT_FAILURE, [], ⟨0, 0⟩⟩

/-! ## The loops compute the classification -/

theorem filter_args_cons (classify : String → Decision) (arg : String) (rest : List String) :
    filter_args classify (arg :: rest) =
      match classify arg with
      | .skip_all => .skip
      | .forward => (filter_args classify rest).cons [arg] 0
      | .input_file => (filter_args classify rest).cons [arg] 1
      | .drop => filter_args classify rest
      | .forward_with_value =>
        match rest with
        | [] => .tokens [arg] 0
        | v :: rest1 => (filter_args classify rest1).cons [arg, v] 0
      | .rewrite pfx =>
        match rest with
        | [] => .undefined
        | v :: rest1 => (filter_args classify rest1).cons [pfx ++ v] 0 := by
  cases rest with
  | nil => rw [filter_args.eq_2]
  | cons v rest1 => rw [filter_args.eq_3]

theorem drop_arg_mid (done rest stale : List String) (arg : String) :
    ∃ stale1 : List String, stale1.length = stale.length + 1 ∧
      drop_arg (done.length + 1 + rest.length) (done ++ arg :: (rest ++ stale)) done.length
        = some (done.length + rest.length, done ++ (rest ++ stale1), rest.length) := by
  refine ⟨(arg :: (rest ++ stale)).drop rest.length, ?_, ?_⟩
  · simp; omega
  · have h1 : ¬ ((((done.length + 1 + rest.length : Nat) : Int) - 1) - (done.length : Int) < 0) := by
      omega
    have h2 : ((((done.length + 1 + rest.length : Nat) : Int) - 1) - (done.length : Int)).toNat
        = rest.length := by omega
    have h3 : ((((done.length + 1 + rest.length : Nat) : Int) - 1)).toNat
        = done.length + rest.length := by omega
    have h4 : List.drop (done.length + 1) done = [] := List.drop_eq_nil_of_le (by omega)
    have h5 : List.drop (done.length + rest.length) done = [] :=
      List.drop_eq_nil_of_le (by omega)
    simp only [drop_arg, h1, h2, h3, if_false, memmove]
    simp [List.take_append_eq_append_take, List.drop_append_eq_append_drop, h4, h5]

theorem drop_arg_end (done stale : List String) :
    drop_arg done.length (done ++ stale) done.length = none := by
  have h1 : (((done.length : Nat) : Int) - 1) - (done.length : Int) < 0 := by omega
  simp only [drop_arg, h1, if_true]

theorem drop_it_mid (done rest stale : List String) (arg : String) (cnt : Nat)
    (hd : done ≠ []) :
    ∃ stale1 : List String, stale1.length = stale.length + 1 ∧
      drop_it (done.length + 1 + rest.length) (done ++ arg :: (rest ++ stale)) done.length cnt
        = .next (done.length + rest.length) (done ++ (rest ++ stale1)) done.length cnt := by
  obtain ⟨stale1, hlen, h⟩ := drop_arg_mid done rest stale arg
  refine ⟨stale1, hlen, ?_⟩
  have hpos : 0 < done.length := List.length_pos.mpr hd
  have hi : done.length - 1 + 1 = done.length := by omega
  simp only [drop_it, h, hi]

theorem drop_it_end (done stale : List String) (cnt : Nat) :
    drop_it done.length (done ++ stale) done.length cnt = .undefined := by
  simp only [drop_it, drop_arg_end]

theorem rewrite_arg_mid (pfx : String) (hp : 0 < pfx.length) (done rest stale : List String)
    (v : String) (argc cnt : Nat) :
    rewrite_arg pfx argc (done ++ v :: (rest ++ stale)) done.length cnt
      = .next argc (done ++ (pfx ++ v) :: (rest ++ stale)) (done.length + 1) cnt := by
  have hlen : 0 < (pfx ++ v).length := by
    rw [String.length_append]; omega
  have hget : (done ++ v :: (rest ++ stale))[done.length]? = some v := by
    rw [List.getElem?_append_right (le_refl _)]; simp
  simp only [rewrite_arg, hget, hlen, if_true]
  simp

theorem Sim_cons (o : Outcome) (done ks : List String) (cnt m : Nat) (f : Filtered)
    (h : Sim o (done ++ ks) (cnt + m) f) : Sim o done cnt (f.cons ks m) := by
  cases f with
  | skip => exact h
  | undefined => exact h
  | tokens kept n =>
    obtain ⟨argv1, h1, h2⟩ := h
    refine ⟨argv1, ?_, ?_⟩
    · rw [h1]; simp only [List.length_append]
      have e1 : done.length + ks.length + kept.length = done.length + (ks.length + kept.length) := by
        omega
      have e2 : cnt + m + n = cnt + (m + n) := by omega
      rw [e1, e2]
    · simp only [List.length_append] at h2 ⊢
      have e1 : done.length + ks.length + kept.length = done.length + (ks.length + kept.length) := by
        omega
      rw [← e1, h2, List.append_assoc]

theorem run_loop_filter_args_aux (classify : String → Decision)
    (body : Nat → List String → Nat → Nat → Step) (hb : BodySpec classify body) :
    ∀ (fuel : Nat) (rest done stale : List String) (cnt argc i : Nat) (argv : List String),
      done ≠ [] → rest.length + 1 ≤ fuel → argc = done.length + rest.length →
      argv = done ++ (rest ++ stale) → i = done.length →
      Sim (run_loop body fuel argc argv i cnt) done cnt (filter_args classify rest) := by
  intro fuel
  induction fuel with
  | zero => intro rest done stale cnt argc i argv _ hf; omega
  | succ fuel ih =>
    intro rest done stale cnt argc i argv hd hf hargc hargv hi
    subst hargc hargv hi
    cases rest with
    | nil =>
      refine ⟨done ++ stale, ?_, ?_⟩
      · simp [run_loop, filter_args]
      · simp
    | cons arg rest =>
      have hlt : done.length < done.length + (arg :: rest).length := by simp
      have hargc : done.length + (arg :: rest).length = done.length + 1 + rest.length := by
        simp; omega
      have hs := hb done rest stale arg cnt hd
      have hcons : ∀ ks : List String, done ++ ks ≠ [] := by
        intro ks h; exact hd (List.append_eq_nil.mp h).1
      have hf1 : rest.length + 1 ≤ fuel := by simp at hf; omega
      rw [run_loop, if_pos hlt, hargc]
      simp only [List.cons_append]
      rw [filter_args_cons]
      cases hc : classify arg with
      | skip_all =>
        rw [hc] at hs
        obtain ⟨argv1, h1⟩ := hs
        simp only [h1]
        exact ⟨argv1, rfl⟩
      | forward =>
        rw [hc] at hs
        simp only [hs]
        apply Sim_cons
        exact ih rest (done ++ [arg]) stale _ _ _ _ (hcons _) hf1
          (by simp) (by simp) (by simp)
      | input_file =>
        rw [hc] at hs
        simp only [hs]
        apply Sim_cons
        exact ih rest (done ++ [arg]) stale _ _ _ _ (hcons _) hf1
          (by simp) (by simp) (by simp)
      | drop =>
        rw [hc] at hs
        obtain ⟨stale1, _, h1⟩ := hs
        simp only [h1]
        exact ih rest done stale1 _ _ _ _ hd hf1 rfl rfl rfl
      | forward_with_value =>
        rw [hc] at hs
        cases rest with
        | nil =>
          obtain ⟨f1, hf1⟩ : ∃ f1, fuel = f1 + 1 := ⟨fuel - 1, by omega⟩
          refine ⟨done ++ arg :: stale, ?_, ?_⟩
          · rcases hs with h1 | ⟨_, h1⟩
            · simp only [h1, hf1]
              simp [run_loop]
            · simp only [h1]
              simp
          · simp [List.take_append_eq_append_take]
        | cons v rest1 =>
          rcases hs with h1 | ⟨h0, _⟩
          · simp only [h1]
            apply Sim_cons
            exact ih rest1 (done ++ [arg, v]) stale _ _ _ _ (hcons _)
              (by simp at hf1; omega)
              (by simp only [List.length_append, List.length_cons, List.length_nil] ; omega) (by simp) (by simp)
          · exact absurd h0 (by simp)
      | rewrite pfx =>
        rw [hc] at hs
        cases rest with
        | nil =>
          simp only [hs.1 rfl]
          rfl
        | cons v rest1 =>
          obtain ⟨stale1, _, h1⟩ := hs.2 v rest1 rfl
          simp only [h1]
          apply Sim_cons
          exact ih rest1 (done ++ [pfx ++ v]) stale1 _ _ _ _ (hcons _)
            (by simp at hf1; omega)
            (by simp only [List.length_append, List.length_cons, List.length_nil] ; omega) (by simp) (by simp)

theorem getElem?_mid (done rest : List String) (arg : String) :
    (done ++ arg :: rest)[done.length]? = some arg := by
  rw [List.getElem?_append_right (le_refl _)]; simp

theorem include_branch_mid (done rest stale : List String) (arg : String) (cnt : Nat)
    (hd : done ≠ []) (hinc : STREQ arg "-include" = false) :
    ∃ stale1 : List String, stale1.length = stale.length + 1 ∧
      include_branch arg (done.length + 1 + rest.length) (done ++ arg :: (rest ++ stale))
        done.length cnt
        = .next (done.length + rest.length) (done ++ (rest ++ stale1)) done.length cnt := by
  simp only [include_branch, hinc]
  exact drop_it_mid done rest stale arg cnt hd

theorem include_branch_rewrite (done rest stale : List String) (arg : String) (cnt : Nat)
    (hinc : STREQ arg "-include" = true) :
    (rest = [] →
      include_branch arg (done.length + 1 + rest.length) (done ++ arg :: (rest ++ stale))
        done.length cnt = .undefined)
    ∧ ∀ v rest1, rest = v :: rest1 →
      ∃ stale1 : List String, stale1.length = stale.length + 1 ∧
        include_branch arg (done.length + 1 + rest.length) (done ++ arg :: (rest ++ stale))
          done.length cnt
          = .next (done.length + rest.length) (done ++ ("--include=" ++ v) :: (rest1 ++ stale1))
              (done.length + 1) cnt := by
  obtain ⟨stale1, hlen, h⟩ := drop_arg_mid done rest stale arg
  have e : include_branch arg (done.length + 1 + rest.length) (done ++ arg :: (rest ++ stale))
      done.length cnt
      = if 0 < rest.length then
          rewrite_arg "--include=" (done.length + rest.length) (done ++ (rest ++ stale1))
            done.length cnt
        else drop_it (done.length + rest.length) (done ++ (rest ++ stale1)) done.length cnt := by
    simp only [include_branch, hinc, if_true, h]
  rw [e]
  constructor
  · intro hr
    subst hr
    simp only [List.length_nil, Nat.lt_irrefl, if_false, List.nil_append, Nat.add_zero]
    exact drop_it_end done stale1 cnt
  · intro v rest1 hr
    subst hr
    refine ⟨stale1, hlen, ?_⟩
    have hpos : 0 < (v :: rest1).length := by simp
    simp only [hpos, if_true, List.cons_append]
    exact rewrite_arg_mid "--include=" (by decide) done rest1 stale1 v _ cnt

theorem quote_branch_rewrite (done rest stale : List String) (arg : String) (cnt : Nat)
    (hq : (STREQ arg "-iquote" || STREQ arg "-isystem") = true) :
    (rest = [] →
      quote_branch arg (done.length + 1 + rest.length) (done ++ arg :: (rest ++ stale))
        done.length cnt = .undefined)
    ∧ ∀ v rest1, rest = v :: rest1 →
      ∃ stale1 : List String, stale1.length = stale.length + 1 ∧
        quote_branch arg (done.length + 1 + rest.length) (done ++ arg :: (rest ++ stale))
          done.length cnt
          = .next (done.length + rest.length) (done ++ ("-I" ++ v) :: (rest1 ++ stale1))
              (done.length + 1) cnt := by
  obtain ⟨stale1, hlen, h⟩ := drop_arg_mid done rest stale arg
  have hinc : STREQ arg "-include" = false := by
    simp only [STREQ, Bool.or_eq_true, decide_eq_true_eq] at hq
    rcases hq with hq | hq <;> subst hq <;> decide
  have e : quote_branch arg (done.length + 1 + rest.length) (done ++ arg :: (rest ++ stale))
      done.length cnt
      = if 0 < rest.length then
          rewrite_arg "-I" (done.length + rest.length) (done ++ (rest ++ stale1))
            done.length cnt
        else drop_it (done.length + rest.length) (done ++ (rest ++ stale1)) done.length cnt := by
    simp only [quote_branch, hq, if_true, h, include_branch, hinc, Bool.false_eq_true, if_false]
  rw [e]
  constructor
  · intro hr
    subst hr
    simp only [List.length_nil, Nat.lt_irrefl, if_false, List.nil_append, Nat.add_zero]
    exact drop_it_end done stale1 cnt
  · intro v rest1 hr
    subst hr
    refine ⟨stale1, hlen, ?_⟩
    have hpos : 0 < (v :: rest1).length := by simp
    simp only [hpos, if_true, List.cons_append]
    exact rewrite_arg_mid "-I" (by decide) done rest1 stale1 v _ cnt

theorem quote_branch_other (done rest stale : List String) (arg : String) (cnt : Nat)
    (hq : (STREQ arg "-iquote" || STREQ arg "-isystem") = false) :
    quote_branch arg (done.length + 1 + rest.length) (done ++ arg :: (rest ++ stale))
        done.length cnt
      = include_branch arg (done.length + 1 + rest.length) (done ++ arg :: (rest ++ stale))
        done.length cnt := by
  simp only [quote_branch, hq, Bool.false_eq_true, if_false]

theorem loop_body_spec_v1 (gcc : Bool) : BodySpec (V1.classify gcc) (V1.loop_body gcc) := by
  intro done rest stale arg cnt hd
  have hget := getElem?_mid done (rest ++ stale) arg
  cases hE : STREQ arg "-E" with
  | true =>
    simp only [V1.classify, V1.loop_body, hget, hE, if_true]
    exact ⟨_, rfl⟩
  | false =>
    cases hdi : V1.is_def_inc gcc arg with
    | true =>
      cases hbare : V1.is_bare_def_inc gcc arg with
      | true =>
        simp only [V1.classify, V1.loop_body, hget, hE, hdi, hbare, if_true,
          Bool.false_eq_true, if_false]
        cases rest with
        | nil => right; simp
        | cons v rest1 =>
          left
          have : ¬ (done.length + 1 + (v :: rest1).length ≤ done.length + 1) := by simp
          simp only [this, if_false]
      | false =>
        simp only [V1.classify, V1.loop_body, hget, hE, hdi, hbare, if_true,
          Bool.false_eq_true, if_false]
    | false =>
      rcases hin : V1.is_input_file arg false with ⟨r, bl⟩
      cases r with
      | true =>
        cases bl with
        | true =>
          simp only [V1.classify, V1.loop_body, hget, hE, hdi, hin, if_true,
            Bool.false_eq_true, if_false]
          exact ⟨_, rfl⟩
        | false =>
          simp only [V1.classify, V1.loop_body, hget, hE, hdi, hin, if_true,
            Bool.false_eq_true, if_false]
      | false =>
        cases gcc with
        | true =>
          cases hm : (STREQ arg "-m16" || STREQ arg "-m32" || STREQ arg "-m64"
              || MATCH_PREFIX arg "-std") with
          | true =>
            simp only [V1.classify, V1.loop_body, hget, hE, hdi, hin, hm, if_true,
              Bool.false_eq_true, if_false]
          | false =>
            simp only [V1.classify, V1.loop_body, hget, hE, hdi, hin, hm, if_true,
              Bool.false_eq_true, if_false]
            exact drop_it_mid done rest stale arg cnt hd
        | false =>
          cases hq : (STREQ arg "-iquote" || STREQ arg "-isystem") with
          | true =>
            simp only [V1.classify, V1.loop_body, hget, hE, hdi, hin, hq, if_true,
              Bool.false_eq_true, if_false]
            exact quote_branch_rewrite done rest stale arg cnt hq
          | false =>
            cases hinc : STREQ arg "-include" with
            | true =>
              simp only [V1.classify, V1.loop_body, hget, hE, hdi, hin, hq, hinc, if_true,
                Bool.false_eq_true, if_false, quote_branch_other done rest stale arg cnt hq]
              exact include_branch_rewrite done rest stale arg cnt hinc
            | false =>
              simp only [V1.classify, V1.loop_body, hget, hE, hdi, hin, hq, hinc, if_true,
                Bool.false_eq_true, if_false, quote_branch_other done rest stale arg cnt hq]
              exact include_branch_mid done rest stale arg cnt hd hinc

theorem loop_body_spec_v2 (cfg : Config) : BodySpec (V2.classify cfg) (V2.loop_body cfg) := by
  intro done rest stale arg cnt hd
  have hget := getElem?_mid done (rest ++ stale) arg
  cases hE : STREQ arg "-E" with
  | true =>
    simp only [V2.classify, V2.loop_body, hget, hE, if_true]
    exact ⟨_, rfl⟩
  | false =>
  cases hM : MATCH_PREFIX arg "-M" with
  | true =>
    simp only [V2.classify, V2.loop_body, hget, hE, hM, if_true, Bool.false_eq_true, if_false]
    exact ⟨_, rfl⟩
  | false =>
    cases hdi : V2.is_def_inc cfg arg with
    | true =>
      cases hbare : V2.is_bare_def_inc cfg arg with
      | true =>
        simp only [V2.classify, V2.loop_body, hget, hE, hM, hdi, hbare, if_true,
          Bool.false_eq_true, if_false]
        left; trivial
      | false =>
        simp only [V2.classify, V2.loop_body, hget, hE, hM, hdi, hbare, if_true,
          Bool.false_eq_true, if_false]
    | false =>
      cases hin : cfg.is_input_file arg cfg.analyzer_is_cxx_ready with
      | true =>
        cases hig : cfg.is_ignored_file arg with
        | true =>
          simp only [V2.classify, V2.loop_body, hget, hE, hM, hdi, hin, hig, if_true,
            Bool.false_eq_true, if_false]
          exact ⟨_, rfl⟩
        | false =>
          simp only [V2.classify, V2.loop_body, hget, hE, hM, hdi, hin, hig, if_true,
            Bool.false_eq_true, if_false]
      | false =>
        cases hg : cfg.analyzer_is_gcc_compatible with
        | true =>
          cases hm : V2.is_forwardable_gcc_flag cfg arg with
          | true =>
            simp only [V2.classify, V2.loop_body, hget, hE, hM, hdi, hin, hg, hm, if_true,
              Bool.false_eq_true, if_false]
          | false =>
            simp only [V2.classify, V2.loop_body, hget, hE, hM, hdi, hin, hg, hm, if_true,
              Bool.false_eq_true, if_false]
            exact drop_it_mid done rest stale arg cnt hd
        | false =>
          cases hq : (STREQ arg "-iquote" || STREQ arg "-isystem") with
          | true =>
            simp only [V2.classify, V2.loop_body, hget, hE, hM, hdi, hin, hg, hq, if_true,
              Bool.false_eq_true, if_false]
            exact quote_branch_rewrite done rest stale arg cnt hq
          | false =>
            cases hinc : STREQ arg "-include" with
            | true =>
              simp only [V2.classify, V2.loop_body, hget, hE, hM, hdi, hin, hg, hq, hinc,
                if_true, Bool.false_eq_true, if_false,
                quote_branch_other done rest stale arg cnt hq]
              exact include_branch_rewrite done rest stale arg cnt hinc
            | false =>
              simp only [V2.classify, V2.loop_body, hget, hE, hM, hdi, hin, hg, hq, hinc,
                if_true, Bool.false_eq_true, if_false,
                quote_branch_other done rest stale arg cnt hq]
              exact include_branch_mid done rest stale arg cnt hd hinc

/-- The older translator computes the scan of the arguments behind `argv[0]`. -/
theorem translate_filter_args_v1 (gcc : Bool) (argv0 : String) (args : List String) :
    Sim (V1.translate_args_for_analyzer gcc (argv0 :: args).length (argv0 :: args)) [argv0] 0
      (filter_args (V1.classify gcc) args) :=
  run_loop_filter_args_aux (V1.classify gcc) (V1.loop_body gcc) (loop_body_spec_v1 gcc)
    _ args [argv0] [] 0 _ _ _ (by simp) (by simp) (by simp; omega) (by simp) (by simp)

/-- The newer translator computes the scan of the arguments behind `argv[0]`. -/
theorem translate_filter_args_v2 (cfg : Config) (argv0 : String) (args : List String) :
    Sim (V2.translate_args_for_analyzer cfg (argv0 :: args).length (argv0 :: args)) [argv0] 0
      (filter_args (V2.classify cfg) args) :=
  run_loop_filter_args_aux (V2.classify cfg) (V2.loop_body cfg) (loop_body_spec_v2 cfg)
    _ args [argv0] [] 0 _ _ _ (by simp) (by simp) (by simp; omega) (by simp) (by simp)

theorem value_of_Sim (o : Outcome) (argv0 : String) (f : Filtered) (h : Sim o [argv0] 0 f) :
    o.value = f.value := by
  cases f with
  | skip => obtain ⟨a, h⟩ := h; subst h; rfl
  | undefined => subst h; rfl
  | tokens kept n =>
    obtain ⟨a, h, _⟩ := h
    subst h
    by_cases hn : n = 0
    · simp [after_loop, Filtered.value, Outcome.value, hn]
    · simp [after_loop, Filtered.value, Outcome.value, hn]; omega

theorem args_of_Sim (o : Outcome) (argv0 : String) (f : Filtered) (h : Sim o [argv0] 0 f) :
    o.args = f.args argv0 := by
  cases f with
  | skip => obtain ⟨a, h⟩ := h; subst h; rfl
  | undefined => subst h; rfl
  | tokens kept n =>
    obtain ⟨a, h, h2⟩ := h
    subst h
    by_cases hn : n = 0
    · simp [after_loop, Filtered.args, Outcome.args, hn]
    · have e : ((([argv0].length + kept.length : Nat) : Int)).toNat = [argv0].length + kept.length := by
        omega
      simp only [after_loop, Filtered.args, Outcome.args, hn, Nat.zero_add, if_false]
      rw [if_pos (by omega), e, h2]
      rfl

theorem undefined_of_Sim (o : Outcome) (argv0 : String) (f : Filtered) (h : Sim o [argv0] 0 f) :
    o = .undefined ↔ f = .undefined := by
  cases f with
  | skip => obtain ⟨a, h⟩ := h; subst h; simp
  | undefined => subst h; simp
  | tokens kept n =>
    obtain ⟨a, h, _⟩ := h
    subst h
    by_cases hn : n = 0 <;> simp [after_loop, hn]

/-! ## Properties of the scan -/

theorem Filtered.append_cons (ks : List String) (m : Nat) (f g : Filtered) :
    (f.cons ks m).append g = (f.append g).cons ks m := by
  cases f with
  | skip => rfl
  | undefined => rfl
  | tokens kept n =>
    cases g with
    | skip => rfl
    | undefined => rfl
    | tokens kept2 n2 =>
      simp [Filtered.cons, Filtered.append, Nat.add_assoc]

theorem Filtered.tokens_nil_append (f : Filtered) : (Filtered.tokens [] 0).append f = f := by
  cases f <;> simp [Filtered.append, Filtered.cons]

theorem whole_arguments_cons (a : String) (rest : List String) :
    whole_arguments (a :: rest) =
      if takes_value a then
        match rest with
        | [] => false
        | _ :: rest1 => whole_arguments rest1
      else whole_arguments rest := by
  cases rest <;> simp [whole_arguments]

theorem filter_args_append_aux (classify : String → Decision) (hc : TakesValueSpec classify)
    (rest : List String) :
    ∀ (n : Nat) (pre : List String), pre.length ≤ n → whole_arguments pre = true →
      filter_args classify (pre ++ rest)
          = (filter_args classify pre).append (filter_args classify rest)
        ∧ filter_args classify pre ≠ .undefined := by
  intro n
  induction n with
  | zero =>
    intro pre hlen _
    have : pre = [] := List.length_eq_zero.mp (by omega)
    subst this
    constructor
    · simp [filter_args, Filtered.tokens_nil_append]
    · simp [filter_args]
  | succ n ih =>
    intro pre hlen hw
    cases pre with
    | nil =>
      constructor
      · simp [filter_args, Filtered.tokens_nil_append]
      · simp [filter_args]
    | cons a pre1 =>
      rw [whole_arguments_cons] at hw
      simp only [List.cons_append]
      rw [filter_args_cons, filter_args_cons]
      have hlen1 : pre1.length ≤ n := by simp at hlen; omega
      cases hd : classify a with
      | skip_all => simp [Filtered.append]
      | forward =>
        have htv : takes_value a = false := by
          cases h : takes_value a with
          | false => rfl
          | true => rcases (hc a).mp h with h1 | ⟨p, h1⟩ <;> rw [hd] at h1 <;> cases h1
        simp only [htv, Bool.false_eq_true, if_false] at hw
        obtain ⟨h1, h2⟩ := ih pre1 hlen1 hw
        simp only [h1, Filtered.append_cons]
        refine ⟨trivial, ?_⟩
        cases hf : filter_args classify pre1 <;> simp_all [Filtered.cons]
      | input_file =>
        have htv : takes_value a = false := by
          cases h : takes_value a with
          | false => rfl
          | true => rcases (hc a).mp h with h1 | ⟨p, h1⟩ <;> rw [hd] at h1 <;> cases h1
        simp only [htv, Bool.false_eq_true, if_false] at hw
        obtain ⟨h1, h2⟩ := ih pre1 hlen1 hw
        simp only [h1, Filtered.append_cons]
        refine ⟨trivial, ?_⟩
        cases hf : filter_args classify pre1 <;> simp_all [Filtered.cons]
      | drop =>
        have htv : takes_value a = false := by
          cases h : takes_value a with
          | false => rfl
          | true => rcases (hc a).mp h with h1 | ⟨p, h1⟩ <;> rw [hd] at h1 <;> cases h1
        simp only [htv, Bool.false_eq_true, if_false] at hw
        exact ih pre1 hlen1 hw
      | forward_with_value =>
        have htv : takes_value a = true := (hc a).mpr (Or.inl hd)
        simp only [htv, if_true] at hw
        cases pre1 with
        | nil => simp at hw
        | cons v pre2 =>
          simp only at hw
          obtain ⟨h1, h2⟩ := ih pre2 (by simp at hlen1; omega) hw
          simp only [List.cons_append, h1, Filtered.append_cons]
          refine ⟨trivial, ?_⟩
          cases hf : filter_args classify pre2 <;> simp_all [Filtered.cons]
      | rewrite pfx =>
        have htv : takes_value a = true := (hc a).mpr (Or.inr ⟨pfx, hd⟩)
        simp only [htv, if_true] at hw
        cases pre1 with
        | nil => simp at hw
        | cons v pre2 =>
          simp only at hw
          obtain ⟨h1, h2⟩ := ih pre2 (by simp at hlen1; omega) hw
          simp only [List.cons_append, h1, Filtered.append_cons]
          refine ⟨trivial, ?_⟩
          cases hf : filter_args classify pre2 <;> simp_all [Filtered.cons]

theorem filter_args_append (classify : String → Decision) (hc : TakesValueSpec classify)
    (pre rest : List String) (hw : whole_arguments pre = true) :
    filter_args classify (pre ++ rest)
      = (filter_args classify pre).append (filter_args classify rest) :=
  (filter_args_append_aux classify hc rest pre.length pre (le_refl _) hw).1

theorem filter_args_whole (classify : String → Decision) (hc : TakesValueSpec classify)
    (pre : List String) (hw : whole_arguments pre = true) :
    filter_args classify pre ≠ .undefined :=
  (filter_args_append_aux classify hc [] pre.length pre (le_refl _) hw).2

theorem filter_args_skip (classify : String → Decision) (hc : TakesValueSpec classify)
    (pre post : List String) (t : String) (hw : whole_arguments pre = true)
    (ht : classify t = .skip_all) :
    (filter_args classify (pre ++ t :: post)).value = some (-1) := by
  rw [filter_args_append classify hc pre _ hw, filter_args_cons, ht]
  have := filter_args_whole classify hc pre hw
  cases hf : filter_args classify pre with
  | skip => rfl
  | undefined => exact absurd hf this
  | tokens kept n => rfl

theorem takes_value_iff (a : String) :
    takes_value a = true ↔
      (a = "-D" ∨ a = "-I" ∨ a = "-include" ∨ a = "-iquote" ∨ a = "-isystem") := by
  simp [takes_value, STREQ, or_assoc]

theorem classify_takes_value_v1 (gcc : Bool) : TakesValueSpec (V1.classify gcc) := by
  intro a
  constructor
  · intro h
    rw [takes_value_iff] at h
    rcases h with h | h | h | h | h <;> subst h <;> cases gcc <;>
      first
      | exact Or.inl (by decide)
      | exact Or.inr ⟨"-I", by decide⟩
      | exact Or.inr ⟨"--include=", by decide⟩
  · intro h
    rw [takes_value_iff]
    have hb : V1.is_bare_def_inc gcc a = true ∨
        (STREQ a "-iquote" || STREQ a "-isystem") = true ∨ STREQ a "-include" = true := by
      unfold V1.classify at h
      split_ifs at h with h1 h2 h3 h4 h5 h6 h7 h8 h9 <;>
        first
        | (rcases h with h | ⟨p, h⟩ <;> cases h; done)
        | exact Or.inl (by assumption)
        | exact Or.inr (Or.inl (by assumption))
        | exact Or.inr (Or.inr (by assumption))
    simp only [V1.is_bare_def_inc, STREQ, Bool.or_eq_true, Bool.and_eq_true,
      decide_eq_true_eq] at hb
    tauto

theorem value_flags_spec (cfg : Config) (hcfg : cfg.value_flags_no_files = true)
    (hg : cfg.analyzer_is_gcc_compatible = false) (a : String)
    (ha : a = "-include" ∨ a = "-iquote" ∨ a = "-isystem") :
    cfg.is_input_file a cfg.analyzer_is_cxx_ready = false := by
  simp only [Config.value_flags_no_files, hg, Bool.false_or, Bool.and_eq_true,
    Bool.not_eq_true'] at hcfg
  rcases ha with h | h | h <;> subst h
  · exact hcfg.1.1
  · exact hcfg.1.2
  · exact hcfg.2

theorem classify_takes_value_v2 (cfg : Config) (hcfg : cfg.value_flags_no_files = true) :
    TakesValueSpec (V2.classify cfg) := by
  intro a
  constructor
  · intro h
    rw [takes_value_iff] at h
    have hp : STREQ a "-E" = false ∧ MATCH_PREFIX a "-M" = false
        ∧ MATCH_PREFIX a "-D" = STREQ a "-D" ∧ MATCH_PREFIX a "-I" = STREQ a "-I" := by
      rcases h with h | h | h | h | h <;> subst h <;> decide
    obtain ⟨hE, hM, hD, hI⟩ := hp
    unfold V2.classify V2.is_def_inc V2.is_bare_def_inc
    rw [hE, hM, hD, hI]
    cases hg : cfg.analyzer_is_gcc_compatible with
    | true =>
      left
      rcases h with h | h | h | h | h <;> subst h <;> simp [STREQ]
    | false =>
      have hfile := value_flags_spec cfg hcfg hg a
      rcases h with h | h | h | h | h <;> subst h <;> simp [STREQ] at hfile ⊢ <;> simp [hfile]
  · intro h
    rw [takes_value_iff]
    have hb : V2.is_bare_def_inc cfg a = true ∨
        (STREQ a "-iquote" || STREQ a "-isystem") = true ∨ STREQ a "-include" = true := by
      unfold V2.classify at h
      split_ifs at h with h1 h2 h3 h4 h5 h6 h7 h8 h9 h10 <;>
        first
        | (rcases h with h | ⟨p, h⟩ <;> cases h; done)
        | exact Or.inl (by assumption)
        | exact Or.inr (Or.inl (by assumption))
        | exact Or.inr (Or.inr (by assumption))
    simp only [V2.is_bare_def_inc, STREQ, Bool.or_eq_true, Bool.and_eq_true,
      decide_eq_true_eq] at hb
    tauto

theorem value_eq_v1 (gcc : Bool) (argv0 : String) (args : List String) :
    (V1.translate_args_for_analyzer gcc (argv0 :: args).length (argv0 :: args)).value
      = (filter_args (V1.classify gcc) args).value :=
  value_of_Sim _ argv0 _ (translate_filter_args_v1 gcc argv0 args)

theorem value_eq_v2 (cfg : Config) (argv0 : String) (args : List String) :
    (V2.translate_args_for_analyzer cfg (argv0 :: args).length (argv0 :: args)).value
      = (filter_args (V2.classify cfg) args).value :=
  value_of_Sim _ argv0 _ (translate_filter_args_v2 cfg argv0 args)

theorem args_eq_v1 (gcc : Bool) (argv0 : String) (args : List String) :
    (V1.translate_args_for_analyzer gcc (argv0 :: args).length (argv0 :: args)).args
      = (filter_args (V1.classify gcc) args).args argv0 :=
  args_of_Sim _ argv0 _ (translate_filter_args_v1 gcc argv0 args)

theorem args_eq_v2 (cfg : Config) (argv0 : String) (args : List String) :
    (V2.translate_args_for_analyzer cfg (argv0 :: args).length (argv0 :: args)).args
      = (filter_args (V2.classify cfg) args).args argv0 :=
  args_of_Sim _ argv0 _ (translate_filter_args_v2 cfg argv0 args)

/-! ## C1: `-E` -/

/-- C1, as stated, fails: a `-E` standing right behind a bare `-D` (gcc
compatible analyzer) or behind `-iquote` (other analyzers) is taken as the value
of that flag and the older translator returns a count, not `-1`; so does the
newer one. -/
theorem translate_E_as_value_not_skipped :
    (V1.translate_args_for_analyzer true 4 ["cc", "-D", "-E", "a.c"]).value = some 4
    ∧ (V1.translate_args_for_analyzer false 4 ["cc", "-iquote", "-E", "a.c"]).args
        = some ["cc", "-I-E", "a.c"]
    ∧ (V2.translate_args_for_analyzer gcc_config 4 ["cc", "-D", "-E", "a.c"]).value
        = some 4 := by
  decide

/-- C1, amended: in both versions and for either dialect setting, when `-E` stands
behind `argv[0]` and whole arguments `pre` (so that it is not taken as the value
of a `-D`, `-I`, `-include`, `-iquote` or `-isystem` in front of it),
`translate_args_for_analyzer` returns `-1`, whatever follows. -/
theorem translate_skips_at_E (gcc : Bool) (cfg : Config) (hcfg : cfg.value_flags_no_files = true)
    (argv0 : String) (pre post : List String) (hw : whole_arguments pre = true) :
    (V1.translate_args_for_analyzer gcc (argv0 :: (pre ++ "-E" :: post)).length
        (argv0 :: (pre ++ "-E" :: post))).value = some (-1)
    ∧ (V2.translate_args_for_analyzer cfg (argv0 :: (pre ++ "-E" :: post)).length
        (argv0 :: (pre ++ "-E" :: post))).value = some (-1) := by
  constructor
  · rw [value_eq_v1]
    exact filter_args_skip _ (classify_takes_value_v1 gcc) pre post "-E" hw
      (by cases gcc <;> decide)
  · rw [value_eq_v2]
    exact filter_args_skip _ (classify_takes_value_v2 cfg hcfg) pre post "-E" hw
      (by simp [V2.classify, STREQ])

/-- C1, an instance: `-E` behind `-D X a.c`. -/
theorem translate_skips_at_E_witness :
    cppcheck_config.value_flags_no_files = true ∧ whole_arguments ["-D", "X", "a.c"] = true
    ∧ (V1.translate_args_for_analyzer false 6 ["cc", "-D", "X", "a.c", "-E", "b.c"]).value
        = some (-1)
    ∧ (V2.translate_args_for_analyzer cppcheck_config 6
        ["cc", "-D", "X", "a.c", "-E", "b.c"]).value = some (-1) :=
  ⟨by decide, by decide,
    translate_skips_at_E false cppcheck_config (by decide) "cc"
      ["-D", "X", "a.c"] ["b.c"] (by decide)⟩

/-! ## C2: black-listed files -/

theorem is_input_file_snd_v1 (t : String) (h : (V1.is_input_file t false).1 = true) :
    (V1.is_input_file t false).2 = V1.is_black_listed_file t := by
  unfold V1.is_input_file at h ⊢
  split <;> simp_all
  split <;> simp_all

/-- C2, as stated, fails: a token containing `/CMakeTmp/` that is not a
recognized input file is dropped like any other token, and `conftest.c` taken as
the value of a bare `-D` is not looked at; in both cases the older translator
returns a count. -/
theorem translate_black_listed_not_skipped :
    (V1.translate_args_for_analyzer true 3 ["cc", "a.c", "/CMakeTmp/x.o"]).args
        = some ["cc", "a.c"]
    ∧ (V1.translate_args_for_analyzer true 4 ["cc", "-D", "conftest.c", "a.c"]).value
        = some 4 := by
  decide

/-- C2, amended: in the older version, when a token `t` stands behind `argv[0]`
and whole arguments `pre` (so that it is not taken as the value of a flag in
front of it) and `t` is `conftest.c` or `_configtest.c`, or `t` contains
`/CMakeTmp/`, is a recognized input file and does not begin with `-D` or `-I`,
`translate_args_for_analyzer` returns `-1`, even when other recognized source
files are present. -/
theorem translate_skips_at_black_listed (gcc : Bool) (argv0 t : String)
    (pre post : List String) (hw : whole_arguments pre = true)
    (ht : t = "conftest.c" ∨ t = "_configtest.c"
      ∨ ((strstr t.toList "/CMakeTmp/".toList).isSome = true
          ∧ (V1.is_input_file t false).1 = true ∧ V1.is_def_inc gcc t = false)) :
    (V1.translate_args_for_analyzer gcc (argv0 :: (pre ++ t :: post)).length
        (argv0 :: (pre ++ t :: post))).value = some (-1) := by
  rw [value_eq_v1]
  refine filter_args_skip _ (classify_takes_value_v1 gcc) pre post t hw ?_
  rcases ht with h | h | ⟨h1, h2, h3⟩
  · subst h; cases gcc <;> decide
  · subst h; cases gcc <;> decide
  · have h4 := is_input_file_snd_v1 t h2
    have h5 : V1.is_black_listed_file t = true := by
      simp only [V1.is_black_listed_file, h1, Bool.or_true]
    unfold V1.classify
    cases hE : STREQ t "-E" with
    | true => simp
    | false => simp [h3, h2, h4, h5]

/-- C2, the instance of the claim: `[cc, a.c, conftest.c]` gives `-1`. -/
theorem translate_skips_at_black_listed_witness :
    whole_arguments ["a.c"] = true
    ∧ (V1.translate_args_for_analyzer false 3 ["cc", "a.c", "conftest.c"]).value
        = some (-1) :=
  ⟨by decide,
    translate_skips_at_black_listed false "cc" "conftest.c" ["a.c"] [] (by decide)
      (Or.inl rfl)⟩

/-! ## C3 and C4: input files -/

theorem Filtered.cons_eq_tokens (f : Filtered) (ks kept : List String) (m c : Nat)
    (h : f.cons ks m = .tokens kept c) :
    ∃ kept1 c1, f = .tokens kept1 c1 ∧ kept = ks ++ kept1 ∧ c = m + c1 := by
  cases f with
  | skip => cases h
  | undefined => cases h
  | tokens kept1 c1 =>
    simp only [Filtered.cons, Filtered.tokens.injEq] at h
    exact ⟨kept1, c1, rfl, h.1.symm, h.2.symm⟩

theorem filter_args_counted (classify : String → Decision) :
    ∀ (n : Nat) (args kept : List String) (c : Nat), args.length ≤ n →
      filter_args classify args = .tokens kept c → c ≠ 0 →
      ∃ t, t ∈ kept ∧ t ∈ args ∧ classify t = .input_file := by
  intro n
  induction n with
  | zero =>
    intro args kept c hlen h hc
    have : args = [] := List.length_eq_zero.mp (by omega)
    subst this
    simp only [filter_args, Filtered.tokens.injEq] at h
    exact absurd h.2.symm hc
  | succ n ih =>
    intro args kept c hlen h hc
    cases args with
    | nil =>
      simp only [filter_args, Filtered.tokens.injEq] at h
      exact absurd h.2.symm hc
    | cons a rest =>
      have hlen1 : rest.length ≤ n := by simp at hlen; omega
      rw [filter_args_cons] at h
      cases hd : classify a with
      | skip_all => rw [hd] at h; cases h
      | forward =>
        rw [hd] at h
        obtain ⟨kept1, c1, h1, h2, h3⟩ := Filtered.cons_eq_tokens _ _ _ _ _ h
        obtain ⟨t, ht1, ht2, ht3⟩ := ih rest kept1 c1 hlen1 h1 (by omega)
        exact ⟨t, by simp [h2, ht1], by simp [ht2], ht3⟩
      | input_file =>
        rw [hd] at h
        obtain ⟨kept1, c1, h1, h2, h3⟩ := Filtered.cons_eq_tokens _ _ _ _ _ h
        exact ⟨a, by simp [h2], by simp, hd⟩
      | drop =>
        rw [hd] at h
        obtain ⟨t, ht1, ht2, ht3⟩ := ih rest kept c hlen1 h hc
        exact ⟨t, ht1, by simp [ht2], ht3⟩
      | forward_with_value =>
        rw [hd] at h
        cases rest with
        | nil =>
          simp only [Filtered.tokens.injEq] at h
          exact absurd h.2.symm hc
        | cons v rest1 =>
          simp only at h
          obtain ⟨kept1, c1, h1, h2, h3⟩ := Filtered.cons_eq_tokens _ _ _ _ _ h
          obtain ⟨t, ht1, ht2, ht3⟩ :=
            ih rest1 kept1 c1 (by simp at hlen1; omega) h1 (by omega)
          exact ⟨t, by simp [h2, ht1], by simp [ht2], ht3⟩
      | rewrite pfx =>
        rw [hd] at h
        cases rest with
        | nil => cases h
        | cons v rest1 =>
          simp only at h
          obtain ⟨kept1, c1, h1, h2, h3⟩ := Filtered.cons_eq_tokens _ _ _ _ _ h
          obtain ⟨t, ht1, ht2, ht3⟩ :=
            ih rest1 kept1 c1 (by simp at hlen1; omega) h1 (by omega)
          exact ⟨t, by simp [h2, ht1], by simp [ht2], ht3⟩

theorem ret_of_Sim (o : Outcome) (argv0 : String) (f : Filtered) (n : Int)
    (out : List String) (h : Sim o [argv0] 0 f) (ho : o = .ret n out) (hn : 0 ≤ n) :
    ∃ kept c, f = .tokens kept c ∧ c ≠ 0 ∧ n = (kept.length : Int) + 1
      ∧ out.take (kept.length + 1) = argv0 :: kept := by
  subst ho
  cases f with
  | skip =>
    obtain ⟨a, h⟩ := h
    simp only [Outcome.ret.injEq] at h
    omega
  | undefined => cases h
  | tokens kept c =>
    obtain ⟨a, h, h2⟩ := h
    by_cases hc : c = 0
    · simp only [after_loop, hc, Nat.add_zero, if_true, Outcome.ret.injEq] at h
      omega
    · simp only [after_loop, Nat.zero_add, hc, if_false, Outcome.ret.injEq] at h
      refine ⟨kept, c, rfl, hc, ?_, ?_⟩
      · rw [h.1]; simp; omega
      · rw [h.2]
        simpa [Nat.add_comm] using h2

theorem classify_input_file_v1 (gcc : Bool) (t : String)
    (h : V1.classify gcc t = .input_file) : (V1.is_input_file t false).1 = true := by
  unfold V1.classify at h
  split_ifs at h
  assumption

/-- C3, the failing input: with an analyzer that is not gcc compatible, on
`[cc, -iquote]` the older translator calls `drop_arg` twice for the one token,
the second time with `args_remain = -1`: the `memmove` length is negative and
the run is undefined instead of returning `-1`. -/
theorem translate_trailing_iquote_undefined :
    V1.translate_args_for_analyzer false 2 ["cc", "-iquote"] = .undefined := by
  decide

/-- Without a recognized input file behind `argv[0]`, the older translator
returns `-1` unless it runs into the undefined `memmove`. -/
theorem translate_no_input_file_v1 (gcc : Bool) (argv0 : String) (args : List String)
    (h : ∀ t ∈ args, (V1.is_input_file t false).1 = false) :
    (V1.translate_args_for_analyzer gcc (argv0 :: args).length (argv0 :: args)).value
        = some (-1)
    ∨ V1.translate_args_for_analyzer gcc (argv0 :: args).length (argv0 :: args)
        = .undefined := by
  rw [value_eq_v1, undefined_of_Sim _ argv0 _ (translate_filter_args_v1 gcc argv0 args)]
  cases hf : filter_args (V1.classify gcc) args with
  | skip => left; rfl
  | undefined => right; rfl
  | tokens kept c =>
    left
    by_cases hc : c = 0
    · simp [Filtered.value, hc]
    · obtain ⟨t, _, ht, ht2⟩ := filter_args_counted _ _ args kept c (le_refl _) hf hc
      have := classify_input_file_v1 gcc t ht2
      rw [h t ht] at this
      cases this

/-- C4: whenever the older `translate_args_for_analyzer` returns a count `n ≥ 0`,
one of the positions `1 .. n - 1` of the resulting vector holds a recognized
input file, for every input vector and either dialect setting. -/
theorem translated_has_input_file (gcc : Bool) (argv : List String) (n : Int)
    (out : List String)
    (h : V1.translate_args_for_analyzer gcc argv.length argv = .ret n out) (hn : 0 ≤ n) :
    ∃ k : Nat, 1 ≤ k ∧ (k : Int) < n ∧
      ∃ t, out[k]? = some t ∧ (V1.is_input_file t false).1 = true := by
  cases argv with
  | nil =>
    simp [V1.translate_args_for_analyzer, run_loop, after_loop] at h
    omega
  | cons argv0 args =>
    obtain ⟨kept, c, hf, hc, hn1, hout⟩ :=
      ret_of_Sim _ argv0 _ n out (translate_filter_args_v1 gcc argv0 args) h hn
    obtain ⟨t, ht, _, ht2⟩ := filter_args_counted _ _ args kept c (le_refl _) hf hc
    obtain ⟨j, hj, hjt⟩ := List.getElem_of_mem ht
    refine ⟨j + 1, by omega, by omega, t, ?_, classify_input_file_v1 gcc t ht2⟩
    have h1 : (out.take (kept.length + 1))[j + 1]? = some t := by
      rw [hout]; simp [hjt, hj]
    rw [List.getElem?_take] at h1
    simpa [hj] using h1

/-- C4, an instance: `[cc, -O2, a.c]` with a gcc compatible analyzer gives the
count 2 and `a.c` at position 1. -/
theorem translated_has_input_file_witness :
    V1.translate_args_for_analyzer true 3 ["cc", "-O2", "a.c"]
        = .ret 2 ["cc", "a.c", "a.c"]
    ∧ ∃ k : Nat, 1 ≤ k ∧ (k : Int) < 2 ∧
      ∃ t, ["cc", "a.c", "a.c"][k]? = some t ∧ (V1.is_input_file t false).1 = true :=
  ⟨by decide,
    translated_has_input_file true ["cc", "-O2", "a.c"] 2 ["cc", "a.c", "a.c"]
      (by decide) (by decide)⟩

/-! ## C5: rewriting `-iquote`, `-isystem` and `-include` -/

theorem classify_rewrite_v2 (cfg : Config) (hg : cfg.analyzer_is_gcc_compatible = false)
    (hcfg : cfg.value_flags_no_files = true) (flag pfx : String)
    (hflag : (flag = "-iquote" ∧ pfx = "-I") ∨ (flag = "-isystem" ∧ pfx = "-I")
      ∨ (flag = "-include" ∧ pfx = "--include=")) :
    V2.classify cfg flag = .rewrite pfx := by
  have hfile := value_flags_spec cfg hcfg hg flag (by tauto)
  have hp : STREQ flag "-E" = false ∧ MATCH_PREFIX flag "-M" = false
      ∧ MATCH_PREFIX flag "-D" = false ∧ MATCH_PREFIX flag "-I" = false := by
    rcases hflag with ⟨h, _⟩ | ⟨h, _⟩ | ⟨h, _⟩ <;> subst h <;> decide
  obtain ⟨hE, hM, hD, hI⟩ := hp
  unfold V2.classify V2.is_def_inc
  rw [hE, hM, hD, hI, hg, hfile]
  rcases hflag with ⟨h, h1⟩ | ⟨h, h1⟩ | ⟨h, h1⟩ <;> subst h <;> subst h1 <;> simp [STREQ]

theorem filter_args_rewrite (classify : String → Decision) (hc : TakesValueSpec classify)
    (argv0 flag pfx v : String) (pre post a b : List String) (ca cb : Nat)
    (hflag : classify flag = .rewrite pfx) (hw : whole_arguments pre = true)
    (ha : filter_args classify pre = .tokens a ca)
    (hb : filter_args classify post = .tokens b cb) (hcnt : ca + cb ≠ 0) :
    (filter_args classify (pre ++ flag :: v :: post)).args argv0
      = some (argv0 :: (a ++ (pfx ++ v) :: b)) := by
  rw [filter_args_append classify hc pre _ hw, filter_args_cons, hflag, ha]
  simp only [hb, Filtered.cons, Filtered.append, Filtered.args, List.singleton_append]
  rw [if_neg (by omega)]

/-- C5: with an analyzer that is not gcc compatible, in both versions: when
`-iquote` or `-isystem` followed by `v` stands behind `argv[0]` and whole
arguments `pre`, the two tokens are replaced in the translated vector by the one
token `-I` followed by `v`, and `-include` followed by `v` by `--include=`
followed by `v`; the tokens `a` kept from `pre` stand in front of it and the
tokens `b` kept from the arguments `post` behind it, in their order. -/
theorem translate_rewrites_flag (cfg : Config)
    (hg : cfg.analyzer_is_gcc_compatible = false) (hcfg : cfg.value_flags_no_files = true)
    (argv0 flag pfx v : String) (pre post : List String)
    (hflag : (flag = "-iquote" ∧ pfx = "-I") ∨ (flag = "-isystem" ∧ pfx = "-I")
      ∨ (flag = "-include" ∧ pfx = "--include="))
    (hw : whole_arguments pre = true) :
    (∀ (a b : List String) (ca cb : Nat),
      filter_args (V1.classify false) pre = .tokens a ca →
      filter_args (V1.classify false) post = .tokens b cb → ca + cb ≠ 0 →
      (V1.translate_args_for_analyzer false (argv0 :: (pre ++ flag :: v :: post)).length
        (argv0 :: (pre ++ flag :: v :: post))).args
        = some (argv0 :: (a ++ (pfx ++ v) :: b)))
    ∧ (∀ (a b : List String) (ca cb : Nat),
      filter_args (V2.classify cfg) pre = .tokens a ca →
      filter_args (V2.classify cfg) post = .tokens b cb → ca + cb ≠ 0 →
      (V2.translate_args_for_analyzer cfg (argv0 :: (pre ++ flag :: v :: post)).length
        (argv0 :: (pre ++ flag :: v :: post))).args
        = some (argv0 :: (a ++ (pfx ++ v) :: b))) := by
  constructor
  · intro a b ca cb ha hb hcnt
    rw [args_eq_v1]
    refine filter_args_rewrite _ (classify_takes_value_v1 false) argv0 flag pfx v pre post
      a b ca cb ?_ hw ha hb hcnt
    rcases hflag with ⟨h, h1⟩ | ⟨h, h1⟩ | ⟨h, h1⟩ <;> subst h <;> subst h1 <;> decide
  · intro a b ca cb ha hb hcnt
    rw [args_eq_v2]
    exact filter_args_rewrite _ (classify_takes_value_v2 cfg hcfg) argv0 flag pfx v pre post
      a b ca cb (classify_rewrite_v2 cfg hg hcfg flag pfx hflag) hw ha hb hcnt

/-- C5, the instances of the claim: `[cc, -iquote, FOO, a.c]` translates to
`[cc, -IFOO, a.c]` and `[cc, -include, FOO, a.c]` to `[cc, --include=FOO, a.c]`. -/
theorem translate_rewrites_flag_witness :
    ((V1.translate_args_for_analyzer false 4 ["cc", "-iquote", "FOO", "a.c"]).args
        = some ["cc", "-IFOO", "a.c"]
      ∧ (V2.translate_args_for_analyzer cppcheck_config 4
          ["cc", "-iquote", "FOO", "a.c"]).args = some ["cc", "-IFOO", "a.c"])
    ∧ ((V1.translate_args_for_analyzer false 4 ["cc", "-include", "FOO", "a.c"]).args
        = some ["cc", "--include=FOO", "a.c"]
      ∧ (V2.translate_args_for_analyzer cppcheck_config 4
          ["cc", "-include", "FOO", "a.c"]).args = some ["cc", "--include=FOO", "a.c"]) :=
  ⟨⟨(translate_rewrites_flag cppcheck_config rfl (by decide)
        "cc" "-iquote" "-I" "FOO" [] ["a.c"] (Or.inl ⟨rfl, rfl⟩) rfl).1
        [] ["a.c"] 0 1 (by decide) (by decide) (by decide),
     (translate_rewrites_flag cppcheck_config rfl (by decide)
        "cc" "-iquote" "-I" "FOO" [] ["a.c"] (Or.inl ⟨rfl, rfl⟩) rfl).2
        [] ["a.c"] 0 1 (by decide) (by decide) (by decide)⟩,
   ⟨(translate_rewrites_flag cppcheck_config rfl (by decide)
        "cc" "-include" "--include=" "FOO" [] ["a.c"] (Or.inr (Or.inr ⟨rfl, rfl⟩)) rfl).1
        [] ["a.c"] 0 1 (by decide) (by decide) (by decide),
     (translate_rewrites_flag cppcheck_config rfl (by decide)
        "cc" "-include" "--include=" "FOO" [] ["a.c"] (Or.inr (Or.inr ⟨rfl, rfl⟩)) rfl).2
        [] ["a.c"] 0 1 (by decide) (by decide) (by decide)⟩⟩

/-! ## C6 and C8: a gcc compatible analyzer -/

theorem classify_no_rewrite_v2 (cfg : Config) (hg : cfg.analyzer_is_gcc_compatible = true)
    (a pfx : String) : V2.classify cfg a ≠ .rewrite pfx := by
  intro h
  unfold V2.classify at h
  rw [hg] at h
  split_ifs at h <;> simp_all

theorem classify_takes_value_gcc_v2 (cfg : Config)
    (hg : cfg.analyzer_is_gcc_compatible = true) : TakesValueSpec (V2.classify cfg) :=
  classify_takes_value_v2 cfg (by simp [Config.value_flags_no_files, hg])

theorem filter_args_sublist (classify : String → Decision)
    (hr : ∀ a pfx, classify a ≠ .rewrite pfx) :
    ∀ (n : Nat) (args kept : List String) (c : Nat), args.length ≤ n →
      filter_args classify args = .tokens kept c → kept.Sublist args := by
  intro n
  induction n with
  | zero =>
    intro args kept c hlen h
    have : args = [] := List.length_eq_zero.mp (by omega)
    subst this
    simp only [filter_args, Filtered.tokens.injEq] at h
    rw [← h.1]
  | succ n ih =>
    intro args kept c hlen h
    cases args with
    | nil =>
      simp only [filter_args, Filtered.tokens.injEq] at h
      rw [← h.1]
    | cons a rest =>
      have hlen1 : rest.length ≤ n := by simp at hlen; omega
      rw [filter_args_cons] at h
      cases hd : classify a with
      | skip_all => rw [hd] at h; cases h
      | forward =>
        rw [hd] at h
        obtain ⟨kept1, c1, h1, h2, _⟩ := Filtered.cons_eq_tokens _ _ _ _ _ h
        subst h2
        exact (ih rest kept1 c1 hlen1 h1).cons₂ a
      | input_file =>
        rw [hd] at h
        obtain ⟨kept1, c1, h1, h2, _⟩ := Filtered.cons_eq_tokens _ _ _ _ _ h
        subst h2
        exact (ih rest kept1 c1 hlen1 h1).cons₂ a
      | drop =>
        rw [hd] at h
        exact (ih rest kept c hlen1 h).cons a
      | forward_with_value =>
        rw [hd] at h
        cases rest with
        | nil =>
          simp only [Filtered.tokens.injEq] at h
          rw [← h.1]
        | cons v rest1 =>
          simp only at h
          obtain ⟨kept1, c1, h1, h2, _⟩ := Filtered.cons_eq_tokens _ _ _ _ _ h
          subst h2
          exact ((ih rest1 kept1 c1 (by simp at hlen1; omega) h1).cons₂ v).cons₂ a
      | rewrite pfx => exact absurd hd (hr a pfx)

theorem Filtered.args_eq_some (f : Filtered) (argv0 : String) (l : List String)
    (h : f.args argv0 = some l) :
    ∃ kept c, f = .tokens kept c ∧ c ≠ 0 ∧ l = argv0 :: kept := by
  cases f with
  | skip => cases h
  | undefined => cases h
  | tokens kept c =>
    by_cases hc : c = 0
    · simp [Filtered.args, hc] at h
    · simp only [Filtered.args, hc, if_false, Option.some.injEq] at h
      exact ⟨kept, c, rfl, hc, h.symm⟩

theorem Filtered.append_eq_tokens (f g : Filtered) (kept : List String) (c : Nat)
    (h : f.append g = .tokens kept c) :
    ∃ a ca b cb, f = .tokens a ca ∧ g = .tokens b cb ∧ kept = a ++ b ∧ c = ca + cb := by
  cases f with
  | skip => cases h
  | undefined => cases h
  | tokens a ca =>
    obtain ⟨b, cb, h1, h2, h3⟩ := Filtered.cons_eq_tokens _ _ _ _ _ h
    exact ⟨a, ca, b, cb, rfl, h1, h2, h3⟩

/-- C6: with a gcc compatible analyzer, in the newer version: when a bare `-D`
or `-I` followed by `v` stands behind `argv[0]` and whole arguments `pre` and
the translation does not skip, the translated vector is `argv[0]`, tokens kept
from `pre`, the flag, `v` unchanged whatever it looks like, and tokens kept from
the arguments `post` behind. -/
theorem translate_forwards_bare_flag (cfg : Config)
    (hg : cfg.analyzer_is_gcc_compatible = true) (argv0 flag v : String)
    (pre post l : List String) (hflag : flag = "-D" ∨ flag = "-I")
    (hw : whole_arguments pre = true)
    (h : (V2.translate_args_for_analyzer cfg (argv0 :: (pre ++ flag :: v :: post)).length
        (argv0 :: (pre ++ flag :: v :: post))).args = some l) :
    ∃ a b : List String, a.Sublist pre ∧ b.Sublist post
      ∧ l = argv0 :: (a ++ flag :: v :: b) := by
  have hc := classify_takes_value_gcc_v2 cfg hg
  have hr := classify_no_rewrite_v2 cfg hg
  have hfl : V2.classify cfg flag = .forward_with_value := by
    have hp : STREQ flag "-E" = false ∧ MATCH_PREFIX flag "-M" = false
        ∧ (MATCH_PREFIX flag "-D" || MATCH_PREFIX flag "-I") = true
        ∧ (STREQ flag "-D" || STREQ flag "-I") = true := by
      rcases hflag with h | h <;> subst h <;> decide
    obtain ⟨hE, hM, hD, hI⟩ := hp
    unfold V2.classify V2.is_def_inc V2.is_bare_def_inc
    rw [hE, hM, hD, hI]
    simp
  rw [args_eq_v2] at h
  obtain ⟨kept, c, hf, _, hl⟩ := Filtered.args_eq_some _ _ _ h
  rw [filter_args_append _ hc pre _ hw, filter_args_cons, hfl] at hf
  obtain ⟨a, ca, b1, cb1, h1, h2, h3, _⟩ := Filtered.append_eq_tokens _ _ _ _ hf
  simp only at h2
  obtain ⟨b, cb, h4, h5, _⟩ := Filtered.cons_eq_tokens _ _ _ _ _ h2
  refine ⟨a, b, filter_args_sublist _ hr _ pre a ca (le_refl _) h1,
    filter_args_sublist _ hr _ post b cb (le_refl _) h4, ?_⟩
  rw [hl, h3, h5]
  rfl

/-- C6, an instance: `[cc, -Wall, -D, x.c, a.c, -o]`, where the value of `-D`
looks like an input file. -/
theorem translate_forwards_bare_flag_witness :
    whole_arguments ["-Wall"] = true
    ∧ (V2.translate_args_for_analyzer gcc_config 6
        ["cc", "-Wall", "-D", "x.c", "a.c", "-o"]).args = some ["cc", "-D", "x.c", "a.c"]
    ∧ ∃ a b : List String, a.Sublist ["-Wall"] ∧ b.Sublist ["a.c", "-o"]
      ∧ ["cc", "-D", "x.c", "a.c"] = "cc" :: (a ++ "-D" :: "x.c" :: b) :=
  ⟨by decide, by decide,
    translate_forwards_bare_flag gcc_config rfl "cc" "-D" "x.c" ["-Wall"] ["a.c", "-o"]
      ["cc", "-D", "x.c", "a.c"] (Or.inl rfl) (by decide) (by decide)⟩

theorem forwarded_cons (cfg : Config) (arg : String) (rest : List String) :
    V2.forwarded cfg (arg :: rest) =
      if V2.is_def_inc cfg arg then
        if V2.is_bare_def_inc cfg arg then
          match rest with
          | [] => [arg]
          | v :: rest1 => arg :: v :: V2.forwarded cfg rest1
        else arg :: V2.forwarded cfg rest
      else if cfg.is_input_file arg cfg.analyzer_is_cxx_ready then
        arg :: V2.forwarded cfg rest
      else if V2.is_forwardable_gcc_flag cfg arg then arg :: V2.forwarded cfg rest
      else V2.forwarded cfg rest := by
  cases rest <;> simp only [V2.forwarded]

theorem filter_args_forwarded (cfg : Config) (hg : cfg.analyzer_is_gcc_compatible = true) :
    ∀ (n : Nat) (args kept : List String) (c : Nat), args.length ≤ n →
      filter_args (V2.classify cfg) args = .tokens kept c →
      kept = V2.forwarded cfg args := by
  intro n
  induction n with
  | zero =>
    intro args kept c hlen h
    have : args = [] := List.length_eq_zero.mp (by omega)
    subst this
    simp only [filter_args, Filtered.tokens.injEq] at h
    rw [← h.1]; rfl
  | succ n ih =>
    intro args kept c hlen h
    cases args with
    | nil =>
      simp only [filter_args, Filtered.tokens.injEq] at h
      rw [← h.1]; rfl
    | cons a rest =>
      have hlen1 : rest.length ≤ n := by simp at hlen; omega
      rw [filter_args_cons] at h
      rw [forwarded_cons]
      generalize hd : V2.classify cfg a = d at h
      unfold V2.classify at hd
      rw [hg] at hd
      cases hE : STREQ a "-E" with
      | true =>
        simp only [hE, if_true] at hd
        subst hd
        simp only at h
        cases h
      | false =>
      cases hM : MATCH_PREFIX a "-M" with
      | true =>
        simp only [hE, hM, if_true, Bool.false_eq_true, if_false] at hd
        subst hd
        simp only at h
        cases h
      | false =>
      cases hdi : V2.is_def_inc cfg a with
      | true =>
        cases hbare : V2.is_bare_def_inc cfg a with
        | true =>
          simp only [hE, hM, hdi, hbare, if_true, Bool.false_eq_true, if_false] at hd
          subst hd
          simp only [hE, hM, hdi, hbare, if_true, Bool.false_eq_true, if_false] at h ⊢
          cases rest with
          | nil =>
            simp only [Filtered.tokens.injEq] at h
            rw [← h.1]
          | cons v rest1 =>
            simp only at h ⊢
            obtain ⟨kept1, c1, h1, h2, _⟩ := Filtered.cons_eq_tokens _ _ _ _ _ h
            rw [h2, ih rest1 kept1 c1 (by simp at hlen1; omega) h1]
            rfl
        | false =>
          simp only [hE, hM, hdi, hbare, if_true, Bool.false_eq_true, if_false] at hd
          subst hd
          simp only [hE, hM, hdi, hbare, if_true, Bool.false_eq_true, if_false] at h ⊢
          obtain ⟨kept1, c1, h1, h2, _⟩ := Filtered.cons_eq_tokens _ _ _ _ _ h
          rw [h2, ih rest kept1 c1 hlen1 h1]
          rfl
      | false =>
        cases hin : cfg.is_input_file a cfg.analyzer_is_cxx_ready with
        | true =>
          cases hig : cfg.is_ignored_file a with
          | true =>
            simp only [hE, hM, hdi, hin, hig, if_true, Bool.false_eq_true, if_false] at hd
            subst hd
            simp only at h
            cases h
          | false =>
            simp only [hE, hM, hdi, hin, hig, if_true, Bool.false_eq_true, if_false] at hd
            subst hd
            simp only [hE, hM, hdi, hin, hig, if_true, Bool.false_eq_true, if_false] at h ⊢
            obtain ⟨kept1, c1, h1, h2, _⟩ := Filtered.cons_eq_tokens _ _ _ _ _ h
            rw [h2, ih rest kept1 c1 hlen1 h1]
            rfl
        | false =>
          cases hm : V2.is_forwardable_gcc_flag cfg a with
          | true =>
            simp only [hE, hM, hdi, hin, hm, if_true, Bool.false_eq_true, if_false] at hd
            subst hd
            simp only [hE, hM, hdi, hin, hm, if_true, Bool.false_eq_true, if_false] at h ⊢
            obtain ⟨kept1, c1, h1, h2, _⟩ := Filtered.cons_eq_tokens _ _ _ _ _ h
            rw [h2, ih rest kept1 c1 hlen1 h1]
            rfl
          | false =>
            simp only [hE, hM, hdi, hin, hm, if_true, Bool.false_eq_true, if_false] at hd
            subst hd
            simp only [hE, hM, hdi, hin, hm, if_true, Bool.false_eq_true, if_false] at h ⊢
            exact ih rest kept c hlen1 h

/-! ## C7: the `-M` flags -/

/-- C7, as stated, fails: a token beginning with `-M` standing right behind a
bare `-D` is taken as the value of that flag and the newer translator returns a
count, not `-1`. -/
theorem translate_M_as_value_not_skipped :
    (V2.translate_args_for_analyzer gcc_config 4 ["cc", "-D", "-MD", "a.c"]).args
      = some ["cc", "-D", "-MD", "a.c"] := by
  decide

/-- C7, amended: in the newer version, for either dialect setting, when a token
`t` beginning with `-M` stands behind `argv[0]` and whole arguments `pre` (so
that it is not taken as the value of a `-D`, `-I`, `-include`, `-iquote` or
`-isystem` in front of it), `translate_args_for_analyzer` returns `-1`. -/
theorem translate_skips_at_M (cfg : Config) (hcfg : cfg.value_flags_no_files = true)
    (argv0 t : String) (pre post : List String) (hw : whole_arguments pre = true)
    (ht : MATCH_PREFIX t "-M" = true) :
    (V2.translate_args_for_analyzer cfg (argv0 :: (pre ++ t :: post)).length
        (argv0 :: (pre ++ t :: post))).value = some (-1) := by
  rw [value_eq_v2]
  refine filter_args_skip _ (classify_takes_value_v2 cfg hcfg) pre post t hw ?_
  unfold V2.classify
  cases hE : STREQ t "-E" with
  | true => simp
  | false => simp [ht]

/-- C7, an instance: `-MD` behind `-I inc a.c`. -/
theorem translate_skips_at_M_witness :
    cppcheck_config.value_flags_no_files = true ∧ whole_arguments ["-I", "inc", "a.c"] = true
    ∧ MATCH_PREFIX "-MD" "-M" = true
    ∧ (V2.translate_args_for_analyzer cppcheck_config 5
        ["cc", "-I", "inc", "a.c", "-MD"]).value = some (-1) :=
  ⟨by decide, by decide, by decide,
    translate_skips_at_M cppcheck_config (by decide) "cc" "-MD"
      ["-I", "inc", "a.c"] [] (by decide) (by decide)⟩

/-! ## C8: the vector forwarded to a gcc compatible analyzer -/

/-- C8: in the newer version with a gcc compatible analyzer, whenever the
translation does not skip, the translated vector is `argv[0]` followed by
exactly the forwarded tokens of the arguments (macro and include flags with the
value of each bare one, recognized input files, flags accepted by
`is_forwardable_gcc_flag`), and it is a subsequence of the input: no token is
rewritten or reordered. -/
theorem translate_gcc_forwards (cfg : Config) (hg : cfg.analyzer_is_gcc_compatible = true)
    (argv0 : String) (args l : List String)
    (h : (V2.translate_args_for_analyzer cfg (argv0 :: args).length (argv0 :: args)).args
      = some l) :
    l = argv0 :: V2.forwarded cfg args ∧ l.Sublist (argv0 :: args) := by
  rw [args_eq_v2] at h
  obtain ⟨kept, c, hf, _, hl⟩ := Filtered.args_eq_some _ _ _ h
  subst hl
  constructor
  · rw [filter_args_forwarded cfg hg _ args kept c (le_refl _) hf]
  · exact (filter_args_sublist _ (classify_no_rewrite_v2 cfg hg) _ args kept c (le_refl _)
      hf).cons₂ argv0

/-- C8, an instance: with the analyzer `gcc`, `-Wall`, `-o` and `a.o` are left
out and everything else is forwarded as it is. -/
theorem translate_gcc_forwards_witness :
    (V2.translate_args_for_analyzer gcc_config 11
        ["cc", "-Wall", "-O2", "-I", "inc", "-DX=1", "-fPIC", "-Wno-unused", "a.c", "-o",
          "a.o"]).args
      = some ["cc", "-O2", "-I", "inc", "-DX=1", "-fPIC", "-Wno-unused", "a.c"]
    ∧ ["cc", "-O2", "-I", "inc", "-DX=1", "-fPIC", "-Wno-unused", "a.c"]
        = "cc" :: V2.forwarded gcc_config
            ["-Wall", "-O2", "-I", "inc", "-DX=1", "-fPIC", "-Wno-unused", "a.c", "-o", "a.o"]
    ∧ ["cc", "-O2", "-I", "inc", "-DX=1", "-fPIC", "-Wno-unused", "a.c"].Sublist
        ["cc", "-Wall", "-O2", "-I", "inc", "-DX=1", "-fPIC", "-Wno-unused", "a.c", "-o",
          "a.o"] :=
  ⟨by decide,
    translate_gcc_forwards gcc_config rfl "cc"
      ["-Wall", "-O2", "-I", "inc", "-DX=1", "-fPIC", "-Wno-unused", "a.c", "-o", "a.o"]
      ["cc", "-O2", "-I", "inc", "-DX=1", "-fPIC", "-Wno-unused", "a.c"] (by decide)⟩

/-! ## C9 and C10: the status of the compiler -/

theorem wait_for_nil_v2 (pid : Int) (pids : Pids) :
    V2.wait_for pid pids [] = ⟨none, pids, []⟩ := by
  rw [V2.wait_for]

theorem wait_for_failed_v2 (pid : Int) (pids : Pids) (errno : Nat)
    (rest : List WaitidResult) :
    V2.wait_for pid pids (.failed errno :: rest) =
      if EINTR ≠ errno then ⟨some EXIT_FAILURE, pids, rest⟩
      else V2.wait_for pid pids rest := by
  rw [V2.wait_for]

theorem wait_for_stopped_v2 (pid : Int) (pids : Pids) (si : siginfo_t)
    (rest : List WaitidResult)
    (h : si.si_code = .CLD_STOPPED ∨ si.si_code = .CLD_CONTINUED) :
    V2.wait_for pid pids (.info si :: rest) = V2.wait_for pid pids rest := by
  rw [V2.wait_for]
  rcases h with h | h <;> rw [h]

theorem wait_for_other_v2 (pid : Int) (pids : Pids) (si : siginfo_t)
    (rest : List WaitidResult)
    (h1 : si.si_code ≠ .CLD_STOPPED) (h2 : si.si_code ≠ .CLD_CONTINUED)
    (h3 : pid ≠ si.si_pid) :
    V2.wait_for pid pids (.info si :: rest) = V2.wait_for pid (cleared pids si.si_pid) rest := by
  rw [V2.wait_for]
  obtain ⟨code, p, st⟩ := si
  cases code <;> first | exact absurd rfl h1 | exact absurd rfl h2 | skip
  all_goals
    simp only [cleared, h3, ne_eq, not_false_eq_true, if_true]
    by_cases hc : pids.pid_compiler = p <;> by_cases ha : pids.pid_analyzer = p <;>
      simp [hc, ha]

theorem wait_for_own_v2 (pid : Int) (pids : Pids) (si : siginfo_t)
    (rest : List WaitidResult)
    (h1 : si.si_code ≠ .CLD_STOPPED) (h2 : si.si_code ≠ .CLD_CONTINUED)
    (h3 : pid = si.si_pid) :
    V2.wait_for pid pids (.info si :: rest) =
      ⟨some (if si.si_code = .CLD_KILLED ∨ si.si_code = .CLD_DUMPED then 0x80 + si.si_status
          else si.si_status),
        cleared pids si.si_pid, rest⟩ := by
  rw [V2.wait_for]
  obtain ⟨code, p, st⟩ := si
  cases code <;> first | exact absurd rfl h1 | exact absurd rfl h2 | skip
  all_goals
    simp only [cleared, h3, ne_eq, not_true_eq_false, if_false]
    by_cases hc : pids.pid_compiler = p <;> by_cases ha : pids.pid_analyzer = p <;>
      simp [hc, ha]

theorem wait_for_value_filter (pid pa : Int) (hne : pa ≠ pid) :
    ∀ (events : List WaitidResult) (pids pids1 : Pids),
      (V2.wait_for pid pids events).value
        = (V2.wait_for pid pids1 (events.filter (fun e => !about pa e))).value := by
  intro events
  induction events with
  | nil => intro pids pids1; simp [wait_for_nil_v2]
  | cons e rest ih =>
    intro pids pids1
    cases e with
    | failed errno =>
      have hf : (WaitidResult.failed errno :: rest).filter (fun e => !about pa e)
          = .failed errno :: rest.filter (fun e => !about pa e) := by
        simp [about]
      rw [hf, wait_for_failed_v2, wait_for_failed_v2]
      by_cases h : EINTR ≠ errno
      · rw [if_pos h, if_pos h]
      · rw [if_neg h, if_neg h]; exact ih pids pids1
    | info si =>
      by_cases hst : si.si_code = .CLD_STOPPED ∨ si.si_code = .CLD_CONTINUED
      · rw [wait_for_stopped_v2 pid pids si rest hst]
        by_cases hp : si.si_pid = pa
        · simp only [List.filter_cons, about, hp, decide_True, Bool.not_true,
            Bool.false_eq_true, if_false]
          exact ih pids pids1
        · simp only [List.filter_cons, about, hp, decide_False, Bool.not_false, if_true]
          rw [wait_for_stopped_v2 pid pids1 si _ hst]
          exact ih pids pids1
      · have h1 : si.si_code ≠ .CLD_STOPPED := fun h => hst (Or.inl h)
        have h2 : si.si_code ≠ .CLD_CONTINUED := fun h => hst (Or.inr h)
        by_cases hp : si.si_pid = pa
        · have h3 : pid ≠ si.si_pid := by rw [hp]; exact fun h => hne h.symm
          rw [wait_for_other_v2 pid pids si rest h1 h2 h3]
          simp only [List.filter_cons, about, hp, decide_True, Bool.not_true,
            Bool.false_eq_true, if_false]
          exact ih _ pids1
        · simp only [List.filter_cons, about, hp, decide_False, Bool.not_false, if_true]
          by_cases h3 : pid = si.si_pid
          · rw [wait_for_own_v2 pid pids si rest h1 h2 h3,
              wait_for_own_v2 pid pids1 si _ h1 h2 h3]
          · rw [wait_for_other_v2 pid pids si rest h1 h2 h3,
              wait_for_other_v2 pid pids1 si _ h1 h2 h3]
            exact ih _ _

theorem wait_for_returns_v2 (pid : Int) :
    ∀ (events : List WaitidResult) (pids : Pids),
      (∃ e ∈ events, is_termination_of pid e = true) →
      (V2.wait_for pid pids events).value ≠ none := by
  intro events
  induction events with
  | nil => intro pids h; obtain ⟨e, he, _⟩ := h; cases he
  | cons e rest ih =>
    intro pids h
    have hrest : is_termination_of pid e = false → ∃ e1 ∈ rest, is_termination_of pid e1 = true := by
      intro hf
      obtain ⟨e1, he1, ht⟩ := h
      rcases List.mem_cons.mp he1 with h0 | h0
      · subst h0; rw [hf] at ht; cases ht
      · exact ⟨e1, h0, ht⟩
    cases e with
    | failed errno =>
      rw [wait_for_failed_v2]
      by_cases h1 : EINTR ≠ errno
      · simp [h1]
      · simp only [h1, if_false]; exact ih pids (hrest rfl)
    | info si =>
      by_cases hst : si.si_code = .CLD_STOPPED ∨ si.si_code = .CLD_CONTINUED
      · rw [wait_for_stopped_v2 pid pids si rest hst]
        refine ih pids (hrest ?_)
        rcases hst with h1 | h1 <;> simp [is_termination_of, h1]
      · have h1 : si.si_code ≠ .CLD_STOPPED := fun h => hst (Or.inl h)
        have h2 : si.si_code ≠ .CLD_CONTINUED := fun h => hst (Or.inr h)
        by_cases h3 : pid = si.si_pid
        · rw [wait_for_own_v2 pid pids si rest h1 h2 h3]
          simp
        · rw [wait_for_other_v2 pid pids si rest h1 h2 h3]
          refine ih _ (hrest ?_)
          have : ¬ si.si_pid = pid := fun h => h3 h.symm
          simp [is_termination_of, this]

theorem wait_for_analyzer_zero (pid : Int) :
    ∀ (events : List WaitidResult) (pids : Pids), pids.pid_analyzer = 0 →
      (V2.wait_for pid pids events).pids.pid_analyzer = 0 := by
  intro events
  induction events with
  | nil => intro pids h; rw [wait_for_nil_v2]; exact h
  | cons e rest ih =>
    intro pids h
    cases e with
    | failed errno =>
      rw [wait_for_failed_v2]
      by_cases h1 : EINTR ≠ errno
      · simp [h1, h]
      · simp only [h1, if_false]; exact ih pids h
    | info si =>
      by_cases hst : si.si_code = .CLD_STOPPED ∨ si.si_code = .CLD_CONTINUED
      · rw [wait_for_stopped_v2 pid pids si rest hst]
        exact ih pids h
      · have h1 : si.si_code ≠ .CLD_STOPPED := fun h => hst (Or.inl h)
        have h2 : si.si_code ≠ .CLD_CONTINUED := fun h => hst (Or.inr h)
        have hc : (cleared pids si.si_pid).pid_analyzer = 0 := by
          simp [cleared, h]
        by_cases h3 : pid = si.si_pid
        · rw [wait_for_own_v2 pid pids si rest h1 h2 h3]
          exact hc
        · rw [wait_for_other_v2 pid pids si rest h1 h2 h3]
          exact ih _ hc

theorem wait_for_analyzer_left (pid pa : Int) :
    ∀ (events : List WaitidResult) (pids : Pids), pids.pid_analyzer = pa →
      (∃ e ∈ events, is_termination_of pa e = true) →
      (V2.wait_for pid pids events).pids.pid_analyzer = 0
      ∨ ((V2.wait_for pid pids events).pids.pid_analyzer = pa
          ∧ ∃ e ∈ (V2.wait_for pid pids events).rest, is_termination_of pa e = true) := by
  intro events
  induction events with
  | nil => intro pids _ h; obtain ⟨e, he, _⟩ := h; cases he
  | cons e rest ih =>
    intro pids hpa h
    have hrest : is_termination_of pa e = false → ∃ e1 ∈ rest, is_termination_of pa e1 = true := by
      intro hf
      obtain ⟨e1, he1, ht⟩ := h
      rcases List.mem_cons.mp he1 with h0 | h0
      · subst h0; rw [hf] at ht; cases ht
      · exact ⟨e1, h0, ht⟩
    cases e with
    | failed errno =>
      rw [wait_for_failed_v2]
      by_cases h1 : EINTR ≠ errno
      · rw [if_pos h1]
        exact Or.inr ⟨hpa, hrest rfl⟩
      · rw [if_neg h1]; exact ih pids hpa (hrest rfl)
    | info si =>
      by_cases hst : si.si_code = .CLD_STOPPED ∨ si.si_code = .CLD_CONTINUED
      · rw [wait_for_stopped_v2 pid pids si rest hst]
        refine ih pids hpa (hrest ?_)
        rcases hst with h1 | h1 <;> simp [is_termination_of, h1]
      · have h1 : si.si_code ≠ .CLD_STOPPED := fun h => hst (Or.inl h)
        have h2 : si.si_code ≠ .CLD_CONTINUED := fun h => hst (Or.inr h)
        by_cases hp : si.si_pid = pa
        · have hc : (cleared pids si.si_pid).pid_analyzer = 0 := by
            simp [cleared, hpa, hp]
          by_cases h3 : pid = si.si_pid
          · rw [wait_for_own_v2 pid pids si rest h1 h2 h3]
            exact Or.inl hc
          · rw [wait_for_other_v2 pid pids si rest h1 h2 h3]
            exact Or.inl (wait_for_analyzer_zero pid rest _ hc)
        · have hc : (cleared pids si.si_pid).pid_analyzer = pa := by
            have : ¬ pa = si.si_pid := fun h => hp h.symm
            simp [cleared, hpa, this]
          have hnt : is_termination_of pa (.info si) = false := by
            simp [is_termination_of, hp]
          by_cases h3 : pid = si.si_pid
          · rw [wait_for_own_v2 pid pids si rest h1 h2 h3]
            exact Or.inr ⟨hc, hrest hnt⟩
          · rw [wait_for_other_v2 pid pids si rest h1 h2 h3]
            exact ih _ hc (hrest hnt)

theorem run_status_v2 (pc pa s : Int) (hpc : 0 < pc) (events : List WaitidResult)
    (hterm : ∃ e ∈ events, is_termination_of pa e = true)
    (hs : (V2.wait_for pc ⟨pc, pa⟩ events).value = some s) :
    (V2.run_compiler_and_analyzer true pc (some pa) events).status = some s := by
  have hpc1 : ¬ pc ≤ 0 := by omega
  simp only [V2.run_compiler_and_analyzer, Bool.not_true, Bool.false_eq_true, if_false, hpc1,
    Option.getD_some, hs]
  by_cases hlive : 0 < (V2.wait_for pc ⟨pc, pa⟩ events).pids.pid_analyzer
  · simp only [hlive, if_true]
    rcases wait_for_analyzer_left pc pa events ⟨pc, pa⟩ rfl hterm with h0 | ⟨h1, h2⟩
    · omega
    · have := wait_for_returns_v2 (V2.wait_for pc ⟨pc, pa⟩ events).pids.pid_analyzer
        (V2.wait_for pc ⟨pc, pa⟩ events).rest (V2.wait_for pc ⟨pc, pa⟩ events).pids
        (by rw [h1]; exact h2)
      cases hw2 : (V2.wait_for (V2.wait_for pc ⟨pc, pa⟩ events).pids.pid_analyzer
        (V2.wait_for pc ⟨pc, pa⟩ events).pids (V2.wait_for pc ⟨pc, pa⟩ events).rest).value with
      | none => exact absurd hw2 this
      | some v => rfl
  · simp only [hlive, if_false]

/-- C9: in the newer version, when both launches succeed (`pc > 0` and `pa > 0`
returned for the compiler and the analyzer), `run_compiler_and_analyzer` returns
exactly the status `s` that `wait_for` computes for the compiler, whatever the
analyzer's outcome and whenever the analyzer terminates: two runs whose answers
of `waitid` agree once the answers about the analyzer are left out, and in both
of which the analyzer terminates, return the same status `s`. -/
theorem analyzer_never_alters_status (pc pa s : Int) (hpc : 0 < pc) (_hpa : 0 < pa)
    (hne : pa ≠ pc) (events1 events2 : List WaitidResult)
    (hsame : events1.filter (fun e => !about pa e) = events2.filter (fun e => !about pa e))
    (hterm1 : ∃ e ∈ events1, is_termination_of pa e = true)
    (hterm2 : ∃ e ∈ events2, is_termination_of pa e = true)
    (hs : (V2.wait_for pc ⟨pc, pa⟩ events1).value = some s) :
    (V2.run_compiler_and_analyzer true pc (some pa) events1).status = some s
    ∧ (V2.run_compiler_and_analyzer true pc (some pa) events2).status = some s := by
  refine ⟨run_status_v2 pc pa s hpc events1 hterm1 hs,
    run_status_v2 pc pa s hpc events2 hterm2 ?_⟩
  rw [wait_for_value_filter pc pa hne events2 ⟨pc, pa⟩ ⟨pc, pa⟩, ← hsame,
    ← wait_for_value_filter pc pa hne events1 ⟨pc, pa⟩ ⟨pc, pa⟩]
  exact hs

/-- C9, the instance of the claim: the compiler (pid 100) exits with 0 and the
analyzer (pid 101) exits with 1 behind it, or is killed by signal 11 before it:
both runs return 0. -/
theorem analyzer_never_alters_status_witness :
    (V2.run_compiler_and_analyzer true 100 (some 101)
        [.info ⟨.CLD_EXITED, 100, 0⟩, .info ⟨.CLD_EXITED, 101, 1⟩]).status = some 0
    ∧ (V2.run_compiler_and_analyzer true 100 (some 101)
        [.info ⟨.CLD_KILLED, 101, 11⟩, .info ⟨.CLD_EXITED, 100, 0⟩]).status = some 0 :=
  analyzer_never_alters_status 100 101 0 (by decide) (by decide) (by decide)
    [.info ⟨.CLD_EXITED, 100, 0⟩, .info ⟨.CLD_EXITED, 101, 1⟩]
    [.info ⟨.CLD_KILLED, 101, 11⟩, .info ⟨.CLD_EXITED, 100, 0⟩]
    (by decide) ⟨_, List.mem_cons_of_mem _ (List.mem_cons_self _ _), by decide⟩
    ⟨_, List.mem_cons_self _ _, by decide⟩ (by decide)

theorem wait_for_skip_v2 (pid : Int) (rest : List WaitidResult) :
    ∀ (skipped : List WaitidResult) (pids : Pids),
      (∀ e ∈ skipped, is_skipped_by pid e = true) →
      ∃ pids1, V2.wait_for pid pids (skipped ++ rest) = V2.wait_for pid pids1 rest := by
  intro skipped
  induction skipped with
  | nil => intro pids _; exact ⟨pids, rfl⟩
  | cons e skipped ih =>
    intro pids h
    have he := h e (List.mem_cons_self _ _)
    have hrest : ∀ e1 ∈ skipped, is_skipped_by pid e1 = true :=
      fun e1 h1 => h e1 (List.mem_cons_of_mem _ h1)
    rw [List.cons_append]
    cases e with
    | failed errno =>
      have h1 : ¬ EINTR ≠ errno := by
        simp only [is_skipped_by, decide_eq_true_eq] at he
        intro hn; exact hn he.symm
      rw [wait_for_failed_v2, if_neg h1]
      exact ih pids hrest
    | info si =>
      by_cases hst : si.si_code = .CLD_STOPPED ∨ si.si_code = .CLD_CONTINUED
      · rw [wait_for_stopped_v2 pid pids si _ hst]
        exact ih pids hrest
      · have h1 : si.si_code ≠ .CLD_STOPPED := fun h => hst (Or.inl h)
        have h2 : si.si_code ≠ .CLD_CONTINUED := fun h => hst (Or.inr h)
        have h3 : pid ≠ si.si_pid := by
          simp only [is_skipped_by, h1, h2, decide_False, Bool.false_or, ne_eq,
            decide_eq_true_eq, decide_not, Bool.not_eq_true'] at he
          intro hp
          rw [decide_eq_false_iff_not] at he
          exact he hp.symm
        rw [wait_for_other_v2 pid pids si _ h1 h2 h3]
        exact ih _ hrest

theorem wait_for_interrupted_v1 (pid : Int) (rest : List WaitpidResult) :
    ∀ (interrupted : List WaitpidResult), (∀ e ∈ interrupted, e = .failed EINTR) →
      V1.wait_for pid (interrupted ++ rest) = V1.wait_for pid rest := by
  intro interrupted
  induction interrupted with
  | nil => intro _; rfl
  | cons e interrupted ih =>
    intro h
    have he := h e (List.mem_cons_self _ _)
    subst he
    rw [List.cons_append, V1.wait_for, if_neg (by simp)]
    exact ih (fun e1 h1 => h e1 (List.mem_cons_of_mem _ h1))

/-- C10: `wait_for` maps the termination of the awaited child to a status: the
code `c` for a child that exited with `c`, and `0x80 + n` for a child terminated
by the signal `n`, killed or core dumped; in the newer version behind any
answers of `waitid` that are skipped (interrupted calls, stopped or continued
children, other children), in the older version behind any interrupted calls of
`waitpid`. -/
theorem wait_for_termination_status (pid c n : Int) (pids : Pids) (core : Bool)
    (skipped rest2 : List WaitidResult) (interrupted rest1 : List WaitpidResult)
    (hs : ∀ e ∈ skipped, is_skipped_by pid e = true)
    (hi : ∀ e ∈ interrupted, e = .failed EINTR) :
    (V2.wait_for pid pids (skipped ++ .info ⟨.CLD_EXITED, pid, c⟩ :: rest2)).value = some c
    ∧ (V2.wait_for pid pids (skipped ++ .info ⟨.CLD_KILLED, pid, n⟩ :: rest2)).value
        = some (0x80 + n)
    ∧ (V2.wait_for pid pids (skipped ++ .info ⟨.CLD_DUMPED, pid, n⟩ :: rest2)).value
        = some (0x80 + n)
    ∧ (V1.wait_for pid (interrupted ++ .status (.exited c) :: rest1)).value = some c
    ∧ (V1.wait_for pid (interrupted ++ .status (.signaled n core) :: rest1)).value
        = some (0x80 + n) := by
  refine ⟨?_, ?_, ?_, ?_, ?_⟩
  · obtain ⟨pids1, h⟩ := wait_for_skip_v2 pid (.info ⟨.CLD_EXITED, pid, c⟩ :: rest2) skipped
      pids hs
    rw [h, wait_for_own_v2 pid pids1 _ rest2 (by simp) (by simp) rfl]
    simp
  · obtain ⟨pids1, h⟩ := wait_for_skip_v2 pid (.info ⟨.CLD_KILLED, pid, n⟩ :: rest2) skipped
      pids hs
    rw [h, wait_for_own_v2 pid pids1 _ rest2 (by simp) (by simp) rfl]
    simp
  · obtain ⟨pids1, h⟩ := wait_for_skip_v2 pid (.info ⟨.CLD_DUMPED, pid, n⟩ :: rest2) skipped
      pids hs
    rw [h, wait_for_own_v2 pid pids1 _ rest2 (by simp) (by simp) rfl]
    simp
  · rw [wait_for_interrupted_v1 pid _ interrupted hi]
    simp [V1.wait_for, WIFEXITED, WEXITSTATUS]
  · rw [wait_for_interrupted_v1 pid _ interrupted hi]
    simp [V1.wait_for, WIFEXITED, WIFSIGNALED, WTERMSIG]

/-- C10, the instance of the claim: a compiler (pid 100) killed by signal 9
gives 137, in both versions, also behind an interrupted call and the
termination of another child. -/
theorem wait_for_termination_status_witness :
    (∀ e ∈ [WaitidResult.failed EINTR, .info ⟨.CLD_EXITED, 101, 1⟩],
        is_skipped_by 100 e = true)
    ∧ (∀ e ∈ [WaitpidResult.failed EINTR], e = .failed EINTR)
    ∧ (V2.wait_for 100 ⟨100, 101⟩
        [.failed EINTR, .info ⟨.CLD_EXITED, 101, 1⟩, .info ⟨.CLD_KILLED, 100, 9⟩]).value
        = some 137
    ∧ (V1.wait_for 100 [.failed EINTR, .status (.signaled 9 false)]).value = some 137 :=
  ⟨by decide, by decide,
    (wait_for_termination_status 100 0 9 ⟨100, 101⟩ false
      [.failed EINTR, .info ⟨.CLD_EXITED, 101, 1⟩] [] [.failed EINTR] []
      (by decide) (by decide)).2.1,
    (wait_for_termination_status 100 0 9 ⟨100, 101⟩ false
      [.failed EINTR, .info ⟨.CLD_EXITED, 101, 1⟩] [] [.failed EINTR] []
      (by decide) (by decide)).2.2.2.2⟩

/-! ## C11: statuses of signals and of exit codes -/

/-- C11, as stated, fails: a child that exits with the code 137, which a
normally exiting child can report, and a child killed by the signal 9 both give
the status 137. -/
theorem signal_status_collides_with_exit_code :
    (V2.wait_for 100 ⟨100, 0⟩ [.info ⟨.CLD_KILLED, 100, 9⟩]).value
      = (V2.wait_for 100 ⟨100, 0⟩ [.info ⟨.CLD_EXITED, 100, 137⟩]).value := by
  decide

/-- C11, amended: for every signal number `n ≥ 1` and every exit code `c` of the
range `0 .. 127`, the status `wait_for` returns for the awaited child terminated
by the signal `n` (killed or core dumped) differs from the status it returns for
the child that exited with `c`, and from the two exit codes `0x7F` and `0x7E` of
a failed launch. -/
theorem signal_status_distinct (pid n c : Int) (pids : Pids)
    (rest1 rest2 : List WaitidResult) (hn : 1 ≤ n) (hc : c ≤ 0x7F) :
    (V2.wait_for pid pids (.info ⟨.CLD_KILLED, pid, n⟩ :: rest1)).value
        ≠ (V2.wait_for pid pids (.info ⟨.CLD_EXITED, pid, c⟩ :: rest2)).value
    ∧ (V2.wait_for pid pids (.info ⟨.CLD_DUMPED, pid, n⟩ :: rest1)).value
        ≠ (V2.wait_for pid pids (.info ⟨.CLD_EXITED, pid, c⟩ :: rest2)).value
    ∧ (V2.wait_for pid pids (.info ⟨.CLD_KILLED, pid, n⟩ :: rest1)).value ≠ some 0x7F
    ∧ (V2.wait_for pid pids (.info ⟨.CLD_KILLED, pid, n⟩ :: rest1)).value ≠ some 0x7E
    ∧ (V2.wait_for pid pids (.info ⟨.CLD_DUMPED, pid, n⟩ :: rest1)).value ≠ some 0x7F
    ∧ (V2.wait_for pid pids (.info ⟨.CLD_DUMPED, pid, n⟩ :: rest1)).value ≠ some 0x7E := by
  rw [wait_for_own_v2 pid pids ⟨.CLD_KILLED, pid, n⟩ rest1 (by simp) (by simp) rfl,
    wait_for_own_v2 pid pids ⟨.CLD_DUMPED, pid, n⟩ rest1 (by simp) (by simp) rfl,
    wait_for_own_v2 pid pids ⟨.CLD_EXITED, pid, c⟩ rest2 (by simp) (by simp) rfl]
  simp only [true_or, or_true, if_true, reduceCtorEq, or_self, if_false, ne_eq,
    Option.some.injEq]
  refine ⟨?_, ?_, ?_, ?_, ?_, ?_⟩ <;> omega

/-- C11, an instance: the statuses of the signal 9 and of the exit code 127. -/
theorem signal_status_distinct_witness :
    (V2.wait_for 100 ⟨100, 0⟩ [.info ⟨.CLD_KILLED, 100, 9⟩]).value
        ≠ (V2.wait_for 100 ⟨100, 0⟩ [.info ⟨.CLD_EXITED, 100, 127⟩]).value
    ∧ (V2.wait_for 100 ⟨100, 0⟩ [.info ⟨.CLD_KILLED, 100, 9⟩]).value ≠ some 0x7F :=
  ⟨(signal_status_distinct 100 9 127 ⟨100, 0⟩ [] [] (by decide) (by decide)).1,
    (signal_status_distinct 100 9 127 ⟨100, 0⟩ [] [] (by decide) (by decide)).2.2.1⟩

/-! ## C12: the analyzer is killed when the compiler fails -/

theorem wait_for_analyzer_pid (pid : Int) :
    ∀ (events : List WaitidResult) (pids : Pids),
      (V2.wait_for pid pids events).pids.pid_analyzer = pids.pid_analyzer
      ∨ (V2.wait_for pid pids events).pids.pid_analyzer = 0 := by
  intro events
  induction events with
  | nil => intro pids; rw [wait_for_nil_v2]; exact Or.inl rfl
  | cons e rest ih =>
    intro pids
    cases e with
    | failed errno =>
      rw [wait_for_failed_v2]
      by_cases h1 : EINTR ≠ errno
      · rw [if_pos h1]; exact Or.inl rfl
      · rw [if_neg h1]; exact ih pids
    | info si =>
      by_cases hst : si.si_code = .CLD_STOPPED ∨ si.si_code = .CLD_CONTINUED
      · rw [wait_for_stopped_v2 pid pids si rest hst]
        exact ih pids
      · have h1 : si.si_code ≠ .CLD_STOPPED := fun h => hst (Or.inl h)
        have h2 : si.si_code ≠ .CLD_CONTINUED := fun h => hst (Or.inr h)
        have hc : (cleared pids si.si_pid).pid_analyzer = pids.pid_analyzer
            ∨ (cleared pids si.si_pid).pid_analyzer = 0 := by
          by_cases hp : pids.pid_analyzer = si.si_pid
          · right; simp [cleared, hp]
          · left; simp [cleared, hp]
        by_cases h3 : pid = si.si_pid
        · rw [wait_for_own_v2 pid pids si rest h1 h2 h3]
          exact hc
        · rw [wait_for_other_v2 pid pids si rest h1 h2 h3]
          rcases ih (cleared pids si.si_pid) with h4 | h4
          · rcases hc with h5 | h5
            · exact Or.inl (h4.trans h5)
            · exact Or.inr (h4.trans h5)
          · exact Or.inr h4

/-- C12: in both versions of `run_compiler_and_analyzer`, with the compiler
launched as `pc > 0`: when the wait for the compiler gives a status `s ≠ 0` and
the analyzer `pa` is still tracked as live behind it, the actions are the two
launches, the wait for the compiler, exactly one `kill(pa, SIGTERM)` and then the
wait for the analyzer, and the run returns `s` when that wait returns; when the
wait for the compiler gives the status 0, no `kill` is among the actions. -/
theorem cross_kill_order (pc pa s : Int) (analyzer_launch : Option Int) (hpc : 0 < pc)
    (events2 : List WaitidResult) (events1 : List WaitpidResult) :
    ((V2.wait_for pc ⟨pc, pa⟩ events2).value = some s → s ≠ 0 →
      0 < (V2.wait_for pc ⟨pc, pa⟩ events2).pids.pid_analyzer →
      (∃ e ∈ events2, is_termination_of pa e = true) →
      (V2.run_compiler_and_analyzer true pc (some pa) events2).trace
          = [.launch_compiler, .consider_analyzer (some pa), .wait pc, .kill pa SIGTERM,
              .wait pa]
        ∧ (V2.run_compiler_and_analyzer true pc (some pa) events2).status = some s)
    ∧ ((V2.wait_for pc ⟨pc, analyzer_launch.getD 0⟩ events2).value = some 0 →
      ∀ p sig, Action.kill p sig
        ∉ (V2.run_compiler_and_analyzer true pc analyzer_launch events2).trace)
    ∧ ((V1.wait_for pc events1).value = some s → s ≠ 0 → 0 < pa →
      (V1.wait_for pa (V1.wait_for pc events1).rest).value ≠ none →
      (V1.run_compiler_and_analyzer true pc (some pa) events1).trace
          = [.launch_compiler, .consider_analyzer (some pa), .wait pc, .kill pa SIGTERM,
              .wait pa]
        ∧ (V1.run_compiler_and_analyzer true pc (some pa) events1).status = some s)
    ∧ ((V1.wait_for pc events1).value = some 0 →
      ∀ p sig, Action.kill p sig
        ∉ (V1.run_compiler_and_analyzer true pc analyzer_launch events1).trace) := by
  have hpc1 : ¬ pc ≤ 0 := by omega
  refine ⟨?_, ?_, ?_, ?_⟩
  · intro hs hs0 hlive hterm
    refine ⟨?_, run_status_v2 pc pa s hpc events2 hterm hs⟩
    have hpa : (V2.wait_for pc ⟨pc, pa⟩ events2).pids.pid_analyzer = pa := by
      rcases wait_for_analyzer_pid pc events2 ⟨pc, pa⟩ with h | h
      · exact h
      · omega
    have hpa0 : 0 < pa := by rw [hpa] at hlive; exact hlive
    simp only [V2.run_compiler_and_analyzer, Bool.not_true, Bool.false_eq_true, if_false,
      hpc1, Option.getD_some, hs, if_true, hs0, ne_eq, not_false_eq_true, hpa, hpa0]
    cases (V2.wait_for pa (V2.wait_for pc ⟨pc, pa⟩ events2).pids
      (V2.wait_for pc ⟨pc, pa⟩ events2).rest).value <;> rfl
  · intro hs p sig
    simp only [V2.run_compiler_and_analyzer, Bool.not_true, Bool.false_eq_true, if_false,
      hpc1, hs, ne_eq, not_true_eq_false]
    by_cases hlive : 0 < (V2.wait_for pc ⟨pc, analyzer_launch.getD 0⟩ events2).pids.pid_analyzer
    · simp only [hlive, if_true]
      cases (V2.wait_for (V2.wait_for pc ⟨pc, analyzer_launch.getD 0⟩ events2).pids.pid_analyzer
        (V2.wait_for pc ⟨pc, analyzer_launch.getD 0⟩ events2).pids
        (V2.wait_for pc ⟨pc, analyzer_launch.getD 0⟩ events2).rest).value <;> simp
    · simp [hlive]
  · intro hs hs0 hpa hret
    simp only [V1.run_compiler_and_analyzer, Bool.not_true, Bool.false_eq_true, if_false,
      hpc1, Option.getD_some, hs, hpa, if_true, hs0, ne_eq, not_false_eq_true]
    cases hw : (V1.wait_for pa (V1.wait_for pc events1).rest).value with
    | none => exact absurd hw hret
    | some v => exact ⟨rfl, rfl⟩
  · intro hs p sig
    simp only [V1.run_compiler_and_analyzer, Bool.not_true, Bool.false_eq_true, if_false,
      hpc1, hs, ne_eq, not_true_eq_false]
    by_cases hlive : 0 < analyzer_launch.getD 0
    · simp only [hlive, if_true]
      cases (V1.wait_for (analyzer_launch.getD 0) (V1.wait_for pc events1).rest).value <;> simp
    · simp [hlive]

/-- C12, the instance of the claim: the compiler (pid 100) exits with 2 while the
analyzer (pid 101) is live; the analyzer is sent `SIGTERM` between the two waits
and the run returns 2, in both versions. -/
theorem cross_kill_order_witness :
    ((V2.run_compiler_and_analyzer true 100 (some 101)
          [.info ⟨.CLD_EXITED, 100, 2⟩, .info ⟨.CLD_KILLED, 101, 15⟩]).trace
        = [.launch_compiler, .consider_analyzer (some 101), .wait 100, .kill 101 SIGTERM,
            .wait 101]
      ∧ (V2.run_compiler_and_analyzer true 100 (some 101)
          [.info ⟨.CLD_EXITED, 100, 2⟩, .info ⟨.CLD_KILLED, 101, 15⟩]).status = some 2)
    ∧ ((V1.run_compiler_and_analyzer true 100 (some 101)
          [.status (.exited 2), .status (.signaled 15 false)]).trace
        = [.launch_compiler, .consider_analyzer (some 101), .wait 100, .kill 101 SIGTERM,
            .wait 101]
      ∧ (V1.run_compiler_and_analyzer true 100 (some 101)
          [.status (.exited 2), .status (.signaled 15 false)]).status = some 2) :=
  ⟨(cross_kill_order 100 101 2 (some 101) (by decide)
      [.info ⟨.CLD_EXITED, 100, 2⟩, .info ⟨.CLD_KILLED, 101, 15⟩]
      [.status (.exited 2), .status (.signaled 15 false)]).1
      (by decide) (by decide) (by decide)
      ⟨_, List.mem_cons_of_mem _ (List.mem_cons_self _ _), by decide⟩,
    (cross_kill_order 100 101 2 (some 101) (by decide)
      [.info ⟨.CLD_EXITED, 100, 2⟩, .info ⟨.CLD_KILLED, 101, 15⟩]
      [.status (.exited 2), .status (.signaled 15 false)]).2.2.1
      (by decide) (by decide) (by decide) (by decide)⟩

/-! ## C18 and C19: forwarding a signal -/

/-- C18: in the newer version, for every signal number `s`, `signal_forwarder(s)`
calls `kill(pid_compiler, s)` when `pid_compiler > 0` and then
`kill(pid_analyzer, s)` when `pid_analyzer > 0`, with the same signal number and
no other `kill`, and leaves `errno` and both tracked pids as they were, whatever
the calls of `kill` do to `errno`. -/
theorem signal_forwarder_kills_live_children (kill_errno : Int → Int → Nat → Nat)
    (s : Int) (pids : Pids) (errno : Nat) :
    (V2.signal_forwarder kill_errno s pids errno).kills
        = (if 0 < pids.pid_compiler then [Action.kill pids.pid_compiler s] else [])
          ++ (if 0 < pids.pid_analyzer then [Action.kill pids.pid_analyzer s] else [])
    ∧ (V2.signal_forwarder kill_errno s pids errno).errno = errno
    ∧ (V2.signal_forwarder kill_errno s pids errno).pids = pids := by
  refine ⟨?_, rfl, rfl⟩
  simp only [V2.signal_forwarder]
  by_cases hc : 0 < pids.pid_compiler <;> by_cases ha : 0 < pids.pid_analyzer <;>
    simp [hc, ha]

/-- C19, the failing input: in the older version, when `fork` fails for the
analyzer, `consider_running_analyzer` leaves `-1` in `pid_analyzer`, which stays
there during the wait for the compiler and until the run returns (the analyzer is
not waited for); `signal_forwarder` tests `pid_analyzer` against 0 only and calls
`kill(-1, SIGTERM)`. -/
theorem signal_forwarder_kills_minus_one :
    (V1.run_compiler_and_analyzer true 100 (some (-1)) [.status (.exited 0)]).pids
        = ⟨0, -1⟩
    ∧ (V1.signal_forwarder (fun _ _ e => e) SIGTERM ⟨100, -1⟩ 0).kills
        = [.kill 100 SIGTERM, .kill (-1) SIGTERM]
    ∧ (V1.signal_forwarder (fun _ _ e => e) SIGTERM ⟨0, -1⟩ 0).kills
        = [.kill (-1) SIGTERM] := by
  decide

/-- The older `signal_forwarder` calls `kill` for exactly the tracked pids that
are not 0. -/
theorem signal_forwarder_kills_v1 (kill_errno : Int → Int → Nat → Nat)
    (s : Int) (pids : Pids) (errno : Nat) :
    (V1.signal_forwarder kill_errno s pids errno).kills
        = (if pids.pid_compiler ≠ 0 then [Action.kill pids.pid_compiler s] else [])
          ++ (if pids.pid_analyzer ≠ 0 then [Action.kill pids.pid_analyzer s] else []) := by
  simp only [V1.signal_forwarder]
  by_cases hc : pids.pid_compiler = 0 <;> by_cases ha : pids.pid_analyzer = 0 <;>
    simp [hc, ha]

/-! ## C20: the exit code of a failed launch -/

/-- C20, the failing input: in the newer version `errno` is read for the exit
code behind the call of `fail`; when `execvp` fails with `ENOENT` and the
printing in `fail` fails in turn and leaves `EBADF` in `errno` (standard error is
closed), the child exits with `0x7E` and not with `0x7F`. -/
theorem launch_tool_exit_code_clobbered :
    V2.launch_tool (fun _ => EBADF) 0 (some ENOENT) = .exited 0x7E := by
  decide

/-- The older `launch_tool` reads `errno` right behind `execvp`: the child exits
with `0x7F` exactly when `execvp` failed with `ENOENT`, and with `0x7E` for every
other error; so does the newer one when `fail` leaves `errno` as it is. -/
theorem launch_tool_exit_code (fail_errno : Nat → Nat) (errno : Nat) :
    (V1.launch_tool 0 (some errno) = .exited 0x7F ↔ errno = ENOENT)
    ∧ (V1.launch_tool 0 (some errno) = .exited 0x7E ↔ errno ≠ ENOENT)
    ∧ (fail_errno errno = errno →
        V2.launch_tool fail_errno 0 (some errno) = V1.launch_tool 0 (some errno)) := by
  refine ⟨?_, ?_, ?_⟩
  · by_cases h : ENOENT = errno
    · simp [V1.launch_tool, h]
    · have h1 : ¬ errno = ENOENT := fun h2 => h h2.symm
      simp [V1.launch_tool, h, h1]
  · by_cases h : ENOENT = errno
    · simp [V1.launch_tool, h]
    · have h1 : ¬ errno = ENOENT := fun h2 => h h2.symm
      simp [V1.launch_tool, h, h1]
  · intro h
    simp [V1.launch_tool, V2.launch_tool, h]

/-! ## C14 and C15: the entry points -/

/-- C14: in the newer version, `sanitize_path(tool, arg0)` returns true if and
only if `remove_self_from_path` removed a directory and left a non-empty `PATH`,
or `arg0` begins with `/` and the canonical paths of the running executable and
of `arg0` both exist and are equal; in every other case it returns false.
(`remove_self_from_path` is taken to return false when `PATH` is not set.) -/
theorem sanitize_path_iff (found : Bool) (path : Option String) (arg0 : String)
    (self link : Option String) (hnull : path = none → found = false) :
    (V2.sanitize_path found path arg0 self link = some true ↔
      ((found = true ∧ ∃ p, path = some p ∧ p.toList ≠ [])
        ∨ (arg0.toList.head? = some '/' ∧ ∃ c, self = some c ∧ link = some c)))
    ∧ (V2.sanitize_path found path arg0 self link = some false ↔
      ¬ ((found = true ∧ ∃ p, path = some p ∧ p.toList ≠ [])
        ∨ (arg0.toList.head? = some '/' ∧ ∃ c, self = some c ∧ link = some c))) := by
  have key : V2.sanitize_path found path arg0 self link
      = some (decide ((found = true ∧ ∃ p, path = some p ∧ p.toList ≠ [])
        ∨ (arg0.toList.head? = some '/' ∧ ∃ c, self = some c ∧ link = some c))) := by
    obtain ⟨a0⟩ := arg0
    cases found with
    | true =>
      cases path with
      | none => exact absurd (hnull rfl) (by decide)
      | some p =>
        obtain ⟨d⟩ := p
        cases d with
        | nil =>
          by_cases h0 : a0.head? = some '/'
          · cases self <;> cases link <;>
              simp [V2.sanitize_path, h0, STREQ, String.toList, eq_comm]
            split <;> simp_all
          · simp [V2.sanitize_path, h0, String.toList]
        | cons c d => simp [V2.sanitize_path, String.toList]
    | false =>
      by_cases h0 : a0.head? = some '/'
      · cases self <;> cases link <;>
          simp [V2.sanitize_path, h0, STREQ, String.toList, eq_comm]
        split <;> simp_all
      · simp [V2.sanitize_path, h0, String.toList]
  rw [key]
  constructor
  · simp
  · simp

/-- C14, instances: the symbolic link found in `PATH`, and the call by an
absolute path. -/
theorem sanitize_path_iff_witness :
    V2.sanitize_path true (some "/usr/bin") "gcc" none none = some true
    ∧ V2.sanitize_path false (some "/usr/bin") "/opt/wrap/gcc" (some "/usr/bin/cscppc")
        (some "/usr/bin/cscppc") = some true
    ∧ V2.sanitize_path false (some "/usr/bin") "./gcc" (some "/usr/bin/cscppc")
        (some "/usr/bin/cscppc") = some false :=
  ⟨(sanitize_path_iff true (some "/usr/bin") "gcc" none none (by simp)).1.mpr
      (Or.inl ⟨rfl, "/usr/bin", rfl, by decide⟩),
    (sanitize_path_iff false (some "/usr/bin") "/opt/wrap/gcc" (some "/usr/bin/cscppc")
      (some "/usr/bin/cscppc") (by simp)).1.mpr
      (Or.inr ⟨by decide, "/usr/bin/cscppc", rfl, rfl⟩),
    (sanitize_path_iff false (some "/usr/bin") "./gcc" (some "/usr/bin/cscppc")
      (some "/usr/bin/cscppc") (by simp)).2.mpr (by
        rintro (⟨h, _⟩ | ⟨h, _⟩)
        · cases h
        · exact absurd h (by decide))⟩

theorem usage_loop_eq (argv : List String) :
    usage_loop argv = if "--help" ∈ argv then EXIT_SUCCESS else EXIT_FAILURE := by
  induction argv with
  | nil => simp [usage_loop]
  | cons a rest ih =>
    by_cases h : "--help" = a
    · simp [usage_loop, STREQ, h]
    · have h1 : ¬ a = "--help" := fun h2 => h h2.symm
      simp [usage_loop, STREQ, h, ih, h1]

/-- C15: `handle_args` returns 0 if and only if the argument list is exactly
`[argv0, "--print-path-to-wrap"]` or one of its entries equals `--help`, and 1
for every other argument list; the wrapper path is printed exactly in the first
case and the usage text exactly in the others. -/
theorem handle_args_status (argv : List String) :
    ((handle_args argv.length argv).1 = 0 ↔
      ((∃ argv0, argv = [argv0, "--print-path-to-wrap"]) ∨ "--help" ∈ argv))
    ∧ ((handle_args argv.length argv).1 = 1 ↔
      ¬ ((∃ argv0, argv = [argv0, "--print-path-to-wrap"]) ∨ "--help" ∈ argv))
    ∧ ((handle_args argv.length argv).2 = [.wrapper_path] ↔
      ∃ argv0, argv = [argv0, "--print-path-to-wrap"])
    ∧ ((handle_args argv.length argv).2 = [.usage] ↔
      ¬ ∃ argv0, argv = [argv0, "--print-path-to-wrap"]) := by
  by_cases h : ∃ argv0, argv = [argv0, "--print-path-to-wrap"]
  · obtain ⟨argv0, rfl⟩ := h
    simp [handle_args, EXIT_SUCCESS]
  · have hc : ¬ (argv.length = 2 ∧ argv[1]? = some "--print-path-to-wrap") := by
      rintro ⟨h1, h2⟩
      apply h
      match argv, h1, h2 with
      | [a, b], _, h2 =>
        simp at h2
        exact ⟨a, by rw [h2]⟩
    have e : handle_args argv.length argv = usage argv := by
      simp only [handle_args, Bool.and_eq_true, decide_eq_true_eq]
      rw [if_neg hc]
    rw [e]
    simp only [usage, usage_loop_eq, h, false_or, not_false_eq_true, iff_true]
    by_cases hh : "--help" ∈ argv <;> simp [hh, EXIT_SUCCESS, EXIT_FAILURE]

/-! ## C16: the custom options -/

theorem strchr_none (c : Char) : ∀ s : List Char, strchr s c = none → c ∉ s := by
  intro s
  induction s with
  | nil => intro _; simp
  | cons x xs ih =>
    intro h
    rw [strchr] at h
    by_cases hx : x = c
    · rw [if_pos hx] at h; cases h
    · rw [if_neg hx] at h
      have := ih h
      simp only [List.mem_cons, not_or]
      exact ⟨fun h1 => hx h1.symm, this⟩

theorem strchr_some (c : Char) :
    ∀ (s term : List Char), strchr s c = some term →
      ∃ pre t, s = pre ++ c :: t ∧ term = c :: t ∧ c ∉ pre := by
  intro s
  induction s with
  | nil => intro term h; rw [strchr] at h; cases h
  | cons x xs ih =>
    intro term h
    rw [strchr] at h
    by_cases hx : x = c
    · rw [if_pos hx] at h
      simp only [Option.some.injEq] at h
      exact ⟨[], xs, by simp [hx], by rw [← h, hx], by simp⟩
    · rw [if_neg hx] at h
      obtain ⟨pre, t, h1, h2, h3⟩ := ih term h
      refine ⟨x :: pre, t, by simp [h1], h2, ?_⟩
      simp only [List.mem_cons, not_or]
      exact ⟨fun h4 => hx h4.symm, h3⟩

theorem custom_opts_loops :
    ∀ (fuel : Nat) (str : List Char) (dst : List String) (num : Int),
      str.length + 1 ≤ fuel →
      ∃ segs : List (List Char),
        V2.read_custom_opts_loop fuel str dst = some (true, dst ++ segs.map String.mk)
        ∧ V2.num_custom_opts_loop fuel str num = some (num + (segs.length : Int) - 1)
        ∧ segs.length = 1 + str.count ':'
        ∧ (∀ seg ∈ segs, ':' ∉ seg)
        ∧ [':'].intercalate segs = str := by
  intro fuel
  induction fuel with
  | zero => intro str dst num h; omega
  | succ fuel ih =>
    intro str dst num hf
    cases hs : strchr str ':' with
    | none =>
      have hno := strchr_none ':' str hs
      refine ⟨[str], ?_, ?_, ?_, ?_, ?_⟩
      · simp [V2.read_custom_opts_loop, hs]
      · simp [V2.num_custom_opts_loop, hs]
      · simp [List.count_eq_zero_of_not_mem hno]
      · intro seg hseg
        simp only [List.mem_singleton] at hseg
        rw [hseg]; exact hno
      · simp [List.intercalate]
    | some term =>
      obtain ⟨pre, t, h1, h2, h3⟩ := strchr_some ':' str term hs
      have hlen : t.length + 1 ≤ fuel := by
        rw [h1] at hf; simp at hf; omega
      obtain ⟨segs, r1, r2, r3, r4, r5⟩ :=
        ih t (dst ++ [String.mk pre]) (num + 1) hlen
      have htake : str.take (str.length - term.length) = pre := by
        rw [h1, h2]; simp
      have hdrop : term.drop 1 = t := by rw [h2]; rfl
      refine ⟨pre :: segs, ?_, ?_, ?_, ?_, ?_⟩
      · simp only [V2.read_custom_opts_loop, hs, htake, hdrop, r1]
        simp
      · simp only [V2.num_custom_opts_loop, hs, hdrop, r2]
        simp only [List.length_cons, Nat.cast_add, Nat.cast_one, Option.some.injEq]
        omega
      · rw [h1]
        simp only [List.length_cons, r3, List.count_append, List.count_cons_self,
          List.count_eq_zero_of_not_mem h3]
        omega
      · intro seg hseg
        rcases List.mem_cons.mp hseg with h | h
        · rw [h]; exact h3
        · exact r4 seg h
      · cases segs with
        | nil =>
          simp only [List.length_nil] at r3
          omega
        | cons sg segs1 =>
          rw [h1, ← r5]
          simp [List.intercalate]

/-- C16: for the configuration string `str`: when it is absent or empty,
`num_custom_opts` returns 0 and `read_custom_opts` writes nothing and succeeds;
otherwise `read_custom_opts` succeeds and writes exactly `num_custom_opts(str)`
entries, one more than there are `:` in the string: the segments of the string
split at every `:`, none of which contains a `:` and which joined with `:` give
the string back. -/
theorem custom_opts_segments (s : String) (hs : s.toList ≠ []) :
    (V2.num_custom_opts none = some 0 ∧ V2.read_custom_opts none = some (true, [])
      ∧ V2.num_custom_opts (some "") = some 0
      ∧ V2.read_custom_opts (some "") = some (true, []))
    ∧ ∃ entries : List String,
        V2.read_custom_opts (some s) = some (true, entries)
        ∧ V2.num_custom_opts (some s) = some (entries.length : Int)
        ∧ entries.length = 1 + s.toList.count ':'
        ∧ (∀ e ∈ entries, ':' ∉ e.toList)
        ∧ [':'].intercalate (entries.map String.toList) = s.toList := by
  refine ⟨⟨rfl, rfl, by decide, by decide⟩, ?_⟩
  obtain ⟨segs, r1, r2, r3, r4, r5⟩ :=
    custom_opts_loops (s.toList.length + 1) s.toList [] 1 (le_refl _)
  have he : s.toList.isEmpty = false := by
    cases h : s.toList with
    | nil => exact absurd h hs
    | cons c cs => rfl
  refine ⟨segs.map String.mk, ?_, ?_, ?_, ?_, ?_⟩
  · simp only [V2.read_custom_opts, he, Bool.false_eq_true, if_false, r1, List.nil_append]
  · simp only [V2.num_custom_opts, he, Bool.false_eq_true, if_false, r2, List.length_map,
      Option.some.injEq]
    omega
  · simpa using r3
  · intro e he1
    obtain ⟨seg, hseg, rfl⟩ := List.mem_map.mp he1
    exact r4 seg hseg
  · have : (segs.map String.mk).map String.toList = segs := by
      rw [List.map_map]
      conv_rhs => rw [← List.map_id segs]
      apply List.map_congr_left
      intro a _
      rfl
    rw [this, r5]

/-- C16, an instance: `-x::-y` gives the three entries `-x`, the empty string
and `-y`. -/
theorem custom_opts_segments_witness :
    V2.read_custom_opts (some "-x::-y") = some (true, ["-x", "", "-y"])
    ∧ V2.num_custom_opts (some "-x::-y") = some 3
    ∧ ∃ entries : List String,
        V2.read_custom_opts (some "-x::-y") = some (true, entries)
        ∧ V2.num_custom_opts (some "-x::-y") = some (entries.length : Int)
        ∧ entries.length = 1 + "-x::-y".toList.count ':'
        ∧ (∀ e ∈ entries, ':' ∉ e.toList)
        ∧ [':'].intercalate (entries.map String.toList) = "-x::-y".toList :=
  ⟨by decide, by decide, (custom_opts_segments "-x::-y" (by decide)).2⟩

/-! ## C17: the vector handed to the analyzer -/

theorem run_loop_length_aux (classify : String → Decision)
    (body : Nat → List String → Nat → Nat → Step) (hb : BodySpec classify body) :
    ∀ (fuel : Nat) (rest done stale : List String) (cnt argc i : Nat) (argv : List String),
      done ≠ [] → rest.length + 1 ≤ fuel → argc = done.length + rest.length →
      argv = done ++ (rest ++ stale) → i = done.length →
      ∀ (n : Int) (out : List String), run_loop body fuel argc argv i cnt = .ret n out →
        0 ≤ n → out.length = argv.length := by
  intro fuel
  induction fuel with
  | zero => intro rest done stale cnt argc i argv _ hf; omega
  | succ fuel ih =>
    intro rest done stale cnt argc i argv hd hf hargc hargv hi n out hrun hn
    subst hargc hargv hi
    cases rest with
    | nil =>
      simp only [run_loop, List.length_nil, Nat.add_zero, Nat.lt_irrefl, if_false,
        after_loop] at hrun
      by_cases hc : cnt = 0
      · simp only [hc, if_true, Outcome.ret.injEq] at hrun; omega
      · simp only [hc, if_false, Outcome.ret.injEq] at hrun
        rw [← hrun.2]
    | cons arg rest =>
      have hlt : done.length < done.length + (arg :: rest).length := by simp
      have hargc : done.length + (arg :: rest).length = done.length + 1 + rest.length := by
        simp; omega
      have hs := hb done rest stale arg cnt hd
      have hcons : ∀ ks : List String, done ++ ks ≠ [] := by
        intro ks h; exact hd (List.append_eq_nil.mp h).1
      have hf1 : rest.length + 1 ≤ fuel := by simp at hf; omega
      rw [run_loop, if_pos hlt, hargc] at hrun
      simp only [List.cons_append] at hrun ⊢
      cases hc : classify arg with
      | skip_all =>
        rw [hc] at hs
        obtain ⟨argv1, h1⟩ := hs
        simp only [h1, Outcome.ret.injEq] at hrun
        omega
      | forward =>
        rw [hc] at hs
        simp only [hs] at hrun
        have := ih rest (done ++ [arg]) stale _ _ _ _ (hcons _) hf1
          (by simp) (by simp) (by simp) n out hrun hn
        simpa using this
      | input_file =>
        rw [hc] at hs
        simp only [hs] at hrun
        have := ih rest (done ++ [arg]) stale _ _ _ _ (hcons _) hf1
          (by simp) (by simp) (by simp) n out hrun hn
        simpa using this
      | drop =>
        rw [hc] at hs
        obtain ⟨stale1, hl, h1⟩ := hs
        simp only [h1] at hrun
        have := ih rest done stale1 _ _ _ _ hd hf1 rfl rfl rfl n out hrun hn
        rw [this]
        simp only [List.length_append, List.length_cons, hl]
        omega
      | forward_with_value =>
        rw [hc] at hs
        cases rest with
        | nil =>
          obtain ⟨f1, hf2⟩ : ∃ f1, fuel = f1 + 1 := ⟨fuel - 1, by omega⟩
          have key : after_loop (done.length + 1 + ([] : List String).length)
              (done ++ arg :: ([] ++ stale)) cnt = .ret n out := by
            rcases hs with h1 | ⟨_, h1⟩
            · simp only [h1, hf2] at hrun
              simpa [run_loop] using hrun
            · simp only [h1] at hrun
              exact hrun
          simp only [after_loop] at key
          by_cases hc0 : cnt = 0
          · simp only [hc0, if_true, Outcome.ret.injEq] at key; omega
          · simp only [hc0, if_false, Outcome.ret.injEq] at key
            rw [← key.2]
        | cons v rest1 =>
          rcases hs with h1 | ⟨h0, _⟩
          · simp only [h1] at hrun
            have := ih rest1 (done ++ [arg, v]) stale _ _ _ _ (hcons _)
              (by simp at hf1; omega)
              (by simp only [List.length_append, List.length_cons, List.length_nil]; omega)
              (by simp) (by simp) n out hrun hn
            simpa using this
          · exact absurd h0 (by simp)
      | rewrite pfx =>
        rw [hc] at hs
        cases rest with
        | nil =>
          simp only [hs.1 rfl] at hrun
          cases hrun
        | cons v rest1 =>
          obtain ⟨stale1, hl, h1⟩ := hs.2 v rest1 rfl
          simp only [h1] at hrun
          have := ih rest1 (done ++ [pfx ++ v]) stale1 _ _ _ _ (hcons _)
            (by simp at hf1; omega)
            (by simp only [List.length_append, List.length_cons, List.length_nil]; omega)
            (by simp) (by simp) n out hrun hn
          rw [this]
          simp only [List.length_append, List.length_cons, List.length_nil, hl]
          omega

theorem translate_length_v2 (cfg : Config) (argv : List String) (n : Int)
    (out : List String)
    (h : V2.translate_args_for_analyzer cfg argv.length argv = .ret n out) (hn : 0 ≤ n) :
    out.length = argv.length ∧ n ≤ argv.length := by
  cases argv with
  | nil =>
    simp [V2.translate_args_for_analyzer, run_loop, after_loop] at h
    omega
  | cons argv0 args =>
    have hlen := run_loop_length_aux (V2.classify cfg) (V2.loop_body cfg)
      (loop_body_spec_v2 cfg) _ args [argv0] [] 0 _ _ _ (by simp) (by simp)
      (by simp; omega) (by simp) (by simp) n out h hn
    obtain ⟨kept, c, _, _, hn1, hout⟩ :=
      ret_of_Sim _ argv0 _ n out (translate_filter_args_v2 cfg argv0 args) h hn
    refine ⟨hlen, ?_⟩
    have h1 : (out.take (kept.length + 1)).length = kept.length + 1 := by
      rw [hout]; simp
    rw [List.length_take] at h1
    rw [hlen] at h1
    omega

theorem write_at_append (P Q src : List (Option String)) (h : src.length ≤ Q.length) :
    write_at (P ++ Q) P.length src = some (P ++ src ++ Q.drop src.length) := by
  have h1 : P.length + src.length ≤ (P ++ Q).length := by simp; omega
  simp only [write_at, h1, if_true, Option.some.injEq]
  rw [List.take_left' rfl, List.drop_append_eq_append_drop,
    List.drop_eq_nil_of_le (by omega)]
  simp

theorem vector_layout (X Y d c : List (Option String)) (name : String) (hX : X ≠ [])
    (hY : d.length + 1 + c.length + 1 ≤ Y.length) :
    ∃ a3 a4 a5 a6 : List (Option String),
      write_at (X ++ Y) X.length (d ++ [none]) = some a3
      ∧ write_at a3 (X.length + d.length) c = some a4
      ∧ write_at a4 0 [some name] = some a5
      ∧ write_at a5 (X.length + d.length + c.length) [none] = some a6
      ∧ a6.length = (X ++ Y).length
      ∧ a6.take (X.length + d.length + c.length + 1)
          = some name :: X.tail ++ d ++ c ++ [none] := by
  obtain ⟨x, X1, rfl⟩ := List.exists_cons_of_ne_nil hX
  have hZ : 1 ≤ (List.drop c.length ([none] ++ Y.drop (d ++ [none]).length)).length := by
    simp; omega
  have e1 := write_at_append (x :: X1) Y (d ++ [none]) (by simp; omega)
  have e2 := write_at_append (x :: X1 ++ d) ([none] ++ Y.drop (d ++ [none]).length) c
    (by simp; omega)
  have e3 := write_at_append []
    (x :: X1 ++ d ++ c ++ ([none] ++ Y.drop (d ++ [none]).length).drop c.length)
    [some name] (by simp)
  have e4 := write_at_append (some name :: X1 ++ d ++ c)
    (([none] ++ Y.drop (d ++ [none]).length).drop c.length) [none] (by exact hZ)
  refine ⟨x :: X1 ++ (d ++ [none]) ++ Y.drop (d ++ [none]).length,
    x :: X1 ++ d ++ c ++ ([none] ++ Y.drop (d ++ [none]).length).drop c.length,
    some name :: X1 ++ d ++ c ++ ([none] ++ Y.drop (d ++ [none]).length).drop c.length,
    some name :: X1 ++ d ++ c ++ [none]
      ++ (([none] ++ Y.drop (d ++ [none]).length).drop c.length).drop 1,
    e1, ?_, ?_, ?_, ?_, ?_⟩
  · have h1 : (x :: X1).length + d.length = (x :: X1 ++ d).length := by
      simp only [List.length_append, List.length_cons, List.length_nil]
    have h2 : x :: X1 ++ (d ++ [none]) ++ List.drop (d ++ [none]).length Y
        = (x :: X1 ++ d) ++ ([none] ++ Y.drop (d ++ [none]).length) := by simp
    rw [h1, h2]
    exact e2
  · simpa using e3
  · have h1 : (x :: X1).length + d.length + c.length = (some name :: X1 ++ d ++ c).length := by
      simp only [List.length_append, List.length_cons, List.length_nil]
    rw [h1]
    exact e4
  · simp only [List.length_append, List.length_cons, List.length_drop, List.length_nil]
    simp only [List.length_append, List.length_cons, List.length_drop, List.length_nil] at hZ
    omega
  · have h1 : (x :: X1).length + d.length + c.length + 1
        = (some name :: X1 ++ d ++ c ++ [none]).length := by
      simp only [List.length_append, List.length_cons, List.length_nil]
    rw [h1, List.take_left' rfl]
    rfl

theorem vector_layout_at (B d c : List (Option String)) (name : String) (A : Nat)
    (hA : 1 ≤ A) (hB : A + d.length + 1 + c.length + 1 ≤ B.length) :
    ∃ a3 a4 a5 a6 : List (Option String),
      write_at B A (d ++ [none]) = some a3
      ∧ write_at a3 (A + d.length) c = some a4
      ∧ write_at a4 0 [some name] = some a5
      ∧ write_at a5 (A + d.length + c.length) [none] = some a6
      ∧ a6.length = B.length
      ∧ a6.take (A + d.length + c.length + 1)
          = some name :: (B.take A).tail ++ d ++ c ++ [none] := by
  have hlen : (B.take A).length = A := by rw [List.length_take]; omega
  have hne : B.take A ≠ [] := by
    intro h; rw [h] at hlen; simp at hlen; omega
  have := vector_layout (B.take A) (B.drop A) d c name hne (by rw [List.length_drop]; omega)
  rw [List.take_append_drop, hlen] at this
  exact this

theorem custom_opts_total (str : Option String) :
    ∃ entries : List String,
      V2.read_custom_opts str = some (true, entries)
      ∧ V2.num_custom_opts str = some (entries.length : Int) := by
  cases str with
  | none => exact ⟨[], rfl, rfl⟩
  | some s =>
    cases he : s.toList.isEmpty with
    | true =>
      refine ⟨[], ?_, ?_⟩
      · simp only [V2.read_custom_opts, he, if_true]
      · simp only [V2.num_custom_opts, he, if_true]; rfl
    | false =>
      obtain ⟨segs, r1, r2, _⟩ :=
        custom_opts_loops (s.toList.length + 1) s.toList [] 1 (le_refl _)
      refine ⟨segs.map String.mk, ?_, ?_⟩
      · simp only [V2.read_custom_opts, he, Bool.false_eq_true, if_false, r1,
          List.nil_append]
      · simp only [V2.num_custom_opts, he, Bool.false_eq_true, if_false, r2,
          List.length_map, Option.some.injEq]
        omega

/-- C17: in the newer version, with `analyzer_def_argv` made of the default
arguments `defaults` and the final null pointer, when the translation returned
`argc_cmd > 0`, `consider_running_analyzer` hands to `launch_tool` a block of
`max(argc_orig, argc_total) + 1` slots whose first `argc_total` slots are, in
order: the name of the analyzer, the translated tokens of the positions
`1 .. argc_cmd - 1`, the default arguments, the custom options and the null
pointer; no write goes behind the end of the block. -/
theorem analyzer_vector (cfg : Config) (defaults : List String)
    (var_add_opts analyzer_bin : Option String) (junk : Nat → Option String)
    (argv_orig argv1 : List String) (argc_cmd : Int)
    (htr : V2.translate_args_for_analyzer cfg argv_orig.length argv_orig
      = .ret argc_cmd argv1)
    (hpos : 0 < argc_cmd) :
    ∃ (custom : List String) (argv : List (Option String)),
      V2.read_custom_opts var_add_opts = some (true, custom)
      ∧ V2.consider_running_analyzer cfg (defaults.map some ++ [none]) var_add_opts
          analyzer_bin junk argv_orig
          = .launched (V2.analyzer_name_actual cfg analyzer_bin) argv
      ∧ argv.length
          = max argv_orig.length (argc_cmd.toNat + (defaults.length + 1) + custom.length) + 1
      ∧ argv.take (argc_cmd.toNat + (defaults.length + 1) + custom.length)
          = some (V2.analyzer_name_actual cfg analyzer_bin)
              :: ((argv1.take argc_cmd.toNat).drop 1).map some
            ++ defaults.map some ++ custom.map some ++ [none] := by
  obtain ⟨custom, hread, hnum⟩ := custom_opts_total var_add_opts
  obtain ⟨hlen1, hle⟩ := translate_length_v2 cfg argv_orig argc_cmd argv1 htr (by omega)
  obtain ⟨A, hA⟩ : ∃ A : Nat, argc_cmd = (A : Int) := ⟨argc_cmd.toNat, by omega⟩
  subst hA
  have hA1 : 1 ≤ A := by omega
  have hAle : A ≤ argv_orig.length := by omega
  refine ⟨custom, ?_⟩
  simp only [V2.consider_running_analyzer, htr, hnum, hread]
  rw [if_neg (by omega : ¬ (A : Int) ≤ 0)]
  generalize hB :
    (if ((argv_orig.length : Nat) : Int)
        < (A : Int) + ((List.map some defaults ++ [none]).length : Int) + (custom.length : Int)
      then realloc junk (List.map some argv1 ++ [none])
        (((A : Int) + ((List.map some defaults ++ [none]).length : Int)
          + (custom.length : Int)).toNat + 1)
      else List.map some argv1 ++ [none]) = B
  have i1 : ((A : Nat) : Int).toNat = A := by omega
  have i2 : ((A : Int) + ((List.map some defaults ++ [none]).length : Int) - 1).toNat
      = A + (List.map some defaults).length := by
    simp only [List.length_append, List.length_map, List.length_cons, List.length_nil]
    omega
  have i3 : ((A : Int) + ((List.map some defaults ++ [none]).length : Int)
        + (custom.length : Int) - 1).toNat
      = A + (List.map some defaults).length + (List.map some custom).length := by
    simp only [List.length_append, List.length_map, List.length_cons, List.length_nil]
    omega
  have hBlen : B.length = max argv_orig.length (A + (defaults.length + 1) + custom.length) + 1 := by
    rw [← hB]
    split
    · rename_i h
      simp only [List.length_append, List.length_map, List.length_cons, List.length_nil] at h
      simp only [realloc, List.length_append, List.length_map, List.length_cons,
        List.length_nil, List.length_range, hlen1]
      omega
    · rename_i h
      simp only [List.length_append, List.length_map, List.length_cons, List.length_nil] at h
      simp only [List.length_append, List.length_map, List.length_cons, List.length_nil, hlen1]
      omega
  have hBtake : B.take A = (argv1.take A).map some := by
    have h0 : (List.map some argv1 ++ [none]).take A = (argv1.take A).map some := by
      rw [List.take_append_of_le_length (by simp; omega), List.map_take]
    rw [← hB]
    split
    · rw [realloc, List.take_append_of_le_length (by simp; omega), h0]
    · exact h0
  obtain ⟨a3, a4, a5, a6, w1, w2, w3, w4, hl, ht⟩ :=
    vector_layout_at B (defaults.map some) (custom.map some)
      (V2.analyzer_name_actual cfg analyzer_bin) A hA1
      (by rw [hBlen]; simp only [List.length_map]; omega)
  refine ⟨a6, trivial, ?_, ?_, ?_⟩
  · simp only [i1, i2, i3, w1, w2, w3, w4]
  · rw [hl, hBlen, i1]
  · rw [i1]
    have e : A + (defaults.length + 1) + custom.length
        = A + (List.map some defaults).length + (List.map some custom).length + 1 := by
      simp only [List.length_map]; omega
    rw [e, ht, hBtake]
    simp [List.map_drop]

/-- C17, an instance: `[cc, -Wall, a.c]` with the analyzer `gcc`, the default
argument `-fanalyzer` and the custom options `-x:-y`; the block is enlarged to 7
slots and the vector is `gcc a.c -fanalyzer -x -y`. -/
theorem analyzer_vector_witness :
    V2.translate_args_for_analyzer gcc_config 3 ["cc", "-Wall", "a.c"]
        = .ret 2 ["cc", "a.c", "a.c"]
    ∧ V2.consider_running_analyzer gcc_config [some "-fanalyzer", none] (some "-x:-y") none
        (fun _ => none) ["cc", "-Wall", "a.c"]
        = .launched "gcc"
            [some "gcc", some "a.c", some "-fanalyzer", some "-x", some "-y", none, none]
    ∧ ∃ (custom : List String) (argv : List (Option String)),
        V2.read_custom_opts (some "-x:-y") = some (true, custom)
        ∧ V2.consider_running_analyzer gcc_config (["-fanalyzer"].map some ++ [none])
            (some "-x:-y") none (fun _ => none) ["cc", "-Wall", "a.c"]
            = .launched (V2.analyzer_name_actual gcc_config none) argv
        ∧ argv.length
            = max ["cc", "-Wall", "a.c"].length
                ((2 : Int).toNat + (["-fanalyzer"].length + 1) + custom.length) + 1
        ∧ argv.take ((2 : Int).toNat + (["-fanalyzer"].length + 1) + custom.length)
            = some (V2.analyzer_name_actual gcc_config none)
                :: ((["cc", "a.c", "a.c"].take (2 : Int).toNat).drop 1).map some
              ++ ["-fanalyzer"].map some ++ custom.map some ++ [none] :=
  ⟨by decide, by decide,
    analyzer_vector gcc_config ["-fanalyzer"] (some "-x:-y") none (fun _ => none)
      ["cc", "-Wall", "a.c"] ["cc", "a.c", "a.c"] 2 (by decide) (by decide)⟩

/-! ## C13: the directories left in `PATH` -/

/-- C13, the failing input: with `PATH=/usr/bin:/wrap`, where `/wrap/gcc`
resolves to the wrapper, `remove_self_from_path` cuts the string at the last
directory and leaves `/usr/bin:` with the separator in front of it: the
directories of the result are `/usr/bin` and the empty directory, not the
directories of the original with `/wrap` removed. -/
theorem remove_self_leaves_separator :
    V1.remove_self_from_path "cscppc" "gcc" example_resolver (some "/usr/bin:/wrap")
        = some (true, some "/usr/bin:")
    ∧ path_dirs "/usr/bin:" = ["/usr/bin", ""]
    ∧ (path_dirs "/usr/bin:/wrap").filter
          (fun dir => !is_self "cscppc" "gcc" example_resolver dir.toList)
        = ["/usr/bin"] := by
  decide

/-- When the wrapper's directory is not the last one, the directories left are
those of the original without it. -/
theorem remove_self_first_directory :
    V1.remove_self_from_path "cscppc" "gcc" example_resolver (some "/wrap:/usr/bin")
        = some (true, some "/usr/bin")
    ∧ path_dirs "/usr/bin"
        = (path_dirs "/wrap:/usr/bin").filter
            (fun dir => !is_self "cscppc" "gcc" example_resolver dir.toList) := by
  decide

theorem split_colons_ne_nil : ∀ s : List Char, split_colons s ≠ [] := by
  intro s
  induction s with
  | nil => simp [split_colons]
  | cons c cs ih =>
    rw [split_colons]
    by_cases h : c = ':'
    · simp [h]
    · rw [if_neg h]
      cases hs : split_colons cs with
      | nil => exact absurd hs ih
      | cons seg rest => simp

theorem split_colons_no_colon : ∀ s : List Char, ':' ∉ s → split_colons s = [s] := by
  intro s
  induction s with
  | nil => intro _; rfl
  | cons c cs ih =>
    intro h
    simp only [List.mem_cons, not_or] at h
    have hc : ¬ c = ':' := fun h1 => h.1 h1.symm
    rw [split_colons, if_neg hc, ih h.2]

theorem split_colons_colon :
    ∀ (pre t : List Char), ':' ∉ pre →
      split_colons (pre ++ ':' :: t) = pre :: split_colons t := by
  intro pre
  induction pre with
  | nil => intro t _; simp [split_colons]
  | cons c cs ih =>
    intro t h
    simp only [List.mem_cons, not_or] at h
    have hc : ¬ c = ':' := fun h1 => h.1 h1.symm
    rw [List.cons_append, split_colons, if_neg hc, ih t h.2]

theorem takeWhile_no_NUL (rest tail : List Char) (h : NUL ∉ rest) :
    (rest ++ NUL :: tail).takeWhile (fun c => c ≠ NUL) = rest := by
  induction rest with
  | nil => simp [List.takeWhile]
  | cons c cs ih =>
    simp only [List.mem_cons, not_or] at h
    have hc : ¬ c = NUL := fun h1 => h.1 h1.symm
    have ih2 := ih h.2
    simp only [List.cons_append, List.takeWhile_cons, ne_eq, hc, not_false_eq_true,
      decide_True, if_true]
    exact congrArg (List.cons c) ih2

theorem cstr_at_mid (done rest tail : List Char) (h : NUL ∉ rest) :
    cstr_at (done ++ (rest ++ NUL :: tail)) done.length = rest := by
  simp only [cstr_at, List.drop_left]
  exact takeWhile_no_NUL rest tail h

theorem set_mid (a b : List Char) (x y : Char) :
    (a ++ x :: b).set a.length y = a ++ y :: b := by
  induction a with
  | nil => rfl
  | cons c cs ih => simp only [List.cons_append, List.length_cons, List.set_cons_succ, ih]

theorem getD_mid (a b : List Char) (x d : Char) : (a ++ x :: b).getD a.length d = x := by
  induction a with
  | nil => rfl
  | cons c cs ih => simpa using ih

theorem strchr_mid (c : Char) :
    ∀ (pre t : List Char), c ∉ pre → strchr (pre ++ c :: t) c = some (c :: t) := by
  intro pre
  induction pre with
  | nil => intro t _; simp [strchr]
  | cons x xs ih =>
    intro t h
    simp only [List.mem_cons, not_or] at h
    have hx : ¬ x = c := fun h1 => h.1 h1.symm
    rw [List.cons_append, strchr, if_neg hx, ih t h.2]

theorem strchr_absent (c : Char) : ∀ s : List Char, c ∉ s → strchr s c = none := by
  intro s
  induction s with
  | nil => intro _; rfl
  | cons x xs ih =>
    intro h
    simp only [List.mem_cons, not_or] at h
    have hx : ¬ x = c := fun h1 => h.1 h1.symm
    rw [strchr, if_neg hx, ih h.2]

/-- The loop stops at the end of the string. -/
theorem remove_self_loop_end (w t : String) (r : Resolver) (fuel : Nat)
    (done tail : List Char) (found : Bool) :
    V1.remove_self_loop w t r (fuel + 1) (done ++ NUL :: tail) done.length found
      = some (found, done ++ NUL :: tail) := by
  rw [V1.remove_self_loop, if_pos (getD_mid done tail NUL NUL)]

/-- One pass of the loop over the last directory, which has no separator behind
it. -/
theorem remove_self_loop_last (w t : String) (r : Resolver) (fuel : Nat)
    (done rest tail : List Char) (found : Bool)
    (hne : rest ≠ []) (hN : NUL ∉ rest) (hC : ':' ∉ rest) :
    V1.remove_self_loop w t r (fuel + 1) (done ++ (rest ++ NUL :: tail)) done.length found
      = if is_self w t r rest then
          V1.remove_self_loop w t r fuel
            (done ++ NUL :: (rest.drop 1 ++ NUL :: tail)) done.length true
        else
          V1.remove_self_loop w t r fuel
            ((done ++ rest) ++ NUL :: tail) (done ++ rest).length found := by
  have h0 : ¬ (done ++ (rest ++ NUL :: tail)).getD done.length NUL = NUL := by
    cases rest with
    | nil => exact absurd rfl hne
    | cons c cs =>
      rw [List.cons_append, getD_mid]
      intro h
      exact hN (by simp [h])
  have hcs : cstr_at (done ++ (rest ++ NUL :: tail)) done.length = rest :=
    cstr_at_mid done rest tail hN
  have hterm : strchr_at (done ++ (rest ++ NUL :: tail)) done.length ':' = none := by
    simp only [strchr_at, hcs, strchr_absent ':' rest hC]
  have hnext : cstr_at (done ++ (rest ++ NUL :: tail)) (done.length + rest.length) = [] := by
    have := cstr_at_mid (done ++ rest) [] tail (by simp)
    simpa using this
  have hmove : memmove_chars (done ++ (rest ++ NUL :: tail)) done.length
      (done.length + rest.length) (1 + 0)
        = done ++ NUL :: (rest.drop 1 ++ NUL :: tail) := by
    cases rest with
    | nil => exact absurd rfl hne
    | cons c cs =>
      have h1 : List.drop (done.length + (c :: cs).length) (done ++ (c :: cs ++ NUL :: tail))
          = NUL :: tail := by
        rw [List.drop_append, List.drop_left]
      have h2 : List.drop (done.length + (1 + 0)) (done ++ (c :: cs ++ NUL :: tail))
          = cs ++ NUL :: tail := by
        rw [List.drop_append]; rfl
      rw [memmove_chars, h1, h2, List.take_left]
      simp
  rw [V1.remove_self_loop, if_neg h0]
  simp only [hterm, hcs, hnext, List.length_nil, hmove, List.length_append, List.append_assoc]

/-- One pass of the loop over a directory with a separator behind it. -/
theorem remove_self_loop_sep (w t : String) (r : Resolver) (fuel : Nat)
    (done pre rest tail : List Char) (found : Bool)
    (hN1 : NUL ∉ pre) (hN2 : NUL ∉ rest) (hC : ':' ∉ pre) :
    V1.remove_self_loop w t r (fuel + 1)
        (done ++ ((pre ++ ':' :: rest) ++ NUL :: tail)) done.length found
      = if is_self w t r pre then
          V1.remove_self_loop w t r fuel
            (done ++ (rest ++ NUL ::
              (pre ++ NUL :: (rest ++ NUL :: tail)).drop (1 + rest.length)))
            done.length true
        else
          V1.remove_self_loop w t r fuel
            ((done ++ (pre ++ [':'])) ++ (rest ++ NUL :: tail))
            (done ++ (pre ++ [':'])).length found := by
  have hcolon : ¬ (':' : Char) = NUL := by decide
  have hN : NUL ∉ pre ++ ':' :: rest := by
    simp only [List.mem_append, List.mem_cons, not_or]
    exact ⟨hN1, fun h => hcolon h.symm, hN2⟩
  have h0 : ¬ (done ++ ((pre ++ ':' :: rest) ++ NUL :: tail)).getD done.length NUL = NUL := by
    cases pre with
    | nil => rw [List.nil_append, List.cons_append, getD_mid]; exact hcolon
    | cons c cs =>
      rw [List.cons_append, List.cons_append, getD_mid]
      intro h
      exact hN1 (by simp [h])
  have hcs : cstr_at (done ++ ((pre ++ ':' :: rest) ++ NUL :: tail)) done.length
      = pre ++ ':' :: rest := cstr_at_mid done _ tail hN
  have hterm : strchr_at (done ++ ((pre ++ ':' :: rest) ++ NUL :: tail)) done.length ':'
      = some (done.length + pre.length) := by
    simp only [strchr_at, hcs, strchr_mid ':' pre rest hC, List.length_append,
      List.length_cons]
    congr 2
    omega
  have hset : (done ++ ((pre ++ ':' :: rest) ++ NUL :: tail)).set (done.length + pre.length) NUL
      = done ++ (pre ++ NUL :: (rest ++ NUL :: tail)) := by
    simp
  have hback : (done ++ (pre ++ NUL :: (rest ++ NUL :: tail))).set (done.length + pre.length) ':'
      = done ++ ((pre ++ ':' :: rest) ++ NUL :: tail) := by
    simp
  have hcs1 : cstr_at (done ++ (pre ++ NUL :: (rest ++ NUL :: tail))) done.length = pre :=
    cstr_at_mid done pre _ hN1
  have hnext : cstr_at (done ++ (pre ++ NUL :: (rest ++ NUL :: tail)))
      (done.length + pre.length + 1) = rest := by
    have h := cstr_at_mid (done ++ (pre ++ [NUL])) rest tail hN2
    simpa [List.length_append, Nat.add_assoc] using h
  have hmove : memmove_chars (done ++ (pre ++ NUL :: (rest ++ NUL :: tail))) done.length
      (done.length + pre.length + 1) (1 + rest.length)
        = done ++ (rest ++ NUL ::
            (pre ++ NUL :: (rest ++ NUL :: tail)).drop (1 + rest.length)) := by
    have h1 : List.drop (done.length + pre.length + 1)
        (done ++ (pre ++ NUL :: (rest ++ NUL :: tail))) = rest ++ NUL :: tail := by
      simp [List.length_append, Nat.add_assoc]
    have h2 : List.take (1 + rest.length) (rest ++ NUL :: tail) = rest ++ [NUL] := by
      have h := List.take_left (rest ++ [NUL]) tail
      rw [List.length_append, List.length_singleton, Nat.add_comm, List.append_assoc] at h
      exact h
    rw [memmove_chars, h1, h2, List.take_left, List.drop_append]
    simp
  rw [V1.remove_self_loop, if_neg h0]
  simp only [hterm, hset, hcs1, hnext, hmove, hback]
  simp [Nat.add_assoc]

/-- What the loop of the older `remove_self_from_path` computes, entered with the
cursor behind `done` and the string `rest` before it: it returns, the flag is
set exactly when one of the directories looked at is the wrapper's, the string
left behind the cursor is `kept_path`, what is before the cursor is kept, and
when no directory is removed the block is as it was. -/
theorem remove_self_loop_spec (w t : String) (r : Resolver) :
    ∀ (fuel : Nat) (rest done tail : List Char) (found : Bool),
      NUL ∉ rest → rest.length + 1 ≤ fuel →
      ∃ tail1,
        V1.remove_self_loop w t r fuel (done ++ (rest ++ NUL :: tail)) done.length found
          = some (found || removed_any (is_self w t r) (split_colons rest),
              done ++ (kept_path (is_self w t r) (split_colons rest) ++ NUL :: tail1))
        ∧ (removed_any (is_self w t r) (split_colons rest) = false →
            kept_path (is_self w t r) (split_colons rest) = rest ∧ tail1 = tail) := by
  intro fuel
  induction fuel with
  | zero => intro rest done tail found _ h; omega
  | succ fuel ih =>
    intro rest done tail found hN hfuel
    by_cases hne : rest = []
    · subst hne
      refine ⟨tail, ?_, ?_⟩
      · rw [List.nil_append, remove_self_loop_end]
        simp [split_colons, kept_path, removed_any]
      · intro _
        simp [split_colons, kept_path]
    · cases hs : strchr rest ':' with
      | none =>
        have hC := strchr_none ':' rest hs
        rw [remove_self_loop_last w t r fuel done rest tail found hne hN hC,
          split_colons_no_colon rest hC]
        have hemp : rest.isEmpty = false := by
          cases rest with
          | nil => exact absurd rfl hne
          | cons c cs => rfl
        have hlen : 1 ≤ fuel := by
          cases rest with
          | nil => exact absurd rfl hne
          | cons c cs => simp only [List.length_cons] at hfuel; omega
        cases hself : is_self w t r rest with
        | true =>
          obtain ⟨tail1, h1, _⟩ :=
            ih [] done (rest.drop 1 ++ NUL :: tail) true (by simp) (by simpa using hlen)
          refine ⟨tail1, ?_, ?_⟩
          · rw [if_pos rfl]
            rw [List.nil_append] at h1
            rw [h1]
            simp [split_colons, kept_path, removed_any, hself, hemp]
          · simp [removed_any, hself, hemp]
        | false =>
          obtain ⟨tail1, h1, h2⟩ :=
            ih [] (done ++ rest) tail found (by simp) (by simpa using hlen)
          have h3 := h2 (by simp [split_colons, removed_any])
          refine ⟨tail, ?_, ?_⟩
          · rw [if_neg (by simp)]
            rw [List.nil_append] at h1
            rw [h1, h3.2]
            simp [split_colons, kept_path, removed_any, hself, hemp]
          · intro _
            simp [kept_path, hself, hemp]
      | some term =>
        obtain ⟨pre, t1, hrest, _, hC⟩ := strchr_some ':' rest term hs
        subst hrest
        have hN1 : NUL ∉ pre := fun h => hN (by simp [h])
        have hN2 : NUL ∉ t1 := fun h => hN (by simp [h])
        have hlen : t1.length + 1 ≤ fuel := by
          simp only [List.length_append, List.length_cons] at hfuel; omega
        rw [remove_self_loop_sep w t r fuel done pre t1 tail found hN1 hN2 hC,
          split_colons_colon pre t1 hC]
        obtain ⟨seg2, segs, hsegs⟩ : ∃ seg2 segs, split_colons t1 = seg2 :: segs := by
          cases h : split_colons t1 with
          | nil => exact absurd h (split_colons_ne_nil t1)
          | cons a b => exact ⟨a, b, rfl⟩
        cases hself : is_self w t r pre with
        | true =>
          obtain ⟨tail1, h1, _⟩ :=
            ih t1 done ((pre ++ NUL :: (t1 ++ NUL :: tail)).drop (1 + t1.length)) true
              hN2 hlen
          refine ⟨tail1, ?_, ?_⟩
          · rw [if_pos rfl, h1, hsegs]
            simp [kept_path, removed_any, hself]
          · rw [hsegs]
            simp [removed_any, hself]
        | false =>
          obtain ⟨tail1, h1, h2⟩ := ih t1 (done ++ (pre ++ [':'])) tail found hN2 hlen
          refine ⟨tail1, ?_, ?_⟩
          · rw [if_neg (by simp), h1, hsegs]
            simp [kept_path, removed_any, hself]
          · rw [hsegs] at h2 ⊢
            intro h
            have h4 : removed_any (is_self w t r) (seg2 :: segs) = false := by
              simpa [removed_any, hself] using h
            have h5 := h2 h4
            refine ⟨?_, h5.2⟩
            simp [kept_path, hself, h5.1]

theorem mem_split_colons :
    ∀ (s seg : List Char), seg ∈ split_colons s → ∀ c ∈ seg, c ∈ s := by
  intro s
  induction s with
  | nil =>
    intro seg h c hc
    simp only [split_colons, List.mem_singleton] at h
    subst h
    exact hc
  | cons x xs ih =>
    intro seg h c hc
    rw [split_colons] at h
    by_cases hx : x = ':'
    · rw [if_pos hx] at h
      rcases List.mem_cons.mp h with h1 | h1
      · subst h1; cases hc
      · exact List.mem_cons_of_mem _ (ih seg h1 c hc)
    · rw [if_neg hx] at h
      cases hs : split_colons xs with
      | nil => exact absurd hs (split_colons_ne_nil xs)
      | cons a b =>
        rw [hs] at h ih
        rcases List.mem_cons.mp h with h1 | h1
        · subst h1
          rcases List.mem_cons.mp hc with h2 | h2
          · subst h2; exact List.mem_cons_self _ _
          · exact List.mem_cons_of_mem _ (ih a (List.mem_cons_self _ _) c h2)
        · exact List.mem_cons_of_mem _ (ih seg (List.mem_cons_of_mem _ h1) c hc)

theorem split_colons_segments (s : List Char) : ∀ seg ∈ split_colons s, ':' ∉ seg := by
  induction s with
  | nil =>
    intro seg h
    simp only [split_colons, List.mem_singleton] at h
    subst h
    simp
  | cons x xs ih =>
    intro seg h
    rw [split_colons] at h
    by_cases hx : x = ':'
    · rw [if_pos hx] at h
      rcases List.mem_cons.mp h with h1 | h1
      · subst h1; simp
      · exact ih seg h1
    · rw [if_neg hx] at h
      cases hs : split_colons xs with
      | nil => exact absurd hs (split_colons_ne_nil xs)
      | cons a b =>
        rw [hs] at h ih
        rcases List.mem_cons.mp h with h1 | h1
        · subst h1
          simp only [List.mem_cons, not_or]
          exact ⟨fun h2 => hx h2.symm, ih a (List.mem_cons_self _ _)⟩
        · exact ih seg (List.mem_cons_of_mem _ h1)

theorem mem_kept_path (self : List Char → Bool) :
    ∀ (segs : List (List Char)) (c : Char), c ∈ kept_path self segs →
      c = ':' ∨ ∃ seg ∈ segs, c ∈ seg := by
  intro segs
  induction segs with
  | nil => intro c h; simp [kept_path] at h
  | cons seg rest ih =>
    intro c h
    cases rest with
    | nil =>
      rw [kept_path] at h
      split at h
      · cases h
      · exact Or.inr ⟨seg, List.mem_cons_self _ _, h⟩
    | cons seg2 segs =>
      rw [kept_path] at h
      split at h
      · rcases ih c h with h1 | ⟨s, hs, hc⟩
        · exact Or.inl h1
        · exact Or.inr ⟨s, List.mem_cons_of_mem _ hs, hc⟩
      · rcases List.mem_append.mp h with h1 | h1
        · exact Or.inr ⟨seg, List.mem_cons_self _ _, h1⟩
        · rcases List.mem_cons.mp h1 with h2 | h2
          · exact Or.inl h2
          · rcases ih c h2 with h3 | ⟨s, hs, hc⟩
            · exact Or.inl h3
            · exact Or.inr ⟨s, List.mem_cons_of_mem _ hs, hc⟩

theorem kept_path_no_NUL (self : List Char → Bool) (s : List Char) (hN : NUL ∉ s) :
    NUL ∉ kept_path self (split_colons s) := by
  intro h
  rcases mem_kept_path self _ NUL h with h1 | ⟨seg, hs, hc⟩
  · exact absurd h1 (by decide)
  · exact hN (mem_split_colons s seg hs NUL hc)

/-- What the older `remove_self_from_path` computes on a `PATH` that is given:
it returns; the value is true exactly when one of the directories looked at is
the wrapper's; the string left is `kept_path` of the directories; and when the
value is false the string is as it was. -/
theorem remove_self_from_path_spec (w t : String) (r : Resolver) (p : String)
    (hN : NUL ∉ p.toList) :
    V1.remove_self_from_path w t r (some p)
        = some (removed_any (is_self w t r) (split_colons p.toList),
            some (String.mk (kept_path (is_self w t r) (split_colons p.toList))))
    ∧ (removed_any (is_self w t r) (split_colons p.toList) = false →
        String.mk (kept_path (is_self w t r) (split_colons p.toList)) = p) := by
  obtain ⟨d⟩ := p
  obtain ⟨tail1, h1, h2⟩ :=
    remove_self_loop_spec w t r ((d ++ [NUL]).length + 1) d [] [] false hN
      (by simp only [List.length_append, List.length_singleton]; omega)
  refine ⟨?_, ?_⟩
  · have h3 := cstr_at_mid [] _ tail1 (kept_path_no_NUL (is_self w t r) d hN)
    simp only [List.nil_append, List.length_nil] at h1 h3
    simp only [V1.remove_self_from_path, String.toList, h1, h3, Bool.false_or]
  · intro h
    simp only [String.toList] at h ⊢
    rw [(h2 h).1]

theorem split_kept_path (self : List Char → Bool) :
    ∀ (segs : List (List Char)) (last : List Char),
      (∀ seg ∈ segs ++ [last], ':' ∉ seg) → self last = false →
      split_colons (kept_path self (segs ++ [last]))
        = (segs ++ [last]).filter (fun s => !self s) := by
  intro segs
  induction segs with
  | nil =>
    intro last hC hlast
    cases last with
    | nil => simp [kept_path, split_colons, hlast]
    | cons c cs =>
      have h1 : ':' ∉ c :: cs := hC _ (by simp)
      simp [kept_path, hlast, split_colons_no_colon _ h1]
  | cons s ss ih =>
    intro last hC hlast
    have hC1 : ':' ∉ s := hC s (by simp)
    have hC2 : ∀ seg ∈ ss ++ [last], ':' ∉ seg := fun seg h => hC seg (by simp at h ⊢; tauto)
    have ih1 := ih last hC2 hlast
    obtain ⟨a, b, hab⟩ : ∃ a b, ss ++ [last] = a :: b := by
      cases ss with
      | nil => exact ⟨last, [], rfl⟩
      | cons a b => exact ⟨a, b ++ [last], rfl⟩
    rw [hab] at ih1
    rw [List.cons_append, hab, kept_path]
    cases hs : self s with
    | true => simp [ih1, hs]
    | false =>
      rw [if_neg (by simp), split_colons_colon s _ hC1, ih1]
      simp [hs]

/-- When the last directory of `PATH` is not the wrapper's, the older
`remove_self_from_path` leaves the directories of `PATH` without those that are
the wrapper's, in their order. -/
theorem remove_self_keeps_directories (w t : String) (r : Resolver) (p : String)
    (hN : NUL ∉ p.toList)
    (hlast : ∀ last ∈ (split_colons p.toList).getLast?, is_self w t r last = false) :
    ∃ found q, V1.remove_self_from_path w t r (some p) = some (found, some q)
      ∧ path_dirs q = (path_dirs p).filter (fun dir => !is_self w t r dir.toList) := by
  refine ⟨_, _, (remove_self_from_path_spec w t r p hN).1, ?_⟩
  obtain ⟨d⟩ := p
  simp only [String.toList] at hlast
  simp only [path_dirs, String.toList]
  have hne := split_colons_ne_nil d
  have hsegs := split_colons_segments d
  obtain ⟨segs, last, hsl⟩ : ∃ segs last, split_colons d = segs ++ [last] :=
    ⟨(split_colons d).dropLast, (split_colons d).getLast hne,
      (List.dropLast_append_getLast hne).symm⟩
  rw [hsl] at hlast hsegs ⊢
  have h1 : is_self w t r last = false := hlast last (by simp)
  rw [split_kept_path (is_self w t r) segs last hsegs h1, List.filter_map]
  rfl

/-! ## C21: the tracked children behind `wait_for` -/

theorem slot_after_nil (slot : Int) : slot_after slot [] = slot := by
  simp [slot_after]

theorem slot_after_failed (slot : Int) (errno : Nat) (l : List WaitidResult) :
    slot_after slot (.failed errno :: l) = slot_after slot l := by
  simp [slot_after, is_termination_of]

theorem slot_after_stopped (slot : Int) (si : siginfo_t) (l : List WaitidResult)
    (h : si.si_code = .CLD_STOPPED ∨ si.si_code = .CLD_CONTINUED) :
    slot_after slot (.info si :: l) = slot_after slot l := by
  rcases h with h | h <;> simp [slot_after, is_termination_of, h]

theorem slot_after_zero (l : List WaitidResult) : slot_after 0 l = 0 := by
  simp [slot_after]

theorem slot_after_terminated (slot : Int) (si : siginfo_t) (l : List WaitidResult)
    (h1 : si.si_code ≠ .CLD_STOPPED) (h2 : si.si_code ≠ .CLD_CONTINUED) :
    slot_after slot (.info si :: l)
      = slot_after (if slot = si.si_pid then 0 else slot) l := by
  by_cases hs : slot = si.si_pid
  · rw [if_pos hs, slot_after_zero]
    simp [slot_after, is_termination_of, h1, h2, hs]
  · rw [if_neg hs]
    have hs1 : ¬ si.si_pid = slot := fun h => hs h.symm
    simp [slot_after, is_termination_of, hs1]

/-- The newer `wait_for(pid)` on the answers `pre`, all skipped, followed by the
termination `si` of the awaited child: the status of `si`, the tracked slots as
`slot_after` gives them, and the answers behind `si` left for later. -/
theorem wait_for_slots_v2 (pid : Int) (si : siginfo_t) (rest : List WaitidResult)
    (hsi : is_termination_of pid (.info si) = true) :
    ∀ (pre : List WaitidResult) (pids : Pids),
      (∀ e ∈ pre, is_skipped_by pid e = true) →
      V2.wait_for pid pids (pre ++ .info si :: rest)
        = ⟨some (status_of si),
            ⟨slot_after pids.pid_compiler (pre ++ [.info si]),
              slot_after pids.pid_analyzer (pre ++ [.info si])⟩, rest⟩ := by
  have hsi1 : si.si_pid = pid ∧ si.si_code ≠ .CLD_STOPPED ∧ si.si_code ≠ .CLD_CONTINUED := by
    simpa [is_termination_of, and_assoc] using hsi
  intro pre
  induction pre with
  | nil =>
    intro pids _
    rw [List.nil_append, wait_for_own_v2 pid pids si rest hsi1.2.1 hsi1.2.2 hsi1.1.symm]
    simp only [List.nil_append, slot_after_terminated _ si [] hsi1.2.1 hsi1.2.2,
      slot_after_nil, cleared]
    obtain ⟨code, p, st⟩ := si
    cases code <;> simp [status_of]
  | cons e pre ih =>
    intro pids h
    have he := h e (List.mem_cons_self _ _)
    have hrest : ∀ e1 ∈ pre, is_skipped_by pid e1 = true :=
      fun e1 h1 => h e1 (List.mem_cons_of_mem _ h1)
    rw [List.cons_append, List.cons_append]
    cases e with
    | failed errno =>
      have h1 : ¬ EINTR ≠ errno := by
        simp only [is_skipped_by, decide_eq_true_eq] at he
        intro hn; exact hn he.symm
      rw [wait_for_failed_v2, if_neg h1, slot_after_failed, slot_after_failed]
      exact ih pids hrest
    | info s =>
      by_cases hst : s.si_code = .CLD_STOPPED ∨ s.si_code = .CLD_CONTINUED
      · rw [wait_for_stopped_v2 pid pids s _ hst, slot_after_stopped _ s _ hst,
          slot_after_stopped _ s _ hst]
        exact ih pids hrest
      · have h1 : s.si_code ≠ .CLD_STOPPED := fun h => hst (Or.inl h)
        have h2 : s.si_code ≠ .CLD_CONTINUED := fun h => hst (Or.inr h)
        have h3 : pid ≠ s.si_pid := by
          simp only [is_skipped_by, h1, h2, decide_False, Bool.false_or, ne_eq,
            decide_eq_true_eq, decide_not, Bool.not_eq_true'] at he
          intro hp
          rw [decide_eq_false_iff_not] at he
          exact he hp.symm
        rw [wait_for_other_v2 pid pids s _ h1 h2 h3, slot_after_terminated _ s _ h1 h2,
          slot_after_terminated _ s _ h1 h2]
        exact ih _ hrest

theorem first_termination (pid : Int) :
    ∀ (events : List WaitidResult), (∃ e ∈ events, is_termination_of pid e = true) →
      ∃ pre si rest, events = pre ++ .info si :: rest
        ∧ is_termination_of pid (.info si) = true
        ∧ ∀ e ∈ pre, is_termination_of pid e = false := by
  intro events
  induction events with
  | nil => intro h; obtain ⟨e, he, _⟩ := h; cases he
  | cons e events ih =>
    intro h
    cases ht : is_termination_of pid e with
    | true =>
      cases e with
      | failed errno => simp [is_termination_of] at ht
      | info si => exact ⟨[], si, events, rfl, ht, fun e he => by cases he⟩
    | false =>
      have h1 : ∃ e1 ∈ events, is_termination_of pid e1 = true := by
        obtain ⟨e1, he1, ht1⟩ := h
        rcases List.mem_cons.mp he1 with h0 | h0
        · subst h0; rw [ht] at ht1; cases ht1
        · exact ⟨e1, h0, ht1⟩
      obtain ⟨pre, si, rest, hev, hsi, hpre⟩ := ih h1
      refine ⟨e :: pre, si, rest, by rw [hev]; rfl, hsi, ?_⟩
      intro e1 he1
      rcases List.mem_cons.mp he1 with h0 | h0
      · subst h0; exact ht
      · exact hpre e1 h0

theorem skipped_of_not_termination (pid : Int) (e : WaitidResult)
    (ht : is_termination_of pid e = false) (hf : ∀ errno, e = .failed errno → errno = EINTR) :
    is_skipped_by pid e = true := by
  cases e with
  | failed errno => simp [is_skipped_by, hf errno rfl]
  | info si =>
    obtain ⟨code, p, st⟩ := si
    by_cases hp : p = pid
    · cases code <;> simp_all [is_termination_of, is_skipped_by]
    · simp [is_skipped_by, hp]

theorem slot_after_eq_zero (slot : Int) (l : List WaitidResult)
    (h : ∃ e ∈ l, is_termination_of slot e = true) : slot_after slot l = 0 := by
  obtain ⟨e, he, ht⟩ := h
  have : l.any (is_termination_of slot) = true := List.any_eq_true.mpr ⟨e, he, ht⟩
  simp [slot_after, this]

theorem slot_after_eq_self (slot : Int) (l : List WaitidResult)
    (h : ∀ e ∈ l, is_termination_of slot e = false) : slot_after slot l = slot := by
  have : l.any (is_termination_of slot) = false := by
    rw [List.any_eq_false]
    intro e he
    simp [h e he]
  simp [slot_after, this]

/-- C21: in the newer version, on every sequence `events` of answers of `waitid`
(child-state events, and interrupted calls) that holds a termination of the
awaited child `pid`, `wait_for(pid)` returns: with `si` the first termination of
`pid` and `pre` the answers before it, the value returned is the status of `si`
(`0x80 + si_status` for a signal, else `si_status`), the answers behind `si` are
left unread, and on return each tracked slot, `pid_compiler` and `pid_analyzer`,
is `0` when one of the answers consumed (`pre` and `si`) is the termination of
the child it held, the awaited child or another, and is unchanged
otherwise. -/
theorem wait_for_clears_reaped (pid : Int) (pids : Pids) (events : List WaitidResult)
    (hterm : ∃ e ∈ events, is_termination_of pid e = true)
    (hfail : ∀ errno, WaitidResult.failed errno ∈ events → errno = EINTR) :
    ∃ pre si rest, events = pre ++ .info si :: rest
      ∧ is_termination_of pid (.info si) = true
      ∧ (∀ e ∈ pre, is_termination_of pid e = false)
      ∧ (V2.wait_for pid pids events).value = some (status_of si)
      ∧ (V2.wait_for pid pids events).rest = rest
      ∧ ((∃ e ∈ pre ++ [.info si], is_termination_of pids.pid_compiler e = true) →
          (V2.wait_for pid pids events).pids.pid_compiler = 0)
      ∧ ((∀ e ∈ pre ++ [.info si], is_termination_of pids.pid_compiler e = false) →
          (V2.wait_for pid pids events).pids.pid_compiler = pids.pid_compiler)
      ∧ ((∃ e ∈ pre ++ [.info si], is_termination_of pids.pid_analyzer e = true) →
          (V2.wait_for pid pids events).pids.pid_analyzer = 0)
      ∧ ((∀ e ∈ pre ++ [.info si], is_termination_of pids.pid_analyzer e = false) →
          (V2.wait_for pid pids events).pids.pid_analyzer = pids.pid_analyzer) := by
  obtain ⟨pre, si, rest, hev, hsi, hpre⟩ := first_termination pid events hterm
  have hskip : ∀ e ∈ pre, is_skipped_by pid e = true := by
    intro e he
    refine skipped_of_not_termination pid e (hpre e he) ?_
    intro errno h0
    subst h0
    exact hfail errno (by rw [hev]; exact List.mem_append_left _ he)
  have hw := wait_for_slots_v2 pid si rest hsi pre pids hskip
  rw [← hev] at hw
  refine ⟨pre, si, rest, hev, hsi, hpre, ?_, ?_, ?_, ?_, ?_, ?_⟩
  · rw [hw]
  · rw [hw]
  · intro h; rw [hw]; exact slot_after_eq_zero _ _ h
  · intro h; rw [hw]; exact slot_after_eq_self _ _ h
  · intro h; rw [hw]; exact slot_after_eq_zero _ _ h
  · intro h; rw [hw]; exact slot_after_eq_self _ _ h

/-- C21, an instance: while the compiler (pid 100) is awaited, the analyzer
(pid 101) is stopped, continued and then exits, an unrelated child (pid 7)
exits, and the compiler is killed by the signal 9; `wait_for(100)` returns 137
with both slots cleared.  When the analyzer has not terminated its slot is
kept. -/
theorem wait_for_clears_reaped_witness :
    (V2.wait_for 100 ⟨100, 101⟩
        [.info ⟨.CLD_STOPPED, 101, 19⟩, .info ⟨.CLD_CONTINUED, 101, 18⟩,
          .info ⟨.CLD_EXITED, 101, 1⟩, .failed EINTR, .info ⟨.CLD_EXITED, 7, 0⟩,
          .info ⟨.CLD_KILLED, 100, 9⟩]).value = some 137
    ∧ (V2.wait_for 100 ⟨100, 101⟩
        [.info ⟨.CLD_STOPPED, 101, 19⟩, .info ⟨.CLD_CONTINUED, 101, 18⟩,
          .info ⟨.CLD_EXITED, 101, 1⟩, .failed EINTR, .info ⟨.CLD_EXITED, 7, 0⟩,
          .info ⟨.CLD_KILLED, 100, 9⟩]).pids = ⟨0, 0⟩
    ∧ (V2.wait_for 100 ⟨100, 101⟩
        [.info ⟨.CLD_STOPPED, 101, 19⟩, .info ⟨.CLD_EXITED, 100, 0⟩]).pids = ⟨0, 101⟩
    ∧ ∃ pre si rest,
        [WaitidResult.info ⟨.CLD_STOPPED, 101, 19⟩, .info ⟨.CLD_EXITED, 100, 0⟩]
            = pre ++ .info si :: rest
          ∧ (V2.wait_for 100 ⟨100, 101⟩
              [.info ⟨.CLD_STOPPED, 101, 19⟩, .info ⟨.CLD_EXITED, 100, 0⟩]).value
                = some (status_of si) := by
  refine ⟨by decide, by decide, by decide, ?_⟩
  obtain ⟨pre, si, rest, h1, _, _, h2, _⟩ :=
    wait_for_clears_reaped 100 ⟨100, 101⟩
      [.info ⟨.CLD_STOPPED, 101, 19⟩, .info ⟨.CLD_EXITED, 100, 0⟩]
      ⟨_, List.mem_cons_of_mem _ (List.mem_cons_self _ _), by decide⟩
      (by intro errno h; simp at h)
  exact ⟨pre, si, rest, h1, h2⟩

/-! ## C22: failures before any child is waited for -/

/-- C22: in the newer version, when the signal forwarder cannot be installed or
the launch of the compiler returns a pid `≤ 0`, `run_compiler_and_analyzer`
returns `EXIT_FAILURE`, which is 1, and does nothing to the children beyond the
attempt to launch the compiler: no `consider_running_analyzer`, no `wait_for`,
no `kill`.  And when `sanitize_path` is called by `main` and fails, `main`
returns 1 and does not get to `run_compiler_and_analyzer`: no child is
launched. -/
theorem failure_launches_nothing (install_ok : Bool) (compiler_launch : Int)
    (analyzer_launch : Option Int) (events : List WaitidResult)
    (wrapper_name : String) (basename : String → String) (strdup_ok found : Bool)
    (path self link : Option String) (arg0 : String) (args : List String)
    (install_ok1 : Bool) (compiler_launch1 : Int)
    (hfail : install_ok = false ∨ compiler_launch ≤ 0)
    (hname : STREQ (basename arg0) wrapper_name = false)
    (hsan : V2.sanitize_path found path arg0 self link = some false) :
    (V2.run_compiler_and_analyzer install_ok compiler_launch analyzer_launch events).status
        = some EXIT_FAILURE
    ∧ EXIT_FAILURE = 1
    ∧ (∀ a ∈ (V2.run_compiler_and_analyzer install_ok compiler_launch analyzer_launch
          events).trace, a = .launch_compiler)
    ∧ V2.main wrapper_name basename strdup_ok found path self link install_ok1
          compiler_launch1 analyzer_launch events (arg0 :: args)
        = some ⟨some 1, [], ⟨0, 0⟩⟩ := by
  refine ⟨?_, rfl, ?_, ?_⟩
  · cases install_ok with
    | false => simp [V2.run_compiler_and_analyzer]
    | true =>
      have h : compiler_launch ≤ 0 := by
        rcases hfail with h | h
        · cases h
        · exact h
      simp [V2.run_compiler_and_analyzer, h]
  · cases install_ok with
    | false => simp [V2.run_compiler_and_analyzer]
    | true =>
      have h : compiler_launch ≤ 0 := by
        rcases hfail with h | h
        · cases h
        · exact h
      simp [V2.run_compiler_and_analyzer, h]
  · cases strdup_ok <;> simp [V2.main, hname, hsan, EXIT_FAILURE]

/-- C22, an instance: `fork` fails for the compiler (`launch_tool` returns `-1`);
and the wrapper is called as `gcc` through a relative path while no directory of
`PATH` held its symbolic link. -/
theorem failure_launches_nothing_witness :
    (V2.run_compiler_and_analyzer true (-1) (some 101)
        [.info ⟨.CLD_EXITED, 101, 0⟩]).status = some EXIT_FAILURE
    ∧ EXIT_FAILURE = 1
    ∧ (∀ a ∈ (V2.run_compiler_and_analyzer true (-1) (some 101)
          [.info ⟨.CLD_EXITED, 101, 0⟩]).trace, a = .launch_compiler)
    ∧ V2.main "cscppc" example_resolver.basename true false (some "/usr/bin") none none
          true 100 (some 101) [.info ⟨.CLD_EXITED, 101, 0⟩] ["./gcc", "a.c"]
        = some ⟨some 1, [], ⟨0, 0⟩⟩ :=
  failure_launches_nothing true (-1) (some 101) [.info ⟨.CLD_EXITED, 101, 0⟩]
    "cscppc" example_resolver.basename true false (some "/usr/bin") none none "./gcc" ["a.c"]
    true 100 (Or.inr (by decide)) (by decide) (by decide)

/-! ## C23: a bare `-D` or `-I` at the end of the vector -/

theorem filter_args_congr (c1 c2 : String → Decision) :
    ∀ (n : Nat) (args : List String), args.length ≤ n → (∀ a ∈ args, c1 a = c2 a) →
      filter_args c1 args = filter_args c2 args := by
  intro n
  induction n with
  | zero =>
    intro args hlen _
    have : args = [] := List.length_eq_zero.mp (by omega)
    subst this
    rfl
  | succ n ih =>
    intro args hlen h
    cases args with
    | nil => rfl
    | cons a rest =>
      have ha : c1 a = c2 a := h a (List.mem_cons_self _ _)
      have hrest : filter_args c1 rest = filter_args c2 rest :=
        ih rest (by simp at hlen; omega) (fun b hb => h b (List.mem_cons_of_mem _ hb))
      rw [filter_args_cons, filter_args_cons, ← ha, hrest]
      cases rest with
      | nil => rfl
      | cons v rest1 =>
        have hrest1 : filter_args c1 rest1 = filter_args c2 rest1 :=
          ih rest1 (by simp at hlen; omega)
            (fun b hb => h b (List.mem_cons_of_mem _ (List.mem_cons_of_mem _ hb)))
        simp only [hrest1]

/-- On a token that is none of those only the newer version handles, and with
the same dialect and the same classifiers of file names, the two versions take
the same decision. -/
theorem classify_agree (gcc : Bool) (cfg : Config) (a : String)
    (hgcc : cfg.analyzer_is_gcc_compatible = gcc)
    (hin : cfg.is_input_file a cfg.analyzer_is_cxx_ready = (V1.is_input_file a false).1)
    (hig : cfg.is_ignored_file a = V1.is_black_listed_file a)
    (hM : MATCH_PREFIX a "-M" = false) (hO : MATCH_PREFIX a "-O" = false)
    (hf : MATCH_PREFIX a "-f" = false) (hW : MATCH_PREFIX a "-Wno-" = false) :
    V1.classify gcc a = V2.classify cfg a := by
  have hfe : STREQ a "-fexceptions" = false := by
    cases h : STREQ a "-fexceptions" with
    | false => rfl
    | true =>
      have : a = "-fexceptions" := by simpa [STREQ] using h
      subst this
      exact absurd hf (by decide)
  have hfn : STREQ a "-fno-exceptions" = false := by
    cases h : STREQ a "-fno-exceptions" with
    | false => rfl
    | true =>
      have : a = "-fno-exceptions" := by simpa [STREQ] using h
      subst this
      exact absurd hf (by decide)
  have hdi : V2.is_def_inc cfg a = V1.is_def_inc gcc a := by
    simp [V2.is_def_inc, V1.is_def_inc, hgcc]
  have hbi : V2.is_bare_def_inc cfg a = V1.is_bare_def_inc gcc a := by
    simp [V2.is_bare_def_inc, V1.is_bare_def_inc, hgcc]
  have hfw : V2.is_forwardable_gcc_flag cfg a
      = (STREQ a "-m16" || STREQ a "-m32" || STREQ a "-m64" || MATCH_PREFIX a "-std") := by
    simp only [V2.is_forwardable_gcc_flag, hfe, hfn, hO, hf, hW, Bool.or_self, Bool.false_or,
      Bool.false_eq_true, if_false]
    cases h1 : (STREQ a "-m16" || STREQ a "-m32" || STREQ a "-m64") <;>
      cases h2 : MATCH_PREFIX a "-std" <;> cases h3 : STREQ cfg.analyzer_name "gcc" <;> simp
  unfold V1.classify V2.classify
  rw [hM, hdi, hbi, hin, hig, hgcc, hfw]
  by_cases h1 : (V1.is_input_file a false).1 = true
  · rw [is_input_file_snd_v1 a h1]
    simp
  · simp [h1]

/-- With the same dialect and the same classifiers of file names, on a vector
with no token that only the newer version handles, the two versions of
`translate_args_for_analyzer` return the same value and the same translated
vector, and run into undefined behaviour on the same vectors. -/
theorem translate_versions_agree (gcc : Bool) (cfg : Config) (argv0 : String)
    (args : List String)
    (hgcc : cfg.analyzer_is_gcc_compatible = gcc)
    (hin : ∀ a ∈ args,
      cfg.is_input_file a cfg.analyzer_is_cxx_ready = (V1.is_input_file a false).1)
    (hig : ∀ a ∈ args, cfg.is_ignored_file a = V1.is_black_listed_file a)
    (hnew : ∀ a ∈ args, MATCH_PREFIX a "-M" = false ∧ MATCH_PREFIX a "-O" = false
      ∧ MATCH_PREFIX a "-f" = false ∧ MATCH_PREFIX a "-Wno-" = false) :
    (V1.translate_args_for_analyzer gcc (argv0 :: args).length (argv0 :: args)).value
        = (V2.translate_args_for_analyzer cfg (argv0 :: args).length (argv0 :: args)).value
    ∧ (V1.translate_args_for_analyzer gcc (argv0 :: args).length (argv0 :: args)).args
        = (V2.translate_args_for_analyzer cfg (argv0 :: args).length (argv0 :: args)).args
    ∧ (V1.translate_args_for_analyzer gcc (argv0 :: args).length (argv0 :: args) = .undefined
        ↔ V2.translate_args_for_analyzer cfg (argv0 :: args).length (argv0 :: args)
            = .undefined) := by
  have hf : filter_args (V1.classify gcc) args = filter_args (V2.classify cfg) args :=
    filter_args_congr _ _ args.length args (Nat.le_refl _) (fun a ha =>
      classify_agree gcc cfg a hgcc (hin a ha) (hig a ha) (hnew a ha).1 (hnew a ha).2.1
        (hnew a ha).2.2.1 (hnew a ha).2.2.2)
  refine ⟨?_, ?_, ?_⟩
  · rw [value_eq_v1, value_eq_v2, hf]
  · rw [args_eq_v1, args_eq_v2, hf]
  · rw [undefined_of_Sim _ argv0 _ (translate_filter_args_v1 gcc argv0 args),
      undefined_of_Sim _ argv0 _ (translate_filter_args_v2 cfg argv0 args), hf]

/-- C23, as stated, fails: there is no vector ending in a bare `-D` or `-I` on
which the two versions differ in the value returned or in the translated
vector, when they are given the same dialect and the same classifiers of file
names and the vector holds no token that only the newer version handles.  On
the bare flag at the end the older version leaves the loop by `break` and the
newer one by the test `i < argc` of the loop header, with the same `argc`, the
same vector and the same number of files counted. -/
theorem no_difference_on_trailing_bare_flag :
    ¬ ∃ (gcc : Bool) (cfg : Config) (argv0 : String) (pre : List String) (last : String),
      (last = "-D" ∨ last = "-I")
      ∧ cfg.analyzer_is_gcc_compatible = gcc
      ∧ (∀ a ∈ pre ++ [last],
          cfg.is_input_file a cfg.analyzer_is_cxx_ready = (V1.is_input_file a false).1)
      ∧ (∀ a ∈ pre ++ [last], cfg.is_ignored_file a = V1.is_black_listed_file a)
      ∧ (∀ a ∈ pre ++ [last], MATCH_PREFIX a "-M" = false ∧ MATCH_PREFIX a "-O" = false
          ∧ MATCH_PREFIX a "-f" = false ∧ MATCH_PREFIX a "-Wno-" = false)
      ∧ ((V1.translate_args_for_analyzer gcc (argv0 :: (pre ++ [last])).length
              (argv0 :: (pre ++ [last]))).value
            ≠ (V2.translate_args_for_analyzer cfg (argv0 :: (pre ++ [last])).length
              (argv0 :: (pre ++ [last]))).value
          ∨ (V1.translate_args_for_analyzer gcc (argv0 :: (pre ++ [last])).length
              (argv0 :: (pre ++ [last]))).args
            ≠ (V2.translate_args_for_analyzer cfg (argv0 :: (pre ++ [last])).length
              (argv0 :: (pre ++ [last]))).args) := by
  rintro ⟨gcc, cfg, argv0, pre, last, _, hgcc, hin, hig, hnew, hne⟩
  have h := translate_versions_agree gcc cfg argv0 (pre ++ [last]) hgcc hin hig hnew
  rcases hne with h1 | h1
  · exact h1 h.1
  · exact h1 h.2.1

/-- C23, amended: on every vector whose last token is a bare `-D` or `-I` with
no value behind it, the two versions of `translate_args_for_analyzer`, given the
same dialect and the same classifiers of file names, the vector holding no token
that only the newer version handles (`-M*`, `-O*`, `-f*`, `-Wno-*`), return the
same result: the same value (`-1` or the count), the same translated vector, and
undefined behaviour in the one exactly when in the other. -/
theorem same_result_on_trailing_bare_flag (gcc : Bool) (cfg : Config) (argv0 : String)
    (pre : List String) (last : String)
    (_hlast : last = "-D" ∨ last = "-I")
    (hgcc : cfg.analyzer_is_gcc_compatible = gcc)
    (hin : ∀ a ∈ pre ++ [last],
      cfg.is_input_file a cfg.analyzer_is_cxx_ready = (V1.is_input_file a false).1)
    (hig : ∀ a ∈ pre ++ [last], cfg.is_ignored_file a = V1.is_black_listed_file a)
    (hnew : ∀ a ∈ pre ++ [last], MATCH_PREFIX a "-M" = false ∧ MATCH_PREFIX a "-O" = false
      ∧ MATCH_PREFIX a "-f" = false ∧ MATCH_PREFIX a "-Wno-" = false) :
    (V1.translate_args_for_analyzer gcc (argv0 :: (pre ++ [last])).length
          (argv0 :: (pre ++ [last]))).value
        = (V2.translate_args_for_analyzer cfg (argv0 :: (pre ++ [last])).length
          (argv0 :: (pre ++ [last]))).value
    ∧ (V1.translate_args_for_analyzer gcc (argv0 :: (pre ++ [last])).length
          (argv0 :: (pre ++ [last]))).args
        = (V2.translate_args_for_analyzer cfg (argv0 :: (pre ++ [last])).length
          (argv0 :: (pre ++ [last]))).args
    ∧ (V1.translate_args_for_analyzer gcc (argv0 :: (pre ++ [last])).length
          (argv0 :: (pre ++ [last])) = .undefined
        ↔ V2.translate_args_for_analyzer cfg (argv0 :: (pre ++ [last])).length
          (argv0 :: (pre ++ [last])) = .undefined) :=
  translate_versions_agree gcc cfg argv0 (pre ++ [last]) hgcc hin hig hnew

/-- C23, an instance: on `[cc, a.c, -D]` both versions return 3 and leave the
vector as it is, for a gcc compatible analyzer; on `[cc, a.c, -I]` likewise for
an analyzer that is not gcc compatible. -/
theorem same_result_on_trailing_bare_flag_witness :
    ((V1.translate_args_for_analyzer true 3 ["cc", "a.c", "-D"]).value
        = (V2.translate_args_for_analyzer gcc_config 3 ["cc", "a.c", "-D"]).value
      ∧ (V1.translate_args_for_analyzer true 3 ["cc", "a.c", "-D"]).args
        = (V2.translate_args_for_analyzer gcc_config 3 ["cc", "a.c", "-D"]).args)
    ∧ (V1.translate_args_for_analyzer true 3 ["cc", "a.c", "-D"]).args
        = some ["cc", "a.c", "-D"]
    ∧ (V2.translate_args_for_analyzer gcc_config 3 ["cc", "a.c", "-D"]).args
        = some ["cc", "a.c", "-D"]
    ∧ (V1.translate_args_for_analyzer false 3 ["cc", "a.c", "-I"]).args
        = some ["cc", "a.c", "-I"]
    ∧ (V2.translate_args_for_analyzer cppcheck_config 3 ["cc", "a.c", "-I"]).args
        = some ["cc", "a.c", "-I"] := by
  have h := same_result_on_trailing_bare_flag true gcc_config "cc" ["a.c"] "-D"
    (Or.inl rfl) rfl (by intro a _; rfl) (by intro a _; rfl) (by decide)
  exact ⟨⟨h.1, h.2.1⟩, by decide, by decide, by decide, by decide⟩

/-! ## C24: the calls of `drop_arg` -/

/-- C24, the failing input: with an analyzer that is not gcc compatible, on
`[cc, a.c, -iquote]` (`argc = 3`) the pass at `i = 2` calls `drop_arg` twice.  The
first call, with `i = 2 < argc = 3`, moves no token, leaves `argc = 2` and returns
0, so the test `0 < drop_arg(...)` fails and the pass goes on to the label
`drop_it`; the second call is made with `i = 2`, which is not below the current
`argc = 2`: the number of tokens to move is `-1`.  Both versions run into it. -/
theorem drop_arg_called_at_argc :
    drop_arg 3 ["cc", "a.c", "-iquote"] 2 = some (2, ["cc", "a.c", "-iquote"], 0)
    ∧ drop_arg 2 ["cc", "a.c", "-iquote"] 2 = none
    ∧ quote_branch "-iquote" 3 ["cc", "a.c", "-iquote"] 2 1 = .undefined
    ∧ V1.loop_body false 3 ["cc", "a.c", "-iquote"] 2 1 = .undefined
    ∧ V2.loop_body cppcheck_config 3 ["cc", "a.c", "-iquote"] 2 1 = .undefined
    ∧ V1.translate_args_for_analyzer false 3 ["cc", "a.c", "-iquote"] = .undefined
    ∧ V2.translate_args_for_analyzer cppcheck_config 3 ["cc", "a.c", "-iquote"]
        = .undefined := by
  refine ⟨by decide, by decide, by decide, by decide, by decide, by decide, by decide⟩

/-! ## C25: the value returned by `remove_self_from_path` -/

theorem kept_path_length (self : List Char → Bool) :
    ∀ (n : Nat) (s : List Char), s.length ≤ n →
      (kept_path self (split_colons s)).length ≤ s.length
      ∧ (removed_any self (split_colons s) = true →
          (kept_path self (split_colons s)).length < s.length) := by
  intro n
  induction n with
  | zero =>
    intro s hlen
    have : s = [] := List.length_eq_zero.mp (by omega)
    subst this
    simp [split_colons, kept_path, removed_any]
  | succ n ih =>
    intro s hlen
    cases hs : strchr s ':' with
    | none =>
      have hC := strchr_none ':' s hs
      rw [split_colons_no_colon s hC]
      cases s with
      | nil => simp [kept_path, removed_any]
      | cons c cs =>
        cases hself : self (c :: cs) <;> simp [kept_path, removed_any, hself]
    | some term =>
      obtain ⟨pre, t1, hrest, _, hC⟩ := strchr_some ':' s term hs
      subst hrest
      have hlen1 : t1.length ≤ n := by
        simp only [List.length_append, List.length_cons] at hlen; omega
      obtain ⟨h1, h2⟩ := ih t1 hlen1
      rw [split_colons_colon pre t1 hC]
      obtain ⟨seg2, segs, hsegs⟩ : ∃ seg2 segs, split_colons t1 = seg2 :: segs := by
        cases h : split_colons t1 with
        | nil => exact absurd h (split_colons_ne_nil t1)
        | cons a b => exact ⟨a, b, rfl⟩
      rw [hsegs] at h1 h2 ⊢
      cases hself : self pre with
      | true =>
        simp only [kept_path, removed_any, hself, if_true, Bool.true_or, List.length_append,
          List.length_cons, forall_const]
        omega
      | false =>
        simp only [kept_path, removed_any, hself, Bool.false_eq_true, if_false, Bool.false_or,
          List.length_append, List.length_cons]
        refine ⟨by omega, fun h => ?_⟩
        have := h2 h
        omega

/-- C25: the older `remove_self_from_path` on a `PATH` that is given returns, and
returns true exactly when it removed a directory: when one of the directories it
looks at is the wrapper's, in which case the string left is shorter.  When it
returns false the string is the one before the call; the whole block, the
terminating zero included, is left as it was, every separator that was set to
zero being a `:` again.  For the null pointer it returns false. -/
theorem remove_self_true_iff_removed (w t : String) (r : Resolver) (p : String)
    (hN : NUL ∉ p.toList) :
    ∃ found q, V1.remove_self_from_path w t r (some p) = some (found, some q)
      ∧ (found = true ↔ removed_any (is_self w t r) (split_colons p.toList) = true)
      ∧ (found = true ↔ q.length < p.length)
      ∧ (found = false → q = p)
      ∧ (found = false →
          V1.remove_self_loop w t r ((p.toList ++ [NUL]).length + 1) (p.toList ++ [NUL]) 0
            false = some (false, p.toList ++ [NUL]))
      ∧ V1.remove_self_from_path w t r none = some (false, none) := by
  obtain ⟨hspec, hsame⟩ := remove_self_from_path_spec w t r p hN
  obtain ⟨hle, hlt⟩ := kept_path_length (is_self w t r) p.toList.length p.toList (Nat.le_refl _)
  refine ⟨_, _, hspec, Iff.rfl, ?_, ?_, ?_, rfl⟩
  · constructor
    · intro h
      exact hlt h
    · intro h
      cases hr : removed_any (is_self w t r) (split_colons p.toList) with
      | true => rfl
      | false =>
        rw [hsame hr] at h
        exact absurd h (Nat.lt_irrefl _)
  · intro h
    exact hsame h
  · intro h
    obtain ⟨tail1, h1, h2⟩ :=
      remove_self_loop_spec w t r ((p.toList ++ [NUL]).length + 1) p.toList [] [] false hN
        (by simp only [List.length_append, List.length_singleton]; omega)
    have h3 := h2 h
    simp only [List.nil_append, List.length_nil] at h1
    rw [h1, h, h3.1, h3.2]
    rfl

/-- C25, an instance: no directory of `PATH` holds a link to the wrapper, so
false is returned and `PATH` is as before; with the wrapper's directory in
front, true is returned and the string is shorter. -/
theorem remove_self_true_iff_removed_witness :
    (∃ found q, V1.remove_self_from_path "cscppc" "gcc" example_resolver
          (some "/usr/bin:/bin") = some (found, some q)
        ∧ (found = false → q = "/usr/bin:/bin"))
    ∧ V1.remove_self_from_path "cscppc" "gcc" example_resolver (some "/usr/bin:/bin")
        = some (false, some "/usr/bin:/bin")
    ∧ V1.remove_self_from_path "cscppc" "gcc" example_resolver (some "/wrap:/usr/bin")
        = some (true, some "/usr/bin") := by
  refine ⟨?_, by decide, by decide⟩
  obtain ⟨found, q, h1, _, _, h2, _⟩ :=
    remove_self_true_iff_removed "cscppc" "gcc" example_resolver "/usr/bin:/bin" (by decide)
  exact ⟨found, q, h1, h2⟩

end Cscppc
